import Mathlib

/-!
# Yeti: environment chain and tree-walking evaluator

A shallow embedding of `eval/environment.go`, `eval/evaluator.go` and
`eval/importer.go`, of the value model of `runtime/type_impl.go`, of the native
handlers of `runtime/functions.go`, of the keyword table of `token/token.go`
and of `isSingleExpression` of `run/repl.go`.

* Go maps `map[string]Object` are total functions `String → Option Object`.
* `*Environment` pointers are addresses into a store `Mem`; `NewEnvironment`
  allocates the next free address of the evaluator state.
* A Go function returning `(Object, error)` returns `Except GoError Object`;
  a mutating method returning `error` returns the new store and `Option GoError`.
* Recursion through the scope chain and through the syntax tree is bounded by
  a fuel argument; `none` / `Outcome.diverge` stands for a call that has not
  returned within the fuel.
* A `float64` is its bit pattern; comparisons and conversions are computed on
  the fields of the pattern, and the four arithmetic operators are parameters.
* A method of the value model that can panic returns an `Option`, `none` being
  the panic.
-/

namespace Yeti

/-! ## Syntax (the node variants dispatched by `Evaluator.eval`) -/

/-- The token types inspected by `evalBinaryOpNode` and `evalUnaryOpNode`. -/
inductive TokenType where
  | TT_PLUS | TT_MINUS | TT_DIVIDE | TT_MULTIPLY | TT_MODULO
  | TT_EQ | TT_NEQ | TT_LT | TT_LTE | TT_GT | TT_GTE | TT_NOT
  | TT_OTHER (name : String)
  deriving DecidableEq, Repr

/-- AST nodes, with the fields the evaluator reads. Identifiers and literals
carry their token literal. A `deferStmt` carries the fields of its `CallNode`. -/
inductive Node where
  | program (declarations : List Node)
  | block (declarations : List Node)
  | varStmt (identifier : String) (value : Node)
  | expStmt (exp : Node)
  | ifStmt (exp : Node) (trueStmt : Node) (falseStmt : Option Node)
  | whileStmt (condition : Node) (body : Node)
  | breakStmt
  | continueStmt
  | returnStmt (exp : Node)
  | assignment (identifier : String) (value : Node)
  | logicalAnd (lhs : Node) (rhs : Node)
  | logicalOr (lhs : Node) (rhs : Node)
  | exp (exp : Node)
  | ternaryOp (exp : Node) (trueExp : Node) (falseExp : Node)
  | binaryOp (op : TokenType) (leftExp : Node) (rightExp : Node)
  | unaryOp (op : TokenType) (operand : Node)
  | identifier (literal : String)
  | number (literal : String)
  | boolean (literal : String)
  | string (literal : String)
  | list (elements : List Node)
  | map (elements : List (Node × Node))
  | nil
  | call (callee : Node) (arguments : List Node)
  | indexOf (sequence : Node) (index : Node)
  | function (name : String) (params : List String) (body : List Node)
  | deferStmt (callee : Node) (arguments : List Node)
  | assertStmt (exp : Node)
  | comment
  | importStmt (name : String)
  | invalid

/-! ## Runtime values and errors -/

/-- Addresses of heap-allocated `Environment`s (`*Environment`). -/
abbrev Addr := Nat

/-- An IEEE-754 double, carried as its 64-bit pattern; its arithmetic is not
interpreted here. -/
structure Float64 where
  bits : Nat
  deriving DecidableEq, Repr

/-- Runtime values (`Object`). A user function keeps its `FunctionNode` fields
and the address of the environment it captured. -/
inductive Object where
  | number (value : Float64)
  | bool (value : Bool)
  | string (value : String)
  | type (value : String)
  | list (values : List Object)
  | map (entries : List (Object × Object))
  | nil
  | function (name : String) (params : List String) (body : List Node) (env : Addr)
  | nativeFunction (name : String) (arity : Nat) (variadic : Bool)

/-- The singleton `NIL`. -/
def NIL : Object := Object.nil

/-- The constant `TRUE`. -/
def TRUE : Object := Object.bool true

/-- Go `NewBool`. -/
def NewBool (value : Bool) : Object := Object.bool value

/-- Go `NewString`. -/
def NewString (value : String) : Object := Object.string value

/-- Go `NewList`. -/
def NewList (values : List Object) : Object := Object.list values

/-- Go `NewNumber`. -/
def NewNumber (value : Float64) : Object := Object.number value

/-- Go `error` values by dynamic type. The declarations of the signal and
error types are not part of the sources at hand, so the flag `ptr` records
whether the dynamic type is the pointer type (`*BreakError`) or the value type
(`BreakError`): the two are different types for a Go type switch. -/
inductive GoError where
  | breakError (ptr : Bool)
  | continueError (ptr : Bool)
  | returnError (ptr : Bool) (value : Object)
  | evaluateError (ptr : Bool) (node : Node) (err : GoError) (inner : Option GoError)
  | assertError (exp : Node)
  | errorf (msg : String)

/-! ## Environment (`eval/environment.go`) -/

/-- The process-wide table `globals`. -/
abbrev Globals := String → Option Object

/-- Go `RegisterGlobal`: `none` stands for the panic on a duplicate symbol. -/
def RegisterGlobal (globals : Globals) (name : String) (obj : Object) : Option Globals :=
  match globals name with
  | none => some (fun k => if k = name then some obj else globals k)
  | some _ => none

/-- Go `struct Environment`. -/
structure Environment where
  scopeVariables : String → Option Object
  enclosing : Option Addr

/-- The store of allocated environments. -/
abbrev Mem := Addr → Environment

/-- Go `NewEnvironment` (the value it allocates). -/
def NewEnvironment : Environment :=
  { scopeVariables := fun _ => none, enclosing := none }

/-- Go `WithEnclosing`. -/
def Environment.WithEnclosing (e : Environment) (env : Option Addr) : Environment :=
  { e with enclosing := env }

/-- The map store `m[varName] = varValue`. -/
def Environment.set (e : Environment) (varName : String) (varValue : Object) : Environment :=
  { e with scopeVariables := fun k => if k = varName then some varValue else e.scopeVariables k }

/-- Writing one cell of the store. -/
def Mem.write (mem : Mem) (a : Addr) (e : Environment) : Mem :=
  fun b => if b = a then e else mem b

/-- Go `Environment.Declare` on the environment at address `e`. -/
def Declare (globals : Globals) (mem : Mem) (e : Addr) (varName : String) (varValue : Object) :
    Mem × Option GoError :=
  match globals varName with
  | some _ => (mem, some (GoError.errorf ("cannot redeclare global: " ++ varName)))
  | none =>
    match (mem e).scopeVariables varName with
    | some _ => (mem, some (GoError.errorf ("cannot redeclare symbol: " ++ varName)))
    | none => (mem.write e ((mem e).set varName varValue), none)

/-- Go `Environment.Assign` on the environment at address `e`. -/
def Assign (mem : Mem) : Nat → Addr → String → Object → Option (Mem × Option GoError)
  | 0, _, _, _ => none
  | fuel + 1, e, varName, varValue =>
    match (mem e).scopeVariables varName with
    | none =>
      match (mem e).enclosing with
      | some enc => Assign mem fuel enc varName varValue
      | none => some (mem, some (GoError.errorf ("symbol not declared: " ++ varName)))
    | some _ => some (mem.write e ((mem e).set varName varValue), none)

/-- Go `Environment.Get` on the environment at address `e`. -/
def Get (globals : Globals) (mem : Mem) : Nat → Addr → String → Option (Except GoError Object)
  | 0, _, _ => none
  | fuel + 1, e, varName =>
    match globals varName with
    | some val => some (Except.ok val)
    | none =>
      match (mem e).scopeVariables varName with
      | none =>
        match (mem e).enclosing with
        | some enc => Get globals mem fuel enc varName
        | none => some (Except.error (GoError.errorf ("symbol not declared: " ++ varName)))
      | some val => some (Except.ok val)

/-- The scope chain starting at an address: `IsChain mem e ps` says that `ps`
lists `e`, its enclosing scope, and so on up to a scope without enclosing one. -/
inductive IsChain (mem : Mem) : Addr → List Addr → Prop where
  | root (e : Addr) : (mem e).enclosing = none → IsChain mem e [e]
  | step (e enc : Addr) (ps : List Addr) :
      (mem e).enclosing = some enc → IsChain mem enc ps → IsChain mem e (e :: ps)

/-- Scope `p` binds the name `n`. -/
def binds (mem : Mem) (n : String) (p : Addr) : Bool :=
  ((mem p).scopeVariables n).isSome

/-- The innermost scope of a chain that binds `n`. -/
def innermost (mem : Mem) (n : String) (ps : List Addr) : Option Addr :=
  ps.find? (binds mem n)

/-! ## Evaluator state and the parts of package `eval` outside the sources -/

/-- Go `struct Evaluator`, together with the `Importer` it owns and the store of
environments its pointers refer to (`next` is the next free address). -/
structure Evaluator where
  env : Addr
  deferred : List Node
  importSet : String → Bool
  latest : Option String
  mem : Mem
  next : Addr

/-- Go `NewEvaluator`: one empty root environment, nothing deferred or imported. -/
def NewEvaluator : Evaluator :=
  { env := 0, deferred := [], importSet := fun _ => false, latest := none,
    mem := fun _ => NewEnvironment, next := 1 }

/-- Declarations the evaluator uses whose source is not at hand, taken as
parameters: the global table, the dynamic types built by the error
constructors, the operator tables of the value model, the native handlers,
and the module loader and parser behind `Importer.Import`. -/
structure Host where
  globals : Globals
  breakPtr : Bool
  continuePtr : Bool
  returnPtr : Bool
  evaluatePtr : Bool
  IsTruthy : Object → Bool
  Add : Object → Object → Except GoError Object
  Subtract : Object → Object → Except GoError Object
  Divide : Object → Object → Except GoError Object
  Multiply : Object → Object → Except GoError Object
  Modulo : Object → Object → Except GoError Object
  EqualTo : Object → Object → Object
  NotEqualTo : Object → Object → Object
  LessThan : Object → Object → Object
  LessThanEq : Object → Object → Object
  GreaterThan : Object → Object → Object
  GreaterThanEq : Object → Object → Object
  Negate : Object → Except GoError Object
  Not : Object → Except GoError Object
  ItemAtIndex : Object → Object → Except GoError Object
  NewMap : Object
  MapAdd : Object → Object → Object → Except GoError Object
  ParseFloat : String → Except GoError Float64
  objString : Object → String
  objType : Object → String
  callNative : String → List Object → Except GoError Object
  NewFileModule : String → String
  moduleData : String → Except GoError String
  RootNode : String → Except GoError Node
  NewErrorFormatter : GoError → String → Bool

/-- Go `NewBreakError()`. -/
def NewBreakError (h : Host) : GoError := GoError.breakError h.breakPtr

/-- Go `NewContinueError()`. -/
def NewContinueError (h : Host) : GoError := GoError.continueError h.continuePtr

/-- Go `NewReturnError(val)`. -/
def NewReturnError (h : Host) (val : Object) : GoError := GoError.returnError h.returnPtr val

/-- Go `NewAssertError(exp)`. -/
def NewAssertError (exp : Node) : GoError := GoError.assertError exp

/-- Go `NewEvaluateError(node, err, opts...)`; `inner` is the `WithInnerError` option. -/
def NewEvaluateError (h : Host) (node : Node) (err : GoError) (inner : Option GoError) : GoError :=
  GoError.evaluateError h.evaluatePtr node err inner

/-- Go `strconv.ParseBool`. -/
def ParseBool (str : String) : Except GoError Bool :=
  if str = "1" ∨ str = "t" ∨ str = "T" ∨ str = "TRUE" ∨ str = "true" ∨ str = "True" then
    Except.ok true
  else if str = "0" ∨ str = "f" ∨ str = "F" ∨ str = "FALSE" ∨ str = "false" ∨ str = "False" then
    Except.ok false
  else Except.error (GoError.errorf ("strconv.ParseBool: parsing " ++ str ++ ": invalid syntax"))

/-- The type assertion `obj.(Callable)`: user and native functions are the
callable values. -/
def isCallable : Object → Bool
  | Object.function _ _ _ _ => true
  | Object.nativeFunction _ _ _ => true
  | _ => false

/-- Modelled from the spec: `Callable.Arity` (file function.go is missing); a
user function's arity is its number of formals, a native one's is declared. -/
def Arity : Object → Nat
  | Object.function _ params _ _ => params.length
  | Object.nativeFunction _ arity _ => arity
  | _ => 0

/-- Modelled from the spec: `Callable.Variadic` (file function.go is missing);
only a native function carries a variadic flag. -/
def Variadic : Object → Bool
  | Object.nativeFunction _ _ variadic => variadic
  | _ => false

/-! ## Outcomes of a call into the evaluator -/

/-- What a call of an evaluator method does: it returns a result in a new
state, ends the process (`os.Exit`), or is still running when the fuel ends. -/
inductive Outcome (α : Type) where
  | ret (r : α) (s : Evaluator)
  | exit (code : Nat)
  | diverge

/-- An evaluator method returning `(α, error)`. -/
abbrev Eval (α : Type) := Evaluator → Outcome (Except GoError α)

/-- Returning `(a, nil)`. -/
def Eval.pure {α : Type} (a : α) : Eval α := fun s => Outcome.ret (Except.ok a) s

/-- Returning `(NIL, err)`. -/
def Eval.fail {α : Type} (err : GoError) : Eval α := fun s => Outcome.ret (Except.error err) s

/-- The Go idiom `a, err := m(); if err != nil { return NIL, err }; k(a)`. -/
def Eval.andThen {α β : Type} (m : Eval α) (k : α → Eval β) : Eval β := fun s =>
  match m s with
  | Outcome.ret (Except.ok a) s1 => k a s1
  | Outcome.ret (Except.error err) s1 => Outcome.ret (Except.error err) s1
  | Outcome.exit c => Outcome.exit c
  | Outcome.diverge => Outcome.diverge

/-- Returning the pure result `r` without touching the state. -/
def Eval.lift {α : Type} (r : Except GoError α) : Eval α := fun s => Outcome.ret r s

/-! ## Evaluator (`eval/evaluator.go`)

Every method takes `ev`, the method `Evaluator.eval` it calls back into. -/

/-- Go `Evaluator.wrapResult`. The cases `BreakError` and `ContinueError` of the
type switch are empty and leave the switch for the final `return obj, err`;
an error of a pointer type matches none of the value types and is wrapped by
the `default` case. -/
def wrapResult (h : Host) (node : Node) (r : Except GoError Object) : Except GoError Object :=
  match r with
  | Except.ok obj => Except.ok obj
  | Except.error err =>
    match err with
    | GoError.breakError false => Except.error err
    | GoError.continueError false => Except.error err
    | GoError.returnError false _ => Except.error err
    | GoError.evaluateError false _ _ _ => Except.error (NewEvaluateError h node err (some err))
    | _ => Except.error (NewEvaluateError h node err none)

/-- The line `obj, err := e.evalXNode(node); return e.wrapResult(node, obj, err)`. -/
def wrap (h : Host) (node : Node) (m : Eval Object) : Eval Object := fun s =>
  match m s with
  | Outcome.ret r s1 => Outcome.ret (wrapResult h node r) s1
  | Outcome.exit c => Outcome.exit c
  | Outcome.diverge => Outcome.diverge

/-- The loop `for _, node := range node.Declarations` of `evalProgramNode` and
`evalBlockNodeWithEnv`: the first error is returned. -/
def evalDeclarations (ev : Node → Eval Object) : List Node → Eval Unit
  | [] => Eval.pure ()
  | node :: rest => (ev node).andThen (fun _ => evalDeclarations ev rest)

/-- Go `Evaluator.evalProgramNode`. -/
def evalProgramNode (ev : Node → Eval Object) (declarations : List Node) : Eval Object :=
  (evalDeclarations ev declarations).andThen (fun _ => Eval.pure NIL)

/-- The loop of `runDeferred` over the calls taken from the queue. -/
def runCalls (ev : Node → Eval Object) : List Node → Eval Object
  | [] => Eval.pure NIL
  | call :: rest => (ev call).andThen (fun _ => runCalls ev rest)

/-- Go `Evaluator.runDeferred`. -/
def runDeferred (ev : Node → Eval Object) : Eval Object := fun s =>
  let deferred := s.deferred
  runCalls ev deferred { s with deferred := [] }

/-- Go `Evaluator.evalBlockNodeWithEnv`; the deferred function restores `e.env`
whenever the method returns. -/
def evalBlockNodeWithEnv (ev : Node → Eval Object) (declarations : List Node) (env : Addr) :
    Eval Object := fun s =>
  let prev := s.env
  match ((evalDeclarations ev declarations).andThen (fun _ => runDeferred ev))
      { s with env := env } with
  | Outcome.ret r s1 => Outcome.ret r { s1 with env := prev }
  | Outcome.exit c => Outcome.exit c
  | Outcome.diverge => Outcome.diverge

/-- The allocation `NewEnvironment().WithEnclosing(enclosing)`: the new
environment is stored at the next free address, which is returned. -/
def allocEnclosed (s : Evaluator) (enclosing : Addr) : Addr × Evaluator :=
  (s.next, { s with mem := s.mem.write s.next (NewEnvironment.WithEnclosing (some enclosing)),
                    next := s.next + 1 })

/-- Go `Evaluator.evalBlockNode`. -/
def evalBlockNode (ev : Node → Eval Object) (declarations : List Node) : Eval Object := fun s =>
  evalBlockNodeWithEnv ev declarations (allocEnclosed s s.env).1 (allocEnclosed s s.env).2

/-- Go `e.env.Declare(name, value)` inside an evaluator method. -/
def envDeclare (h : Host) (varName : String) (varValue : Object) : Eval Unit := fun s =>
  match Declare h.globals s.mem s.env varName varValue with
  | (mem, none) => Outcome.ret (Except.ok ()) { s with mem := mem }
  | (mem, some err) => Outcome.ret (Except.error err) { s with mem := mem }

/-- Go `e.env.Assign(name, value)` inside an evaluator method. -/
def envAssign (fuel : Nat) (varName : String) (varValue : Object) : Eval Unit := fun s =>
  match Assign s.mem fuel s.env varName varValue with
  | some (mem, none) => Outcome.ret (Except.ok ()) { s with mem := mem }
  | some (mem, some err) => Outcome.ret (Except.error err) { s with mem := mem }
  | none => Outcome.diverge

/-- Go `e.env.Get(name)` inside an evaluator method. -/
def envGet (h : Host) (fuel : Nat) (varName : String) : Eval Object := fun s =>
  match Get h.globals s.mem fuel s.env varName with
  | some r => Outcome.ret r s
  | none => Outcome.diverge

/-- Go `Evaluator.evalVarStmtNode`. -/
def evalVarStmtNode (h : Host) (ev : Node → Eval Object) (identifier : String) (value : Node) :
    Eval Object :=
  (ev value).andThen fun value =>
  (envDeclare h identifier value).andThen fun _ => Eval.pure NIL

/-- Go `Evaluator.evalExpStmtNode`. -/
def evalExpStmtNode (ev : Node → Eval Object) (exp : Node) : Eval Object := ev exp

/-- Go `Evaluator.evalIfStmtNode`. -/
def evalIfStmtNode (h : Host) (ev : Node → Eval Object) (exp trueStmt : Node)
    (falseStmt : Option Node) : Eval Object :=
  (ev exp).andThen fun value =>
  if h.IsTruthy value then ev trueStmt
  else match falseStmt with
    | some falseStmt => ev falseStmt
    | none => Eval.pure NIL

/-- The `for` loop of `evalWhileStmtNode`; `n` bounds the number of
iterations. The type switch names the pointer types `*BreakError` and
`*ContinueError`. -/
def whileLoop (h : Host) (ev : Node → Eval Object) (condition body : Node) : Nat → Eval Object
  | 0 => fun _ => Outcome.diverge
  | n + 1 =>
    (ev condition).andThen fun c =>
    if h.IsTruthy c then fun s =>
      match ev body s with
      | Outcome.ret (Except.ok _) s1 => whileLoop h ev condition body n s1
      | Outcome.ret (Except.error err) s1 =>
        match err with
        | GoError.breakError true => Outcome.ret (Except.ok NIL) s1
        | GoError.continueError true => whileLoop h ev condition body n s1
        | _ => Outcome.ret (Except.error err) s1
      | Outcome.exit c => Outcome.exit c
      | Outcome.diverge => Outcome.diverge
    else Eval.pure NIL

/-- Go `Evaluator.evalWhileStmtNode`. -/
def evalWhileStmtNode (h : Host) (ev : Node → Eval Object) (fuel : Nat)
    (condition body : Node) : Eval Object :=
  whileLoop h ev condition body fuel

/-- Go `Evaluator.evalBreakStmtNode`. -/
def evalBreakStmtNode (h : Host) : Eval Object := Eval.fail (NewBreakError h)

/-- Go `Evaluator.evalContinueStmtNode`. -/
def evalContinueStmtNode (h : Host) : Eval Object := Eval.fail (NewContinueError h)

/-- Go `Evaluator.evalAssignmentNode`. -/
def evalAssignmentNode (ev : Node → Eval Object) (fuel : Nat) (identifier : String)
    (value : Node) : Eval Object :=
  (ev value).andThen fun value =>
  (envAssign fuel identifier value).andThen fun _ => Eval.pure NIL

/-- Go `Evaluator.evalLogicalAndNode`. -/
def evalLogicalAndNode (h : Host) (ev : Node → Eval Object) (lhs rhs : Node) : Eval Object :=
  (ev lhs).andThen fun left =>
  (ev rhs).andThen fun right =>
  Eval.pure (NewBool (h.IsTruthy left && h.IsTruthy right))

/-- Go `Evaluator.evalLogicalOrNode`. -/
def evalLogicalOrNode (h : Host) (ev : Node → Eval Object) (lhs rhs : Node) : Eval Object :=
  (ev lhs).andThen fun left =>
  if h.IsTruthy left then Eval.pure TRUE
  else (ev rhs).andThen fun right => Eval.pure (NewBool (h.IsTruthy right))

/-- Go `Evaluator.evalTernaryOpNode`. -/
def evalTernaryOpNode (h : Host) (ev : Node → Eval Object) (exp trueExp falseExp : Node) :
    Eval Object :=
  (ev exp).andThen fun value =>
  if h.IsTruthy value then ev trueExp else ev falseExp

/-- The `switch node.Op.Type` of `evalBinaryOpNode`. -/
def binaryOp (h : Host) (op : TokenType) (left right : Object) : Except GoError Object :=
  match op with
  | TokenType.TT_PLUS => h.Add left right
  | TokenType.TT_MINUS => h.Subtract left right
  | TokenType.TT_DIVIDE => h.Divide left right
  | TokenType.TT_MULTIPLY => h.Multiply left right
  | TokenType.TT_MODULO => h.Modulo left right
  | TokenType.TT_EQ => Except.ok (h.EqualTo left right)
  | TokenType.TT_NEQ => Except.ok (h.NotEqualTo left right)
  | TokenType.TT_LT => Except.ok (h.LessThan left right)
  | TokenType.TT_LTE => Except.ok (h.LessThanEq left right)
  | TokenType.TT_GT => Except.ok (h.GreaterThan left right)
  | TokenType.TT_GTE => Except.ok (h.GreaterThanEq left right)
  | _ => Except.error (GoError.errorf "invalid binary op")

/-- Go `Evaluator.evalBinaryOpNode`. -/
def evalBinaryOpNode (h : Host) (ev : Node → Eval Object) (op : TokenType)
    (leftExp rightExp : Node) : Eval Object :=
  (ev leftExp).andThen fun left =>
  (ev rightExp).andThen fun right =>
  Eval.lift (binaryOp h op left right)

/-- Go `Evaluator.evalUnaryOpNode`. -/
def evalUnaryOpNode (h : Host) (ev : Node → Eval Object) (op : TokenType) (operand : Node) :
    Eval Object :=
  (ev operand).andThen fun val =>
  if op = TokenType.TT_MINUS then Eval.lift (h.Negate val)
  else if op = TokenType.TT_NOT then Eval.lift (h.Not val)
  else Eval.fail (GoError.errorf "invalid unary op")

/-- Go `Evaluator.evalIdentifierNode`. -/
def evalIdentifierNode (h : Host) (fuel : Nat) (literal : String) : Eval Object :=
  envGet h fuel literal

/-- Go `Evaluator.evalNumberNode`. -/
def evalNumberNode (h : Host) (literal : String) : Eval Object :=
  match h.ParseFloat literal with
  | Except.error err => Eval.fail err
  | Except.ok val => Eval.pure (NewNumber val)

/-- Go `Evaluator.evalBooleanNode`. -/
def evalBooleanNode (literal : String) : Eval Object :=
  match ParseBool literal with
  | Except.error err => Eval.fail err
  | Except.ok val => Eval.pure (NewBool val)

/-- Go `Evaluator.evalStringNode`. -/
def evalStringNode (literal : String) : Eval Object := Eval.pure (NewString literal)

/-- Go `Evaluator.evalNilNode`. -/
def evalNilNode : Eval Object := Eval.pure NIL

/-- Go `Evaluator.evalCommentNode`. -/
def evalCommentNode : Eval Object := Eval.pure NIL

/-- Go `Evaluator.evalNodes`. -/
def evalNodes (ev : Node → Eval Object) : List Node → Eval (List Object)
  | [] => Eval.pure []
  | arg :: rest =>
    (ev arg).andThen fun argval =>
    (evalNodes ev rest).andThen fun argValues => Eval.pure (argval :: argValues)

/-- Go `Evaluator.evalListNode`. -/
def evalListNode (ev : Node → Eval Object) (elements : List Node) : Eval Object :=
  (evalNodes ev elements).andThen fun elements => Eval.pure (NewList elements)

/-- The loop of `evalMapNode` over the key-value pairs, `m` the map so far. -/
def evalMapElements (h : Host) (ev : Node → Eval Object) : List (Node × Node) → Object → Eval Object
  | [], m => Eval.pure m
  | kvp :: rest, m =>
    (ev kvp.1).andThen fun key =>
    (ev kvp.2).andThen fun value =>
    (Eval.lift (h.MapAdd m key value)).andThen fun m => evalMapElements h ev rest m

/-- Go `Evaluator.evalMapNode`. -/
def evalMapNode (h : Host) (ev : Node → Eval Object) (elements : List (Node × Node)) :
    Eval Object :=
  evalMapElements h ev elements h.NewMap

/-- Go `Evaluator.evalIndexOfNode`. -/
def evalIndexOfNode (h : Host) (ev : Node → Eval Object) (sequence index : Node) : Eval Object :=
  (ev sequence).andThen fun seq =>
  (ev index).andThen fun idx =>
  Eval.lift (h.ItemAtIndex seq idx)

/-- Go `NewUserFunction(node, e.env)`. -/
def NewUserFunction (name : String) (params : List String) (body : List Node) (env : Addr) :
    Object :=
  Object.function name params body env

/-- Go `Evaluator.evalFunctionNode`. -/
def evalFunctionNode (h : Host) (name : String) (params : List String) (body : List Node) :
    Eval Object := fun s =>
  let fn := NewUserFunction name params body s.env
  ((envDeclare h name fn).andThen fun _ => Eval.pure fn) s

/-- Go `Evaluator.evalReturnStmtNode`. -/
def evalReturnStmtNode (h : Host) (ev : Node → Eval Object) (exp : Node) : Eval Object :=
  (ev exp).andThen fun val => Eval.fail (NewReturnError h val)

/-- Go `Evaluator.evalDeferStmtNode`. -/
def evalDeferStmtNode (callee : Node) (arguments : List Node) : Eval Object := fun s =>
  Outcome.ret (Except.ok NIL) { s with deferred := s.deferred ++ [Node.call callee arguments] }

/-- Go `Evaluator.evalAssertStmtNode`. -/
def evalAssertStmtNode (h : Host) (ev : Node → Eval Object) (exp : Node) : Eval Object :=
  (ev exp).andThen fun v =>
  if h.IsTruthy v then Eval.pure NIL else Eval.fail (NewAssertError exp)

/-- The formals of a call bound to its actuals, left to right, by `Declare` in
the environment at `env`; the first failure stops. -/
def declareFormals (globals : Globals) (env : Addr) :
    List String → List Object → Mem → Mem × Option GoError
  | param :: params, arg :: args, mem =>
    match Declare globals mem env param arg with
    | (mem1, none) => declareFormals globals env params args mem1
    | (mem1, some err) => (mem1, some err)
  | _, _, mem => (mem, none)

/-- Modelled from the spec: `Function.Call` of a user function (file
function.go is missing), section 4.4 steps 3 to 6: create a fresh environment
enclosing the captured one and declare each formal bound to its actual;
execute the body as a block in that environment; the result is the value of a
return signal if present, else Nil; any other error propagates. -/
def callFunction (h : Host) (ev : Node → Eval Object) (params : List String)
    (body : List Node) (closure : Addr) (args : List Object) : Eval Object := fun s =>
  let env := (allocEnclosed s closure).1
  let s1 := (allocEnclosed s closure).2
  match declareFormals h.globals env params args s1.mem with
  | (mem, some err) => Outcome.ret (Except.error err) { s1 with mem := mem }
  | (mem, none) =>
    match evalBlockNodeWithEnv ev body env { s1 with mem := mem } with
    | Outcome.ret (Except.ok _) s2 => Outcome.ret (Except.ok NIL) s2
    | Outcome.ret (Except.error (GoError.returnError _ value)) s2 =>
      Outcome.ret (Except.ok value) s2
    | Outcome.ret (Except.error err) s2 => Outcome.ret (Except.error err) s2
    | Outcome.exit c => Outcome.exit c
    | Outcome.diverge => Outcome.diverge

/-- Go `callable.Call(e, argValues)`: a user function runs its body, a native
function its host handler. -/
def Call (h : Host) (ev : Node → Eval Object) (callable : Object) (args : List Object) :
    Eval Object :=
  match callable with
  | Object.function _ params body closure => callFunction h ev params body closure args
  | Object.nativeFunction name _ _ => Eval.lift (h.callNative name args)
  | _ => Eval.fail (GoError.errorf "not callable")

/-- The callee resolution of `evalCallNode`: the callee value itself when it
is callable, else the value bound to its string form. -/
def resolveCallable (h : Host) (fuel : Nat) (calleeNode : Object) : Eval Object :=
  if isCallable calleeNode then Eval.pure calleeNode
  else fun s =>
    match Get h.globals s.mem fuel s.env (h.objString calleeNode) with
    | none => Outcome.diverge
    | some (Except.error _) =>
      Outcome.ret (Except.error (GoError.errorf (h.objType calleeNode ++ " is not callable"))) s
    | some (Except.ok calleeValue) =>
      if isCallable calleeValue then Outcome.ret (Except.ok calleeValue) s
      else Outcome.ret
        (Except.error (GoError.errorf (h.objType calleeValue ++ " is not callable"))) s

/-- Go `Evaluator.evalCallNode`. -/
def evalCallNode (h : Host) (ev : Node → Eval Object) (fuel : Nat) (callee : Node)
    (arguments : List Node) : Eval Object :=
  (ev callee).andThen fun calleeNode =>
  (resolveCallable h fuel calleeNode).andThen fun callable =>
  if !Variadic callable && Arity callable != arguments.length then
    Eval.fail (GoError.errorf ("incorrect number of arguments to " ++ h.objString callable ++
      " - " ++ toString (Arity callable) ++ " expected " ++ toString arguments.length ++
      " provided"))
  else
    (evalNodes ev arguments).andThen fun argValues =>
    Call h ev callable argValues

/-- Go `Importer.Import` (`eval/importer.go`) for the module `m`; a formatted
error ends the process with `os.Exit(1)`. -/
def Import (h : Host) (ev : Node → Eval Object) (m : String) : Eval Unit := fun s =>
  if s.importSet m then Outcome.ret (Except.ok ()) s
  else
    match h.moduleData m with
    | Except.error err => Outcome.ret (Except.error err) s
    | Except.ok cmds =>
      match h.RootNode cmds with
      | Except.error err =>
        if h.NewErrorFormatter err m then Outcome.exit 1
        else Outcome.ret (Except.error err) s
      | Except.ok root =>
        match ev root { s with latest := some m,
                               importSet := fun k => if k = m then true else s.importSet k } with
        | Outcome.ret (Except.error err) s1 =>
          if h.NewErrorFormatter err (s1.latest.getD m) then Outcome.exit 1
          else Outcome.ret (Except.error err) s1
        | Outcome.ret (Except.ok _) s1 => Outcome.ret (Except.ok ()) s1
        | Outcome.exit c => Outcome.exit c
        | Outcome.diverge => Outcome.diverge

/-- Go `Evaluator.evalImportNode`. -/
def evalImportNode (h : Host) (ev : Node → Eval Object) (name : String) : Eval Object :=
  (Import h ev (h.NewFileModule name)).andThen fun _ => Eval.pure NIL

/-- Go `Evaluator.eval`: the dispatch on the node variant, each result passed
through `wrapResult`. -/
def eval (h : Host) : Nat → Node → Eval Object
  | 0, _ => fun _ => Outcome.diverge
  | fuel + 1, node =>
    match node with
    | Node.program declarations => wrap h node (evalProgramNode (eval h fuel) declarations)
    | Node.block declarations => wrap h node (evalBlockNode (eval h fuel) declarations)
    | Node.varStmt identifier value =>
      wrap h node (evalVarStmtNode h (eval h fuel) identifier value)
    | Node.expStmt exp => wrap h node (evalExpStmtNode (eval h fuel) exp)
    | Node.ifStmt exp trueStmt falseStmt =>
      wrap h node (evalIfStmtNode h (eval h fuel) exp trueStmt falseStmt)
    | Node.whileStmt condition body =>
      wrap h node (evalWhileStmtNode h (eval h fuel) fuel condition body)
    | Node.breakStmt => wrap h node (evalBreakStmtNode h)
    | Node.continueStmt => wrap h node (evalContinueStmtNode h)
    | Node.returnStmt exp => wrap h node (evalReturnStmtNode h (eval h fuel) exp)
    | Node.assignment identifier value =>
      wrap h node (evalAssignmentNode (eval h fuel) fuel identifier value)
    | Node.logicalAnd lhs rhs => wrap h node (evalLogicalAndNode h (eval h fuel) lhs rhs)
    | Node.logicalOr lhs rhs => wrap h node (evalLogicalOrNode h (eval h fuel) lhs rhs)
    | Node.exp exp => wrap h node (eval h fuel exp)
    | Node.ternaryOp exp trueExp falseExp =>
      wrap h node (evalTernaryOpNode h (eval h fuel) exp trueExp falseExp)
    | Node.binaryOp op leftExp rightExp =>
      wrap h node (evalBinaryOpNode h (eval h fuel) op leftExp rightExp)
    | Node.unaryOp op operand => wrap h node (evalUnaryOpNode h (eval h fuel) op operand)
    | Node.identifier literal => wrap h node (evalIdentifierNode h fuel literal)
    | Node.number literal => wrap h node (evalNumberNode h literal)
    | Node.boolean literal => wrap h node (evalBooleanNode literal)
    | Node.string literal => wrap h node (evalStringNode literal)
    | Node.list elements => wrap h node (evalListNode (eval h fuel) elements)
    | Node.map elements => wrap h node (evalMapNode h (eval h fuel) elements)
    | Node.nil => wrap h node evalNilNode
    | Node.call callee arguments =>
      wrap h node (evalCallNode h (eval h fuel) fuel callee arguments)
    | Node.indexOf sequence index =>
      wrap h node (evalIndexOfNode h (eval h fuel) sequence index)
    | Node.function name params body => wrap h node (evalFunctionNode h name params body)
    | Node.deferStmt callee arguments => wrap h node (evalDeferStmtNode callee arguments)
    | Node.assertStmt exp => wrap h node (evalAssertStmtNode h (eval h fuel) exp)
    | Node.comment => wrap h node evalCommentNode
    | Node.importStmt name => wrap h node (evalImportNode h (eval h fuel) name)
    | Node.invalid => Eval.fail (GoError.errorf "invalid node")

/-- Go `Evaluator.Evaluate`. -/
def Evaluate (h : Host) (fuel : Nat) (root : Node) : Eval Object := eval h fuel root

/-! ## Specification vocabulary and example data -/

/-- Stores reachable from the single empty environment of a new evaluator by
`Declare`, `Assign` and the creation of enclosed scopes, for a fixed global
table; the last index is the next free address. -/
inductive Reachable (globals : Globals) : Mem → Addr → Prop where
  | init : Reachable globals (fun _ => NewEnvironment) 1
  | declare (mem : Mem) (next e : Addr) (n : String) (v : Object) :
      Reachable globals mem next → Reachable globals (Declare globals mem e n v).1 next
  | assign (mem : Mem) (next : Addr) (fuel : Nat) (e : Addr) (n : String) (v : Object)
      (mem1 : Mem) (r : Option GoError) :
      Reachable globals mem next → Assign mem fuel e n v = some (mem1, r) →
      Reachable globals mem1 next
  | enclose (mem : Mem) (next enc : Addr) :
      Reachable globals mem next →
      Reachable globals (mem.write next (NewEnvironment.WithEnclosing (some enc))) (next + 1)

/-- What a call into the evaluator may do to the store it was entered with:
the current environment pointer is the same at return, no address is
released, and each environment that existed at entry keeps its enclosing
pointer and, unless it is the current one, its set of bound names. -/
structure Frame (s s1 : Evaluator) : Prop where
  env : s1.env = s.env
  next : s.next ≤ s1.next
  enclosing : ∀ a, a < s.next → (s1.mem a).enclosing = (s.mem a).enclosing
  names : ∀ a, a < s.next → a ≠ s.env → ∀ k, binds s1.mem k a = binds s.mem k a

/-- An evaluator method that respects `Frame` whenever it returns. -/
def Framed {α : Type} (m : Eval α) : Prop :=
  ∀ s r s1, s.env < s.next → m s = Outcome.ret r s1 → Frame s s1

/-- A store for examples: scope 1 is empty and enclosed by the root scope 0,
which binds `x` to the string `old`. -/
def exampleMem : Mem := fun a =>
  if a = 1 then { scopeVariables := fun _ => none, enclosing := some 0 }
  else { scopeVariables := fun k => if k = "x" then some (NewString "old") else none,
         enclosing := none }

/-- A global table for examples: the native function `type`. -/
def exampleGlobals : Globals := fun k =>
  if k = "type" then some (Object.nativeFunction "type" 1 false) else none

/-- Method `Truthy` as in `runtime/type_impl.go` (zero, the empty string, the empty
list, false and nil are falsy), used by the example host. -/
def exampleIsTruthy : Object → Bool
  | Object.number value => !(value.bits = 0 ∨ value.bits = 2 ^ 63)
  | Object.bool value => value
  | Object.string value => 0 < value.length
  | Object.type _ => true
  | Object.list values => 0 < values.length
  | Object.map entries => 0 < entries.length
  | Object.nil => false
  | Object.function _ _ _ _ => true
  | Object.nativeFunction _ _ _ => true

/-- A host for examples. `ptr` chooses whether the signal constructors build
pointer values (`*BreakError`) or plain values (`BreakError`). Operators and
modules are not needed by the examples and fail. -/
def exampleHost (ptr : Bool) : Host :=
  { globals := exampleGlobals
    breakPtr := ptr
    continuePtr := ptr
    returnPtr := ptr
    evaluatePtr := ptr
    IsTruthy := exampleIsTruthy
    Add := fun _ _ => Except.error (GoError.errorf "unsupported")
    Subtract := fun _ _ => Except.error (GoError.errorf "unsupported")
    Divide := fun _ _ => Except.error (GoError.errorf "unsupported")
    Multiply := fun _ _ => Except.error (GoError.errorf "unsupported")
    Modulo := fun _ _ => Except.error (GoError.errorf "unsupported")
    EqualTo := fun _ _ => NewBool false
    NotEqualTo := fun _ _ => NewBool true
    LessThan := fun _ _ => NewBool false
    LessThanEq := fun _ _ => NewBool false
    GreaterThan := fun _ _ => NewBool false
    GreaterThanEq := fun _ _ => NewBool false
    Negate := fun _ => Except.error (GoError.errorf "unsupported")
    Not := fun v => Except.ok (NewBool (!exampleIsTruthy v))
    ItemAtIndex := fun _ _ => Except.error (GoError.errorf "unsupported")
    NewMap := Object.map []
    MapAdd := fun _ _ _ => Except.error (GoError.errorf "unsupported")
    ParseFloat := fun _ => Except.error (GoError.errorf "unsupported")
    objString := fun _ => ""
    objType := fun _ => "object"
    callNative := fun _ _ => Except.ok NIL
    NewFileModule := fun name => name
    moduleData := fun _ => Except.error (GoError.errorf "no such module")
    RootNode := fun _ => Except.error (GoError.errorf "no parser")
    NewErrorFormatter := fun _ _ => false }

/-- The block exit as the specification words it (a second definition, to be
compared with `runDeferred`): the queued calls are evaluated last deferred
first. -/
def runDeferredLastFirst (ev : Node → Eval Object) : Eval Object := fun s =>
  runCalls ev s.deferred.reverse { s with deferred := [] }

/-- The method `evalBlockNodeWithEnv` with the block exit of the specification,
`runDeferredLastFirst`, in place of `runDeferred`. -/
def evalBlockNodeWithEnvLastFirst (ev : Node → Eval Object) (declarations : List Node) (env : Addr) :
    Eval Object := fun s =>
  let prev := s.env
  match ((evalDeclarations ev declarations).andThen (fun _ => runDeferredLastFirst ev))
      { s with env := env } with
  | Outcome.ret r s1 => Outcome.ret r { s1 with env := prev }
  | Outcome.exit c => Outcome.exit c
  | Outcome.diverge => Outcome.diverge

/-- The declaration `fun name() { x = lit; }`. -/
def exampleSetter (name lit : String) : Node :=
  Node.function name [] [Node.assignment "x" (Node.string lit)]

/-- The program `var x = ""; fun g() { x = "g"; } fun h() { x = "h"; }`. -/
def examplePrelude : Node :=
  Node.program [Node.varStmt "x" (Node.string ""), exampleSetter "g" "g", exampleSetter "h" "h"]

/-- The call `name()`. -/
def exampleCall (name : String) : Node := Node.call (Node.identifier name) []

/-- The declarations of the block `{ defer g(); defer h(); }`. -/
def exampleDeferBlock : List Node :=
  [Node.deferStmt (Node.identifier "g") [], Node.deferStmt (Node.identifier "h") []]

/-- The method `evalBlockNode` with the block exit of the specification. -/
def evalBlockNodeLastFirst (ev : Node → Eval Object) (declarations : List Node) : Eval Object :=
  fun s =>
  evalBlockNodeWithEnvLastFirst ev declarations (allocEnclosed s s.env).1 (allocEnclosed s s.env).2

/-- The state in which the program `examplePrelude` leaves a new evaluator. -/
def exampleState : Evaluator :=
  match eval (exampleHost false) 4 examplePrelude NewEvaluator with
  | Outcome.ret _ s => s
  | _ => NewEvaluator

/-- What the examples observe of a call that returned: whether it returned
without error, the string bound to `name` in scope `a` of the final state (if
a string is bound there), and the length of the final deferred queue. -/
def Outcome.observe (o : Outcome (Except GoError Object)) (a : Addr) (name : String) :
    Option (Bool × Option String × Nat) :=
  match o with
  | Outcome.ret r s =>
    some (
      (match r with
        | Except.ok _ => true
        | Except.error _ => false),
      (match (s.mem a).scopeVariables name with
        | some (Object.string v) => some v
        | _ => none),
      s.deferred.length)
  | _ => none

/-- An evaluator state for examples: the store `exampleMem` with the inner
scope 1 current, and nothing deferred. -/
def exampleEvaluator : Evaluator :=
  { env := 1, deferred := [], importSet := fun _ => false, latest := none,
    mem := exampleMem, next := 2 }

/-- The message of the `fmt.Errorf` at the root of an error, under the
`EvaluateError` wrappers. -/
def GoError.rootMessage : GoError → String
  | GoError.errorf msg => msg
  | GoError.evaluateError _ _ err _ => err.rootMessage
  | GoError.breakError _ => "break"
  | GoError.continueError _ => "continue"
  | GoError.returnError _ _ => "return"
  | GoError.assertError _ => "assert"

/-- The root message of the error a call returned, if it returned one. -/
def Outcome.failure (o : Outcome (Except GoError Object)) : Option String :=
  match o with
  | Outcome.ret (Except.error err) _ => some err.rootMessage
  | _ => none

/-- The declarations of the block `{ defer a(); defer b(); }`. -/
def exampleUndeclaredDefers : List Node :=
  [Node.deferStmt (Node.identifier "a") [], Node.deferStmt (Node.identifier "b") []]


/-! ## Value model (`runtime/type_impl.go`)

A method takes the payload of its receiver. A method that can panic returns an
`Option`, where `none` stands for the run-time panic (a failed type assertion
`other.(T)` or an index outside a slice or string). -/

/-- The sign bit of a double. -/
def Float64.sign (f : Float64) : Nat := f.bits / 2 ^ 63 % 2

/-- The biased exponent field of a double. -/
def Float64.exponent (f : Float64) : Nat := f.bits / 2 ^ 52 % 2 ^ 11

/-- The fraction field of a double. -/
def Float64.mantissa (f : Float64) : Nat := f.bits % 2 ^ 52

/-- The double `0`. -/
def Float64.zero : Float64 := ⟨0⟩

/-- The double `-1`. -/
def Float64.minusOne : Float64 := ⟨0xBFF0000000000000⟩

/-- Not-a-number: all exponent bits set and a fraction that is not zero. -/
def Float64.isNaN (f : Float64) : Bool := f.exponent = 2047 && f.mantissa != 0

/-- The position of a double that is not NaN in the order of the doubles:
doubles of one sign are ordered as their magnitude bits, and both zeros have
position 0. -/
def Float64.key (f : Float64) : Int :=
  if f.sign = 1 then -((f.exponent * 2 ^ 52 + f.mantissa : Nat) : Int)
  else ((f.exponent * 2 ^ 52 + f.mantissa : Nat) : Int)

/-- Go `a == b` on `float64`. -/
def Float64.eq (a b : Float64) : Bool := !a.isNaN && !b.isNaN && a.key == b.key

/-- Go `a != b` on `float64`. -/
def Float64.ne (a b : Float64) : Bool := !Float64.eq a b

/-- Go `a < b` on `float64`. -/
def Float64.lt (a b : Float64) : Bool := !a.isNaN && !b.isNaN && decide (a.key < b.key)

/-- Go `a > b` on `float64`. -/
def Float64.gt (a b : Float64) : Bool := Float64.lt b a

/-- The position of the leading binary digit of `n`, found in at most `fuel`
halvings. -/
def leadingBit : Nat → Nat → Nat
  | 0, _ => 0
  | fuel + 1, n => if n < 2 then 0 else leadingBit fuel (n / 2) + 1

/-- Go `float64(n)` for a length `n`: the nearest double, ties to even. -/
def Float64.ofNat (n : Nat) : Float64 :=
  if n = 0 then Float64.zero
  else
    let p := leadingBit n n
    let q := if p ≤ 52 then n * 2 ^ (52 - p) else n / 2 ^ (p - 52)
    let r := if p ≤ 52 then 0 else n % 2 ^ (p - 52)
    let half := if p ≤ 52 then 1 else 2 ^ (p - 52 - 1)
    let q1 := if half < r ∨ (r = half ∧ q % 2 = 1) then q + 1 else q
    let bits := (1023 + p) * 2 ^ 52 + (q1 - 2 ^ 52)
    if 2047 * 2 ^ 52 ≤ bits then ⟨2047 * 2 ^ 52⟩ else ⟨bits⟩

/-- The integer part of a double, when it is finite and lies in the range of
`int`. -/
def Float64.trunc? (f : Float64) : Option Int :=
  if f.exponent = 2047 then none
  else
    let magnitude : Nat :=
      if f.exponent = 0 then 0
      else if 1075 ≤ f.exponent then (2 ^ 52 + f.mantissa) * 2 ^ (f.exponent - 1075)
      else (2 ^ 52 + f.mantissa) / 2 ^ (1075 - f.exponent)
    let v : Int := if f.sign = 1 then -(magnitude : Int) else (magnitude : Int)
    if -(2 : Int) ^ 63 ≤ v ∧ v < (2 : Int) ^ 63 then some v else none

/-- Go `int(x)` for a `float64`; where the value does not fit in an `int` the
result depends on the implementation and is given by `overflow`. -/
def Float64.toInt (overflow : Float64 → Int) (f : Float64) : Int :=
  match f.trunc? with
  | some v => v
  | none => overflow f

/-- The arithmetic of the machine on `float64`, which the sources use through
the Go operators `+`, `-`, `*` and `/`. -/
structure Arith where
  add : Float64 → Float64 → Float64
  sub : Float64 → Float64 → Float64
  mul : Float64 → Float64 → Float64
  div : Float64 → Float64 → Float64

/-- The constant `FALSE`. -/
def FALSE : Object := NewBool false

/-- The type assertion `other.(Number).Value`; `none` is its panic. -/
def asNumber : Object → Option Float64
  | Object.number value => some value
  | _ => none

/-- The type assertion `other.(Bool).Value`; `none` is its panic. -/
def asBool : Object → Option Bool
  | Object.bool value => some value
  | _ => none

/-- The type assertion `other.(String).Value`; `none` is its panic. -/
def asString : Object → Option String
  | Object.string value => some value
  | _ => none

/-- The type assertion `other.(Type).Value`; `none` is its panic. -/
def asType : Object → Option String
  | Object.type value => some value
  | _ => none

/-- Go `Number.Truthy`. -/
def Number.Truthy (f : Float64) : Object := NewBool (Float64.ne f Float64.zero)

/-- Go `Number.LessThan`. -/
def Number.LessThan (f : Float64) (other : Object) : Option Object :=
  match asNumber other with
  | some o => some (NewBool (Float64.lt f o))
  | none => none

/-- Go `Number.GreaterThan`. -/
def Number.GreaterThan (f : Float64) (other : Object) : Option Object :=
  match asNumber other with
  | some o => some (NewBool (Float64.gt f o))
  | none => none

/-- Go `Number.EqualTo`. -/
def Number.EqualTo (f : Float64) (other : Object) : Option Object :=
  match asNumber other with
  | some o => some (NewBool (Float64.eq f o))
  | none => none

/-- Go `Number.Add`. -/
def Number.Add (ar : Arith) (f : Float64) (other : Object) : Option (Except GoError Object) :=
  match asNumber other with
  | some o => some (Except.ok (NewNumber (ar.add f o)))
  | none => none

/-- Go `Number.Subtract`. -/
def Number.Subtract (ar : Arith) (f : Float64) (other : Object) :
    Option (Except GoError Object) :=
  match asNumber other with
  | some o => some (Except.ok (NewNumber (ar.sub f o)))
  | none => none

/-- Go `Number.Multiply`. -/
def Number.Multiply (ar : Arith) (f : Float64) (other : Object) :
    Option (Except GoError Object) :=
  match asNumber other with
  | some o => some (Except.ok (NewNumber (ar.mul f o)))
  | none => none

/-- Go `Number.Divide`. -/
def Number.Divide (ar : Arith) (f : Float64) (other : Object) : Option (Except GoError Object) :=
  match asNumber other with
  | some o =>
    if Float64.eq o Float64.zero then some (Except.error (GoError.errorf "Divide by zero error"))
    else some (Except.ok (NewNumber (ar.div f o)))
  | none => none

/-- Go `Number.Negate`. -/
def Number.Negate (ar : Arith) (f : Float64) : Option (Except GoError Object) :=
  Number.Multiply ar f (NewNumber Float64.minusOne)

/-- Go `Bool.EqualTo`. -/
def Bool.EqualTo (f : Bool) (other : Object) : Option Object :=
  match asBool other with
  | some o => some (NewBool (f == o))
  | none => none

/-- Go `Bool.Truthy`. -/
def Bool.Truthy (f : Bool) : Object := NewBool f

/-- Go `Bool.Not`. -/
def Bool.Not (f : Bool) : Except GoError Object := Except.ok (NewBool (!f))

/-- Go `len(s)` of a string: its number of bytes. -/
def len (s : String) : Nat := s.utf8ByteSize

/-- Go `String.Size`, as the `Value` of the Number it returns. -/
def String.Size (f : String) : Float64 := Float64.ofNat (len f)

/-- Go `String.Truthy`. -/
def String.Truthy (f : String) : Object := NewBool (Float64.gt (String.Size f) Float64.zero)

/-- Go `String.LessThan`; the order of Go strings is the order of their bytes,
which for UTF-8 is the order of their code points. -/
def String.LessThan (f : String) (other : Object) : Option Object :=
  match asString other with
  | some o => some (NewBool (decide (f < o)))
  | none => none

/-- Go `String.GreaterThan`. -/
def String.GreaterThan (f : String) (other : Object) : Option Object :=
  match asString other with
  | some o => some (NewBool (decide (o < f)))
  | none => none

/-- Go `String.EqualTo`. -/
def String.EqualTo (f : String) (other : Object) : Option Object :=
  match asString other with
  | some o => some (NewBool (f == o))
  | none => none

/-- Go `String.Add`. -/
def String.Add (f : String) (other : Object) : Option (Except GoError Object) :=
  match asString other with
  | some o => some (Except.ok (NewString (f ++ o)))
  | none => none

/-- Go `string(b)` for a byte `b`: the string of the code point `b`. -/
def stringOfByte (b : UInt8) : String := String.singleton (Char.ofNat b.toNat)

/-- Go `String.Index`; `overflow` gives `int(x)` where it depends on the
implementation. The guard lets a negative `idx` through, and `f.Value[idx]`
then panics. -/
def String.Index (overflow : Float64 → Int) (f : String) (n : Float64) :
    Option (Except GoError Object) :=
  let idx := Float64.toInt overflow n
  if (len f : Int) ≤ idx then some (Except.error (GoError.errorf "string index out of range"))
  else if idx < 0 then none
  else some (Except.ok (NewString (stringOfByte (f.toUTF8.get! idx.toNat))))

/-- Go `Type.Truthy`. -/
def MetaType.Truthy (_f : String) : Object := TRUE

/-- Go `Type.EqualTo`. -/
def MetaType.EqualTo (f : String) (other : Object) : Option Object :=
  match asType other with
  | some o => some (NewBool (f == o))
  | none => none

/-- Go `List.Size`, as the `Value` of the Number it returns. -/
def List.Size (f : List Object) : Float64 := Float64.ofNat f.length

/-- Go `List.Truthy`. -/
def List.Truthy (f : List Object) : Object := NewBool (Float64.gt (List.Size f) Float64.zero)

/-- Go `List.Add`; `typeName` is the method `Type()` of the operand, printed in
the message. The result holds the elements of `append(f.Values, l.Values...)`. -/
def List.Add (typeName : Object → String) (f : List Object) (other : Object) :
    Except GoError Object :=
  match other with
  | Object.list l => Except.ok (NewList (f ++ l))
  | _ => Except.error (GoError.errorf ("cannot concatenate list with " ++ typeName other))

/-- Go `List.Index`; `overflow` gives `int(x)` where it depends on the
implementation. The guard lets a negative `idx` through, and `f.Values[idx]`
then panics. -/
def List.Index (overflow : Float64 → Int) (f : List Object) (n : Float64) :
    Option (Except GoError Object) :=
  let idx := Float64.toInt overflow n
  if (f.length : Int) ≤ idx then some (Except.error (GoError.errorf "list index out of range"))
  else if idx < 0 then none
  else
    match f[idx.toNat]? with
    | some v => some (Except.ok v)
    | none => none

/-- Go `Nil.Truthy`. -/
def Nil.Truthy : Object := FALSE

/-- Go `Nil.EqualTo`. -/
def Nil.EqualTo (_other : Object) : Object := TRUE

/-- The value of `int(x)` for a double outside the range of `int` on amd64: the
least `int`. -/
def exampleOverflow : Float64 → Int := fun _ => -(2 : Int) ^ 63

/-- A double whose value is an integer: a zero, or a finite double with no
set bit below the binary point. -/
def Float64.integral (f : Float64) : Bool :=
  if f.exponent = 2047 then false
  else if f.exponent = 0 then f.mantissa = 0
  else if 1075 ≤ f.exponent then true
  else if f.exponent < 1023 then false
  else (2 ^ 52 + f.mantissa) % 2 ^ (1075 - f.exponent) = 0

/-- The double `1.5`. -/
def Float64.oneAndHalf : Float64 := ⟨0x3FF8000000000000⟩

/-- The double `1`. -/
def Float64.one : Float64 := ⟨0x3FF0000000000000⟩

/-- The list `["a", "b", "c"]`. -/
def exampleList : List Object := [NewString "a", NewString "b", NewString "c"]

/-- An evaluator method under which the import set only grows: a module that
is imported at entry is imported at return. -/
def KeepsImports {α : Type} (m : Eval α) : Prop :=
  ∀ s r s1, m s = Outcome.ret r s1 → ∀ k, s.importSet k = true → s1.importSet k = true

/-- The state in which `Importer.Import` starts the evaluation of module `m`:
`i.latest = m` and `i.importSet[*m] = struct{}{}` are done. -/
def markImported (s : Evaluator) (m : String) : Evaluator :=
  { s with latest := some m, importSet := fun k => if k = m then true else s.importSet k }

/-- A host with two modules that import each other: the source of module `A`
is `import B` and the source of module `B` is `import A`. -/
def cycleHost : Host :=
  { exampleHost false with
    moduleData := fun m =>
      if m = "A" then Except.ok "import B"
      else if m = "B" then Except.ok "import A"
      else Except.error (GoError.errorf "no such module")
    RootNode := fun cmds =>
      if cmds = "import B" then Except.ok (Node.program [Node.importStmt "B"])
      else if cmds = "import A" then Except.ok (Node.program [Node.importStmt "A"])
      else Except.error (GoError.errorf "parse error") }

/-! ## Token types and keywords (`token/token.go`) -/

/-- The constants of `TokenType` in `token/token.go`. -/
inductive token.TokenType where
  | TT_ILLEGAL | TT_EOF
  | TT_IDENTIFIER | TT_NUMBER | TT_STRING
  | TT_ASSIGN | TT_PLUS | TT_MINUS | TT_DIVIDE | TT_MULTIPLY | TT_MODULO | TT_NOT
  | TT_EQ | TT_NEQ | TT_LT | TT_LTE | TT_GT | TT_GTE | TT_LOGICAL_AND | TT_LOGICAL_OR
  | TT_COMMA | TT_COLON | TT_QUESTION
  | TT_LPAREN | TT_RPAREN | TT_LBRACE | TT_RBRACE | TT_LBRACKET | TT_RBRACKET
  | TT_FUNCTION | TT_VAR | TT_IF | TT_ELSE | TT_TRUE | TT_FALSE | TT_RETURN | TT_WHILE
  | TT_BREAK | TT_CONTINUE | TT_NIL | TT_DEFER | TT_ASSERT
  | TT_COMMENT
  deriving DecidableEq, Repr

/-- The entries of the map literal `keywords`. -/
def token.keywordEntries : List (String × token.TokenType) :=
  [("var", token.TokenType.TT_VAR),
   ("fun", token.TokenType.TT_FUNCTION),
   ("if", token.TokenType.TT_IF),
   ("else", token.TokenType.TT_ELSE),
   ("true", token.TokenType.TT_TRUE),
   ("false", token.TokenType.TT_FALSE),
   ("return", token.TokenType.TT_RETURN),
   ("while", token.TokenType.TT_WHILE),
   ("nil", token.TokenType.TT_NIL),
   ("break", token.TokenType.TT_BREAK),
   ("continue", token.TokenType.TT_CONTINUE),
   ("defer", token.TokenType.TT_DEFER),
   ("assert", token.TokenType.TT_ASSERT)]

/-- The map `keywords`: the lookup `keywords[v]`. -/
def token.keywords (v : String) : Option token.TokenType :=
  token.keywordEntries.lookup v

/-- Go `LookupIdentifierType`. -/
def token.LookupIdentifierType (v : String) : token.TokenType :=
  match token.keywords v with
  | some val => val
  | none => token.TokenType.TT_IDENTIFIER

/-! ## Further specification vocabulary -/

/-- The number of `EvaluateError` links of an error: its span chain. -/
def GoError.links : GoError → Nat
  | GoError.evaluateError _ _ err _ => err.links + 1
  | _ => 0

/-- The nodes of a list evaluate without error one after the other, each in
the state left by the one before, to the values `vals`. -/
inductive EvalAll (ev : Node → Eval Object) :
    List Node → Evaluator → List Object → Evaluator → Prop where
  | nil (s : Evaluator) : EvalAll ev [] s [] s
  | cons (node : Node) (rest : List Node) (s s1 s2 : Evaluator) (v : Object)
      (vals : List Object) :
      ev node s = Outcome.ret (Except.ok v) s1 → EvalAll ev rest s1 vals s2 →
      EvalAll ev (node :: rest) s (v :: vals) s2

/-- The loop of `evalNodes` with both results of the Go method: the slice and
the error. `argValues` holds the values appended so far; a failing node gives
`return []Object{}, err`. -/
def evalNodesLoop (ev : Node → Eval Object) :
    List Node → List Object → Evaluator → Outcome (List Object × Option GoError)
  | [], argValues => fun s => Outcome.ret (argValues, none) s
  | arg :: rest, argValues => fun s =>
    match ev arg s with
    | Outcome.ret (Except.ok argval) s1 => evalNodesLoop ev rest (argValues ++ [argval]) s1
    | Outcome.ret (Except.error err) s1 => Outcome.ret ([], some err) s1
    | Outcome.exit c => Outcome.exit c
    | Outcome.diverge => Outcome.diverge

/-- A host with one module `M` whose source is `var y = "v"`. -/
def moduleHost : Host :=
  { exampleHost false with
    moduleData := fun m =>
      if m = "M" then Except.ok "var y = v"
      else Except.error (GoError.errorf "no such module")
    RootNode := fun cmds =>
      if cmds = "var y = v" then Except.ok (Node.program [Node.varStmt "y" (Node.string "v")])
      else Except.error (GoError.errorf "parse error") }

/-! ## The REPL's test for a single expression (`run/repl.go`) -/

/-- Go `isSingleExpression`; the pair `(nil, false)` is `(none, false)`. -/
def isSingleExpression (node : Node) : Option Node × Bool :=
  match node with
  | Node.program declarations =>
    if declarations.length = 0 ∨ declarations.length > 1 then (none, false)
    else
      match declarations[0]? with
      | some (Node.expStmt exp) => (some exp, true)
      | _ => (none, false)
  | _ => (none, false)

/-! ## Native functions (`runtime/functions.go`) -/

/-- The functions of the Go library and the clock used by the native
handlers: `math.Abs`, `math.Max`, `math.Min`, the reading of `time.Now` in
milliseconds as a double, and the method `Type()` of an object. -/
structure Library where
  Abs : Float64 → Float64
  Max : Float64 → Float64 → Float64
  Min : Float64 → Float64 → Float64
  now : Float64
  typeName : Object → String

/-- Go `struct Function` of package `runtime`: a handler takes the argument
vector, and `none` stands for the panic of an index outside the vector. -/
structure Function where
  name : String
  arity : Nat
  handler : List Object → Option (Except GoError Object)

/-- Go `sleepHandler`; the sleep itself has no result. -/
def sleepHandler (args : List Object) : Option (Except GoError Object) :=
  match args[0]? with
  | none => none
  | some (Object.number _) => some (Except.ok NIL)
  | some _ =>
    some (Except.error (GoError.errorf "sleep expects an argument of type float64"))

/-- Go `timeHandler`. -/
def timeHandler (lib : Library) (_args : List Object) : Option (Except GoError Object) :=
  some (Except.ok (NewNumber lib.now))

/-- Go `absHandler`. -/
def absHandler (lib : Library) (args : List Object) : Option (Except GoError Object) :=
  match args[0]? with
  | none => none
  | some (Object.number value) => some (Except.ok (NewNumber (lib.Abs value)))
  | some _ => some (Except.error (GoError.errorf "abs expects an argument of type float64"))

/-- Go `maxHandler`. -/
def maxHandler (lib : Library) (args : List Object) : Option (Except GoError Object) :=
  match args[0]? with
  | none => none
  | some (Object.number arg1) =>
    match args[1]? with
    | none => none
    | some (Object.number arg2) => some (Except.ok (NewNumber (lib.Max arg1 arg2)))
    | some _ =>
      some (Except.error (GoError.errorf "second argument to max() must be a number"))
  | some _ => some (Except.error (GoError.errorf "first argument to max() must be a number"))

/-- Go `minHandler`. -/
def minHandler (lib : Library) (args : List Object) : Option (Except GoError Object) :=
  match args[0]? with
  | none => none
  | some (Object.number arg1) =>
    match args[1]? with
    | none => none
    | some (Object.number arg2) => some (Except.ok (NewNumber (lib.Min arg1 arg2)))
    | some _ =>
      some (Except.error (GoError.errorf "second argument to min() must be a number"))
  | some _ => some (Except.error (GoError.errorf "first argument to min() must be a number"))

/-- Go `typeHandler`. -/
def typeHandler (lib : Library) (args : List Object) : Option (Except GoError Object) :=
  match args[0]? with
  | none => none
  | some arg => some (Except.ok (Object.type (lib.typeName arg)))

/-- Go `NativeFunctions`. -/
def NativeFunctions (lib : Library) : List Function :=
  [{ name := "sleep", arity := 1, handler := sleepHandler },
   { name := "time", arity := 0, handler := timeHandler lib },
   { name := "abs", arity := 1, handler := absHandler lib },
   { name := "max", arity := 2, handler := maxHandler lib },
   { name := "min", arity := 2, handler := minHandler lib },
   { name := "type", arity := 1, handler := typeHandler lib }]

/-- A library for examples: `Abs` clears the sign bit, `Max` and `Min` select by
the order of the doubles, and the clock reads 0. -/
def exampleLibrary : Library :=
  { Abs := fun x => ⟨x.bits % 2 ^ 63⟩
    Max := fun x y => if Float64.lt x y then y else x
    Min := fun x y => if Float64.lt y x then y else x
    now := Float64.zero
    typeName := fun _ => "object" }

/-! ## Further example data -/

/-- The string of the one character U+00E9, whose UTF-8 bytes are `C3 A9`. -/
def exampleAccent : String := String.singleton (Char.ofNat 233)

/-- The call `type(nil)` of the native function `type`. -/
def exampleNativeCall : Node := Node.call (Node.identifier "type") [Node.nil]

/-- The declarations of the block `{ defer g(); { } h(); }`. -/
def exampleNestedDefer : List Node :=
  [Node.deferStmt (Node.identifier "g") [], Node.block [], exampleCall "h"]

/-! ## Environment: contracts of `Declare`, `Assign` and `Get` -/

theorem binds_write_set (mem : Mem) (p : Addr) (n : String) (v : Object) (a : Addr)
    (k : String) (hp : binds mem n p = true) :
    binds (mem.write p ((mem p).set n v)) k a = binds mem k a := by
  unfold binds Mem.write Environment.set at *
  by_cases ha : a = p
  · subst ha
    by_cases hk : k = n
    · subst hk; simp [hp]
    · simp [hk]
  · simp [ha]

theorem enclosing_write_set (mem : Mem) (p : Addr) (n : String) (v : Object) (a : Addr) :
    ((mem.write p ((mem p).set n v)) a).enclosing = (mem a).enclosing := by
  unfold Mem.write Environment.set
  by_cases ha : a = p
  · subst ha; simp
  · simp [ha]

/-- Method `Assign` rewrites the store at one bound name or leaves it alone. -/
theorem Assign_shape (mem : Mem) (fuel : Nat) (e : Addr) (n : String) (v : Object)
    (mem1 : Mem) (r : Option GoError) (h : Assign mem fuel e n v = some (mem1, r)) :
    (r.isSome = true ∧ mem1 = mem) ∨
    (r = none ∧ ∃ p, binds mem n p = true ∧ mem1 = mem.write p ((mem p).set n v)) := by
  induction fuel generalizing e with
  | zero => simp [Assign] at h
  | succ fuel ih =>
    unfold Assign at h
    cases hs : (mem e).scopeVariables n with
    | some x =>
      simp [hs] at h
      right
      exact ⟨h.2.symm, e, by simp [binds, hs], h.1.symm⟩
    | none =>
      simp only [hs] at h
      cases he : (mem e).enclosing with
      | some enc =>
        simp only [he] at h
        exact ih enc h
      | none =>
        simp [he] at h
        left
        exact ⟨by simp [← h.2], h.1.symm⟩

/-- Method `Assign` never changes which names a scope binds. -/
theorem Assign_binds (mem : Mem) (fuel : Nat) (e : Addr) (n : String) (v : Object)
    (mem1 : Mem) (r : Option GoError) (h : Assign mem fuel e n v = some (mem1, r))
    (a : Addr) (k : String) : binds mem1 k a = binds mem k a := by
  rcases Assign_shape mem fuel e n v mem1 r h with ⟨_, rfl⟩ | ⟨_, p, hp, rfl⟩
  · rfl
  · exact binds_write_set mem p n v a k hp

/-- Method `Assign` never changes the enclosing pointer of a scope. -/
theorem Assign_enclosing (mem : Mem) (fuel : Nat) (e : Addr) (n : String) (v : Object)
    (mem1 : Mem) (r : Option GoError) (h : Assign mem fuel e n v = some (mem1, r))
    (a : Addr) : (mem1 a).enclosing = (mem a).enclosing := by
  rcases Assign_shape mem fuel e n v mem1 r h with ⟨_, rfl⟩ | ⟨_, p, _, rfl⟩
  · rfl
  · exact enclosing_write_set mem p n v a

/-- With fuel for the whole chain, `Assign` writes the innermost binding scope. -/
theorem Assign_found (mem : Mem) (n : String) (v : Object) (e : Addr) (ps : List Addr)
    (hc : IsChain mem e ps) (fuel : Nat) (hf : ps.length ≤ fuel) (p : Addr)
    (hp : innermost mem n ps = some p) :
    Assign mem fuel e n v = some (mem.write p ((mem p).set n v), none) := by
  induction hc generalizing fuel with
  | root e he =>
    cases fuel with
    | zero => simp at hf
    | succ fuel =>
      unfold innermost at hp
      simp only [List.find?_cons] at hp
      cases hb : binds mem n e with
      | true =>
        simp [hb] at hp
        subst hp
        unfold binds at hb
        unfold Assign
        cases hs : (mem e).scopeVariables n with
        | some x => rfl
        | none => simp [hs] at hb
      | false => simp [hb] at hp
  | step e enc ps he _ ih =>
    cases fuel with
    | zero => simp at hf
    | succ fuel =>
      unfold innermost at hp
      simp only [List.find?_cons] at hp
      cases hb : binds mem n e with
      | true =>
        simp [hb] at hp
        subst hp
        unfold binds at hb
        unfold Assign
        cases hs : (mem e).scopeVariables n with
        | some x => rfl
        | none => simp [hs] at hb
      | false =>
        simp only [hb] at hp
        unfold binds at hb
        unfold Assign
        cases hs : (mem e).scopeVariables n with
        | some x => simp [hs] at hb
        | none =>
          simp only [he]
          exact ih fuel (by simpa using hf) hp

/-- With fuel for the whole chain, `Assign` fails when no scope binds the name. -/
theorem Assign_missing (mem : Mem) (n : String) (v : Object) (e : Addr) (ps : List Addr)
    (hc : IsChain mem e ps) (fuel : Nat) (hf : ps.length ≤ fuel)
    (hp : innermost mem n ps = none) :
    Assign mem fuel e n v =
      some (mem, some (GoError.errorf ("symbol not declared: " ++ n))) := by
  induction hc generalizing fuel with
  | root e he =>
    cases fuel with
    | zero => simp at hf
    | succ fuel =>
      unfold innermost at hp
      simp only [List.find?_cons] at hp
      cases hb : binds mem n e with
      | true => simp [hb] at hp
      | false =>
        unfold binds at hb
        unfold Assign
        cases hs : (mem e).scopeVariables n with
        | some x => simp [hs] at hb
        | none => simp only [he]
  | step e enc ps he _ ih =>
    cases fuel with
    | zero => simp at hf
    | succ fuel =>
      unfold innermost at hp
      simp only [List.find?_cons] at hp
      cases hb : binds mem n e with
      | true => simp [hb] at hp
      | false =>
        simp only [hb] at hp
        unfold binds at hb
        unfold Assign
        cases hs : (mem e).scopeVariables n with
        | some x => simp [hs] at hb
        | none =>
          simp only [he]
          exact ih fuel (by simpa using hf) hp

/-- No scope of the chain binds the name exactly when there is no innermost
binding scope. -/
theorem innermost_eq_none (mem : Mem) (n : String) (ps : List Addr) :
    innermost mem n ps = none ↔ ∀ p ∈ ps, binds mem n p = false := by
  unfold innermost
  simp [List.find?_eq_none]


/-- A global is returned by `Get` whatever the scopes bind. -/
theorem Get_global (globals : Globals) (mem : Mem) (fuel : Nat) (e : Addr) (n : String)
    (val : Object) (hg : globals n = some val) :
    Get globals mem (fuel + 1) e n = some (Except.ok val) := by
  unfold Get
  simp only [hg]

/-- With fuel for the whole chain, `Get` reads the innermost binding scope. -/
theorem Get_found (globals : Globals) (mem : Mem) (n : String) (e : Addr) (ps : List Addr)
    (hc : IsChain mem e ps) (fuel : Nat) (hf : ps.length ≤ fuel) (hg : globals n = none)
    (p : Addr) (hp : innermost mem n ps = some p) :
    ∃ val, (mem p).scopeVariables n = some val ∧
      Get globals mem fuel e n = some (Except.ok val) := by
  induction hc generalizing fuel with
  | root e he =>
    cases fuel with
    | zero => simp at hf
    | succ fuel =>
      unfold innermost at hp
      simp only [List.find?_cons] at hp
      cases hb : binds mem n e with
      | true =>
        simp [hb] at hp
        subst hp
        unfold binds at hb
        unfold Get
        cases hs : (mem e).scopeVariables n with
        | some x => exact ⟨x, rfl, by simp only [hg]⟩
        | none => simp [hs] at hb
      | false => simp [hb] at hp
  | step e enc ps he _ ih =>
    cases fuel with
    | zero => simp at hf
    | succ fuel =>
      unfold innermost at hp
      simp only [List.find?_cons] at hp
      cases hb : binds mem n e with
      | true =>
        simp [hb] at hp
        subst hp
        unfold binds at hb
        unfold Get
        cases hs : (mem e).scopeVariables n with
        | some x => exact ⟨x, rfl, by simp only [hg]⟩
        | none => simp [hs] at hb
      | false =>
        simp only [hb] at hp
        unfold binds at hb
        unfold Get
        cases hs : (mem e).scopeVariables n with
        | some x => simp [hs] at hb
        | none =>
          simp only [hg, he]
          exact ih fuel (by simpa using hf) hp

/-- With fuel for the whole chain, `Get` fails on a name that is neither a
global nor bound in a scope of the chain. -/
theorem Get_missing (globals : Globals) (mem : Mem) (n : String) (e : Addr) (ps : List Addr)
    (hc : IsChain mem e ps) (fuel : Nat) (hf : ps.length ≤ fuel) (hg : globals n = none)
    (hp : innermost mem n ps = none) :
    Get globals mem fuel e n =
      some (Except.error (GoError.errorf ("symbol not declared: " ++ n))) := by
  induction hc generalizing fuel with
  | root e he =>
    cases fuel with
    | zero => simp at hf
    | succ fuel =>
      unfold innermost at hp
      simp only [List.find?_cons] at hp
      cases hb : binds mem n e with
      | true => simp [hb] at hp
      | false =>
        unfold binds at hb
        unfold Get
        cases hs : (mem e).scopeVariables n with
        | some x => simp [hs] at hb
        | none => simp only [hg, he]
  | step e enc ps he _ ih =>
    cases fuel with
    | zero => simp at hf
    | succ fuel =>
      unfold innermost at hp
      simp only [List.find?_cons] at hp
      cases hb : binds mem n e with
      | true => simp [hb] at hp
      | false =>
        simp only [hb] at hp
        unfold binds at hb
        unfold Get
        cases hs : (mem e).scopeVariables n with
        | some x => simp [hs] at hb
        | none =>
          simp only [hg, he]
          exact ih fuel (by simpa using hf) hp

/-- A chain is never empty. -/
theorem IsChain_length_pos (mem : Mem) (e : Addr) (ps : List Addr) (hc : IsChain mem e ps) :
    0 < ps.length := by
  cases hc <;> simp

theorem exampleMem_chain : IsChain exampleMem 1 [1, 0] :=
  IsChain.step 1 0 [0] rfl (IsChain.root 0 rfl)

/-- Claim C1. `Declare(n, v)` on the environment at `e` fails exactly when `n`
is in the global table or already bound in `e`'s own scope; on failure the
whole store (so `e` and every enclosing scope) is unchanged; on success `n` is
bound to `v` in `e`'s own scope, every other binding of `e` and `e`'s
enclosing pointer are unchanged, and every other scope is unchanged. -/
theorem Declare_contract (globals : Globals) (mem : Mem) (e : Addr) (n : String) (v : Object) :
    ((Declare globals mem e n v).2.isSome = true ↔
        ((globals n).isSome = true ∨ binds mem n e = true)) ∧
    ((Declare globals mem e n v).2.isSome = true → (Declare globals mem e n v).1 = mem) ∧
    ((Declare globals mem e n v).2 = none →
        ((Declare globals mem e n v).1 e).scopeVariables n = some v ∧
        (∀ k, k ≠ n →
          ((Declare globals mem e n v).1 e).scopeVariables k = (mem e).scopeVariables k) ∧
        ((Declare globals mem e n v).1 e).enclosing = (mem e).enclosing ∧
        (∀ a, a ≠ e → (Declare globals mem e n v).1 a = mem a)) := by
  unfold Declare binds
  cases hg : globals n with
  | some g => simp
  | none =>
    cases hs : (mem e).scopeVariables n with
    | some x => simp
    | none =>
      simp [Mem.write, Environment.set]
      exact ⟨fun k hk hk1 => absurd hk1 hk, fun a ha ha1 => absurd ha1 ha⟩

/-- Claim C2. On a scope chain `ps` starting at `e`, `Assign(n, v)` rebinds `n`
to `v` in the innermost scope binding `n` and leaves every other binding of
that scope and every other scope unchanged; it fails exactly when no scope of
the chain binds `n` (the global table is not consulted), and then the store is
unchanged; in no case does it change the names bound in a scope or a scope's
enclosing pointer. -/
theorem Assign_contract (mem : Mem) (n : String) (v : Object) (e : Addr) (ps : List Addr)
    (hc : IsChain mem e ps) (fuel : Nat) (hf : ps.length ≤ fuel) :
    (∀ p, innermost mem n ps = some p →
      ∃ mem1, Assign mem fuel e n v = some (mem1, none) ∧
        (mem1 p).scopeVariables n = some v ∧
        (∀ k, k ≠ n → (mem1 p).scopeVariables k = (mem p).scopeVariables k) ∧
        (∀ a, a ≠ p → mem1 a = mem a)) ∧
    ((∃ mem1 err, Assign mem fuel e n v = some (mem1, some err)) ↔
      ∀ p ∈ ps, binds mem n p = false) ∧
    ((∀ p ∈ ps, binds mem n p = false) →
      ∃ err, Assign mem fuel e n v = some (mem, some err)) ∧
    (∃ mem1 r, Assign mem fuel e n v = some (mem1, r) ∧
      ∀ a, (mem1 a).enclosing = (mem a).enclosing ∧ ∀ k, binds mem1 k a = binds mem k a) := by
  have hnone := innermost_eq_none mem n ps
  refine ⟨?_, ?_, ?_, ?_⟩
  · intro p hp
    refine ⟨_, Assign_found mem n v e ps hc fuel hf p hp, ?_, ?_, ?_⟩
    · simp [Mem.write, Environment.set]
    · intro k hk
      simp [Mem.write, Environment.set, hk]
    · intro a ha
      simp [Mem.write, ha]
  · constructor
    · rintro ⟨mem1, err, h1⟩
      rw [← hnone]
      cases hi : innermost mem n ps with
      | none => rfl
      | some p =>
        rw [Assign_found mem n v e ps hc fuel hf p hi] at h1
        simp at h1
    · intro hall
      exact ⟨mem, _, Assign_missing mem n v e ps hc fuel hf (hnone.2 hall)⟩
  · intro hall
    exact ⟨_, Assign_missing mem n v e ps hc fuel hf (hnone.2 hall)⟩
  · cases hi : innermost mem n ps with
    | none =>
      exact ⟨mem, _, Assign_missing mem n v e ps hc fuel hf hi, fun a => ⟨rfl, fun k => rfl⟩⟩
    | some p =>
      have h1 := Assign_found mem n v e ps hc fuel hf p hi
      exact ⟨_, _, h1, fun a =>
        ⟨Assign_enclosing mem fuel e n v _ _ h1 a, Assign_binds mem fuel e n v _ _ h1 a⟩⟩

/-- Witness of C2: assigning `x` from the inner scope of `exampleMem` rebinds
it in the root scope. -/
theorem Assign_contract_witness :
    ∃ mem1, Assign exampleMem 2 1 "x" (NewString "new") = some (mem1, none) ∧
      (mem1 0).scopeVariables "x" = some (NewString "new") := by
  obtain ⟨mem1, h1, h2, _⟩ :=
    (Assign_contract exampleMem "x" (NewString "new") 1 [1, 0] exampleMem_chain 2
      (by decide)).1 0 (by decide)
  exact ⟨mem1, h1, h2⟩

/-- Claim C3. On a scope chain `ps` starting at `e`, `Get(n)` returns the global
table's value when `n` is a global, whatever the scopes bind; otherwise the
value bound in the innermost scope of the chain that binds `n`; it fails
exactly when `n` is neither a global nor bound in a scope of the chain. -/
theorem Get_contract (globals : Globals) (mem : Mem) (n : String) (e : Addr) (ps : List Addr)
    (hc : IsChain mem e ps) (fuel : Nat) (hf : ps.length ≤ fuel) :
    (∀ val, globals n = some val → Get globals mem fuel e n = some (Except.ok val)) ∧
    (globals n = none → ∀ p, innermost mem n ps = some p →
      ∃ val, (mem p).scopeVariables n = some val ∧
        Get globals mem fuel e n = some (Except.ok val)) ∧
    ((∃ err, Get globals mem fuel e n = some (Except.error err)) ↔
      (globals n = none ∧ ∀ p ∈ ps, binds mem n p = false)) := by
  have hnone := innermost_eq_none mem n ps
  have hpos := IsChain_length_pos mem e ps hc
  obtain ⟨f, rfl⟩ : ∃ f, fuel = f + 1 := ⟨fuel - 1, by omega⟩
  refine ⟨?_, ?_, ?_⟩
  · intro val hg
    exact Get_global globals mem f e n val hg
  · intro hg p hp
    exact Get_found globals mem n e ps hc (f + 1) hf hg p hp
  · constructor
    · rintro ⟨err, h1⟩
      cases hg : globals n with
      | some val =>
        rw [Get_global globals mem f e n val hg] at h1
        simp at h1
      | none =>
        refine ⟨rfl, ?_⟩
        rw [← hnone]
        cases hi : innermost mem n ps with
        | none => rfl
        | some p =>
          obtain ⟨val, _, h2⟩ := Get_found globals mem n e ps hc (f + 1) hf hg p hi
          rw [h2] at h1
          simp at h1
    · rintro ⟨hg, hall⟩
      exact ⟨_, Get_missing globals mem n e ps hc (f + 1) hf hg (hnone.2 hall)⟩

/-- Witness of C3: with no globals, `x` read from the inner scope of
`exampleMem` is the root scope's binding. -/
theorem Get_contract_witness :
    ∃ val, (exampleMem 0).scopeVariables "x" = some val ∧
      Get (fun _ => none) exampleMem 2 1 "x" = some (Except.ok val) :=
  (Get_contract (fun _ => none) exampleMem "x" 1 [1, 0] exampleMem_chain 2
    (by decide)).2.1 rfl 0 (by decide)


/-- Claim C4. With the global table fixed, a store reachable from one empty
environment by any sequence of `Declare`, `Assign` and enclosed-scope
creation binds no global name in any scope. -/
theorem globals_never_shadowed (globals : Globals) (mem : Mem) (next : Addr)
    (hr : Reachable globals mem next) (a : Addr) (n : String)
    (hg : (globals n).isSome = true) : binds mem n a = false := by
  induction hr generalizing a with
  | init => simp [binds, NewEnvironment]
  | declare mem next e k v _ ih =>
    unfold Declare
    cases hk : globals k with
    | some g => exact ih a
    | none =>
      cases hs : (mem e).scopeVariables k with
      | some x => exact ih a
      | none =>
        have hne : n ≠ k := by
          intro hnk
          rw [hnk, hk] at hg
          simp at hg
        have h1 := ih a
        unfold binds at h1 ⊢
        by_cases ha : a = e
        · simp [Mem.write, Environment.set, ha, hne]
          simpa [ha] using h1
        · simpa [Mem.write, ha] using h1
  | assign mem next fuel e k v mem1 r _ hassign ih =>
    rw [Assign_binds mem fuel e k v mem1 r hassign a n]
    exact ih a
  | enclose mem next enc _ ih =>
    have h1 := ih a
    unfold binds at h1 ⊢
    by_cases ha : a = next
    · simp [Mem.write, ha, NewEnvironment, Environment.WithEnclosing]
    · simpa [Mem.write, ha] using h1

/-- Witness of C4: after creating an enclosed scope and trying to declare the
global `type` in it, that scope does not bind `type`. -/
theorem globals_never_shadowed_witness :
    binds (Declare exampleGlobals
      (Mem.write (fun _ => NewEnvironment) 1 (NewEnvironment.WithEnclosing (some 0)))
      1 "type" NIL).1 "type" 1 = false :=
  globals_never_shadowed exampleGlobals _ 2
    (Reachable.declare _ 2 1 "type" NIL (Reachable.enclose _ 1 0 Reachable.init))
    1 "type" (by decide)


/-! ## The frame of an evaluation

Every evaluator method returns with the environment pointer it was entered
with, and binds new names only in the current environment or in environments
it allocated itself. -/

theorem Frame.refl (s : Evaluator) : Frame s s :=
  ⟨rfl, Nat.le_refl _, fun _ _ => rfl, fun _ _ _ _ => rfl⟩

theorem Frame.of_eq (s s1 : Evaluator) (henv : s1.env = s.env) (hnext : s1.next = s.next)
    (hmem : s1.mem = s.mem) : Frame s s1 :=
  ⟨henv, Nat.le_of_eq hnext.symm, fun _ _ => by rw [hmem], fun _ _ _ _ => by rw [hmem]⟩

theorem Frame.trans {s s1 s2 : Evaluator} (h1 : Frame s s1) (h2 : Frame s1 s2) : Frame s s2 := by
  refine ⟨h2.env.trans h1.env, Nat.le_trans h1.next h2.next, ?_, ?_⟩
  · intro a ha
    rw [h2.enclosing a (Nat.lt_of_lt_of_le ha h1.next), h1.enclosing a ha]
  · intro a ha hne k
    rw [h2.names a (Nat.lt_of_lt_of_le ha h1.next) (by rw [h1.env]; exact hne) k,
      h1.names a ha hne k]

theorem Frame.wf {s s1 : Evaluator} (h1 : Frame s s1) (hwf : s.env < s.next) :
    s1.env < s1.next := by
  rw [h1.env]
  exact Nat.lt_of_lt_of_le hwf h1.next

theorem Framed_pure {α : Type} (a : α) : Framed (Eval.pure a) := by
  intro s r s1 _ h
  simp only [Eval.pure, Outcome.ret.injEq] at h
  rw [← h.2]
  exact Frame.refl s

theorem Framed_fail {α : Type} (err : GoError) : Framed (Eval.fail err : Eval α) := by
  intro s r s1 _ h
  simp only [Eval.fail, Outcome.ret.injEq] at h
  rw [← h.2]
  exact Frame.refl s

theorem Framed_lift {α : Type} (x : Except GoError α) : Framed (Eval.lift x) := by
  intro s r s1 _ h
  simp only [Eval.lift, Outcome.ret.injEq] at h
  rw [← h.2]
  exact Frame.refl s

theorem Framed_andThen {α β : Type} (m : Eval α) (k : α → Eval β) (hm : Framed m)
    (hk : ∀ a, Framed (k a)) : Framed (m.andThen k) := by
  intro s r s2 hwf h
  unfold Eval.andThen at h
  cases hms : m s with
  | ret r1 s1 =>
    have f1 := hm s r1 s1 hwf hms
    cases r1 with
    | ok a =>
      simp only [hms] at h
      exact f1.trans (hk a s1 r s2 (f1.wf hwf) h)
    | error err =>
      simp only [hms, Outcome.ret.injEq] at h
      rw [← h.2]
      exact f1
  | exit c => simp [hms] at h
  | diverge => simp [hms] at h

theorem Framed_wrap (h : Host) (node : Node) (m : Eval Object) (hm : Framed m) :
    Framed (wrap h node m) := by
  intro s r s1 hwf hw
  unfold wrap at hw
  cases hms : m s with
  | ret r1 s2 =>
    simp only [hms, Outcome.ret.injEq] at hw
    rw [← hw.2]
    exact hm s r1 s2 hwf hms
  | exit c => simp [hms] at hw
  | diverge => simp [hms] at hw

theorem Framed_evalDeclarations (ev : Node → Eval Object) (hev : ∀ n, Framed (ev n))
    (l : List Node) : Framed (evalDeclarations ev l) := by
  induction l with
  | nil => exact Framed_pure ()
  | cons n rest ih =>
    unfold evalDeclarations
    exact Framed_andThen _ _ (hev n) (fun _ => ih)

theorem Framed_runCalls (ev : Node → Eval Object) (hev : ∀ n, Framed (ev n))
    (l : List Node) : Framed (runCalls ev l) := by
  induction l with
  | nil => exact Framed_pure NIL
  | cons n rest ih =>
    unfold runCalls
    exact Framed_andThen _ _ (hev n) (fun _ => ih)

theorem Framed_evalNodes (ev : Node → Eval Object) (hev : ∀ n, Framed (ev n))
    (l : List Node) : Framed (evalNodes ev l) := by
  induction l with
  | nil => exact Framed_pure []
  | cons n rest ih =>
    unfold evalNodes
    exact Framed_andThen _ _ (hev n) (fun _ => Framed_andThen _ _ ih (fun _ => Framed_pure _))

theorem Framed_evalMapElements (h : Host) (ev : Node → Eval Object) (hev : ∀ n, Framed (ev n))
    (l : List (Node × Node)) : ∀ m, Framed (evalMapElements h ev l m) := by
  induction l with
  | nil => intro m; exact Framed_pure m
  | cons kvp rest ih =>
    intro m
    unfold evalMapElements
    exact Framed_andThen _ _ (hev _) (fun _ => Framed_andThen _ _ (hev _)
      (fun _ => Framed_andThen _ _ (Framed_lift _) (fun m1 => ih m1)))

theorem Framed_runDeferred (ev : Node → Eval Object) (hev : ∀ n, Framed (ev n)) :
    Framed (runDeferred ev) := by
  intro s r s1 hwf h
  unfold runDeferred at h
  exact (Frame.of_eq s { s with deferred := [] } rfl rfl rfl).trans
    (Framed_runCalls ev hev s.deferred _ r s1 hwf h)

theorem Declare_enclosing (globals : Globals) (mem : Mem) (e : Addr) (n : String) (v : Object)
    (a : Addr) : ((Declare globals mem e n v).1 a).enclosing = (mem a).enclosing := by
  unfold Declare
  cases globals n with
  | some g => rfl
  | none =>
    cases (mem e).scopeVariables n with
    | some x => rfl
    | none =>
      by_cases ha : a = e
      · subst ha; simp [Mem.write, Environment.set]
      · simp [Mem.write, ha]

theorem Declare_other (globals : Globals) (mem : Mem) (e : Addr) (n : String) (v : Object)
    (a : Addr) (ha : a ≠ e) : (Declare globals mem e n v).1 a = mem a := by
  unfold Declare
  cases globals n with
  | some g => rfl
  | none =>
    cases (mem e).scopeVariables n with
    | some x => rfl
    | none => simp [Mem.write, ha]

theorem Framed_envDeclare (h : Host) (n : String) (v : Object) : Framed (envDeclare h n v) := by
  intro s r s1 _ hd
  unfold envDeclare at hd
  have henc := Declare_enclosing h.globals s.mem s.env n v
  have hoth := Declare_other h.globals s.mem s.env n v
  cases hdec : Declare h.globals s.mem s.env n v with
  | mk mem1 err =>
    rw [hdec] at henc hoth
    have key : Frame s { s with mem := mem1 } :=
      ⟨rfl, Nat.le_refl _, fun a _ => henc a, fun a _ hne k => by
        show binds mem1 k a = binds s.mem k a
        have h2 : mem1 a = s.mem a := hoth a hne
        unfold binds
        rw [h2]⟩
    cases err with
    | none =>
      simp only [hdec, Outcome.ret.injEq] at hd
      rw [← hd.2]; exact key
    | some e1 =>
      simp only [hdec, Outcome.ret.injEq] at hd
      rw [← hd.2]; exact key

theorem Framed_envAssign (fuel : Nat) (n : String) (v : Object) :
    Framed (envAssign fuel n v) := by
  intro s r s1 _ hd
  unfold envAssign at hd
  cases hass : Assign s.mem fuel s.env n v with
  | none => simp [hass] at hd
  | some res =>
    obtain ⟨mem1, err⟩ := res
    have key : Frame s { s with mem := mem1 } :=
      ⟨rfl, Nat.le_refl _, fun a _ => Assign_enclosing s.mem fuel s.env n v mem1 err hass a,
        fun a _ _ k => Assign_binds s.mem fuel s.env n v mem1 err hass a k⟩
    cases err with
    | none =>
      simp only [hass, Outcome.ret.injEq] at hd
      rw [← hd.2]; exact key
    | some e1 =>
      simp only [hass, Outcome.ret.injEq] at hd
      rw [← hd.2]; exact key

theorem Framed_envGet (h : Host) (fuel : Nat) (n : String) : Framed (envGet h fuel n) := by
  intro s r s1 _ hd
  unfold envGet at hd
  cases hg : Get h.globals s.mem fuel s.env n with
  | none => simp [hg] at hd
  | some x =>
    simp only [hg, Outcome.ret.injEq] at hd
    rw [← hd.2]; exact Frame.refl s


/-- Method `evalBlockNodeWithEnv` run in an allocated environment `env`: it returns
with the caller's environment pointer, and among the environments that existed
at entry only `env` may bind new names. -/
theorem evalBlockNodeWithEnv_frame (ev : Node → Eval Object) (hev : ∀ n, Framed (ev n))
    (declarations : List Node) (env : Addr) (s : Evaluator) (r : Except GoError Object)
    (s1 : Evaluator) (henv : env < s.next)
    (h : evalBlockNodeWithEnv ev declarations env s = Outcome.ret r s1) :
    s1.env = s.env ∧ s.next ≤ s1.next ∧
    (∀ a, a < s.next → (s1.mem a).enclosing = (s.mem a).enclosing) ∧
    (∀ a, a < s.next → a ≠ env → ∀ k, binds s1.mem k a = binds s.mem k a) := by
  unfold evalBlockNodeWithEnv at h
  have hin : Framed ((evalDeclarations ev declarations).andThen (fun _ => runDeferred ev)) :=
    Framed_andThen _ _ (Framed_evalDeclarations ev hev declarations)
      (fun _ => Framed_runDeferred ev hev)
  cases hm : ((evalDeclarations ev declarations).andThen (fun _ => runDeferred ev))
      { s with env := env } with
  | ret r0 t1 =>
    have f := hin { s with env := env } r0 t1 henv hm
    simp only [hm, Outcome.ret.injEq] at h
    rw [← h.2]
    exact ⟨rfl, f.next, f.enclosing, f.names⟩
  | exit c => simp [hm] at h
  | diverge => simp [hm] at h

/-- A block leaves every environment that existed at its entry with the same
bound names and the same enclosing pointer, and restores the environment
pointer. -/
theorem evalBlockNode_frame (ev : Node → Eval Object) (hev : ∀ n, Framed (ev n))
    (declarations : List Node) (s : Evaluator) (r : Except GoError Object) (s1 : Evaluator)
    (h : evalBlockNode ev declarations s = Outcome.ret r s1) :
    s1.env = s.env ∧ s.next ≤ s1.next ∧
    (∀ a, a < s.next → (s1.mem a).enclosing = (s.mem a).enclosing) ∧
    (∀ a, a < s.next → ∀ k, binds s1.mem k a = binds s.mem k a) := by
  unfold evalBlockNode at h
  obtain ⟨h1, h2, h3, h4⟩ := evalBlockNodeWithEnv_frame ev hev declarations _ _ r s1
    (by simp [allocEnclosed]) h
  have h2a : s.next + 1 ≤ s1.next := h2
  have h3a : ∀ a, a < s.next + 1 → (s1.mem a).enclosing =
      ((s.mem.write s.next (NewEnvironment.WithEnclosing (some s.env))) a).enclosing := h3
  have h4a : ∀ a, a < s.next + 1 → a ≠ s.next → ∀ k, binds s1.mem k a =
      binds (s.mem.write s.next (NewEnvironment.WithEnclosing (some s.env))) k a := h4
  refine ⟨h1, Nat.le_of_succ_le h2a, ?_, ?_⟩
  · intro a ha
    rw [h3a a (Nat.lt_succ_of_lt ha)]
    simp [Mem.write, Nat.ne_of_lt ha]
  · intro a ha k
    rw [h4a a (Nat.lt_succ_of_lt ha) (Nat.ne_of_lt ha) k]
    simp [binds, Mem.write, Nat.ne_of_lt ha]

theorem Framed_evalBlockNode (ev : Node → Eval Object) (hev : ∀ n, Framed (ev n))
    (declarations : List Node) : Framed (evalBlockNode ev declarations) := by
  intro s r s1 _ h
  obtain ⟨h1, h2, h3, h4⟩ := evalBlockNode_frame ev hev declarations s r s1 h
  exact ⟨h1, h2, h3, fun a ha _ k => h4 a ha k⟩

theorem declareFormals_enclosing (globals : Globals) (env : Addr) (params : List String) :
    ∀ (args : List Object) (mem : Mem) (a : Addr),
      ((declareFormals globals env params args mem).1 a).enclosing = (mem a).enclosing := by
  induction params with
  | nil => intro args mem a; simp [declareFormals]
  | cons p ps ih =>
    intro args mem a
    cases args with
    | nil => simp [declareFormals]
    | cons x xs =>
      unfold declareFormals
      have hd := Declare_enclosing globals mem env p x a
      cases hdec : Declare globals mem env p x with
      | mk mem1 err =>
        rw [hdec] at hd
        cases err with
        | none => simp only []; rw [ih xs mem1 a]; exact hd
        | some e1 => exact hd

theorem declareFormals_other (globals : Globals) (env : Addr) (params : List String) :
    ∀ (args : List Object) (mem : Mem) (a : Addr), a ≠ env →
      (declareFormals globals env params args mem).1 a = mem a := by
  induction params with
  | nil => intro args mem a _; simp [declareFormals]
  | cons p ps ih =>
    intro args mem a ha
    cases args with
    | nil => simp [declareFormals]
    | cons x xs =>
      unfold declareFormals
      have hd := Declare_other globals mem env p x a ha
      cases hdec : Declare globals mem env p x with
      | mk mem1 err =>
        rw [hdec] at hd
        cases err with
        | none => simp only []; rw [ih xs mem1 a ha]; exact hd
        | some e1 => exact hd

theorem Framed_callFunction (h : Host) (ev : Node → Eval Object) (hev : ∀ n, Framed (ev n))
    (params : List String) (body : List Node) (closure : Addr) (args : List Object) :
    Framed (callFunction h ev params body closure args) := by
  intro s r s2 _ hc
  unfold callFunction at hc
  simp only [allocEnclosed] at hc
  have henc := declareFormals_enclosing h.globals s.next params args
    (s.mem.write s.next (NewEnvironment.WithEnclosing (some closure)))
  have hoth := declareFormals_other h.globals s.next params args
    (s.mem.write s.next (NewEnvironment.WithEnclosing (some closure)))
  cases hdf : declareFormals h.globals s.next params args
      (s.mem.write s.next (NewEnvironment.WithEnclosing (some closure))) with
  | mk mem err =>
    rw [hdf] at henc hoth
    have hmemE : ∀ a, a < s.next → (mem a).enclosing = (s.mem a).enclosing := by
      intro a ha
      have := henc a
      simp only [Mem.write, Nat.ne_of_lt ha, if_false] at this
      exact this
    have hmemB : ∀ a, a < s.next → ∀ k, binds mem k a = binds s.mem k a := by
      intro a ha k
      have := hoth a (Nat.ne_of_lt ha)
      simp only [Mem.write, Nat.ne_of_lt ha, if_false] at this
      show binds mem k a = binds s.mem k a
      have h2 : mem a = s.mem a := this
      unfold binds
      rw [h2]
    cases err with
    | some e1 =>
      simp only [hdf, Outcome.ret.injEq] at hc
      rw [← hc.2]
      exact ⟨rfl, Nat.le_succ _, hmemE, fun a ha _ k => hmemB a ha k⟩
    | none =>
      simp only [hdf] at hc
      cases hb : evalBlockNodeWithEnv ev body s.next
          { env := s.env, deferred := s.deferred, importSet := s.importSet, latest := s.latest,
            mem := mem, next := s.next + 1 } with
      | ret r1 s1 =>
        obtain ⟨h1, h2, h3, h4⟩ := evalBlockNodeWithEnv_frame ev hev body s.next _ r1 s1
          (Nat.lt_succ_self _) hb
        have key : Frame s s1 := by
          have h2a : s.next + 1 ≤ s1.next := h2
          refine ⟨h1, Nat.le_of_succ_le h2a, ?_, ?_⟩
          · intro a ha
            rw [h3 a (Nat.lt_succ_of_lt ha)]
            exact hmemE a ha
          · intro a ha _ k
            rw [h4 a (Nat.lt_succ_of_lt ha) (Nat.ne_of_lt ha) k]
            exact hmemB a ha k
        rw [hb] at hc
        cases r1 with
        | ok v =>
          simp only [Outcome.ret.injEq] at hc
          rw [← hc.2]; exact key
        | error e1 =>
          cases e1 <;> simp only [Outcome.ret.injEq] at hc <;> (rw [← hc.2]; exact key)
      | exit c => simp [hb] at hc
      | diverge => simp [hb] at hc

theorem Framed_Call (h : Host) (ev : Node → Eval Object) (hev : ∀ n, Framed (ev n))
    (callable : Object) (args : List Object) : Framed (Call h ev callable args) := by
  cases callable <;> unfold Call <;>
    first
    | exact Framed_callFunction h ev hev _ _ _ _
    | exact Framed_lift _

theorem Framed_resolveCallable (h : Host) (fuel : Nat) (calleeNode : Object) :
    Framed (resolveCallable h fuel calleeNode) := by
  unfold resolveCallable
  split
  · exact Framed_pure _
  · intro s r s1 _ hr
    simp only at hr
    split at hr
    · simp at hr
    · simp only [Outcome.ret.injEq] at hr
      rw [← hr.2]; exact Frame.refl s
    · split at hr <;> simp only [Outcome.ret.injEq] at hr <;> (rw [← hr.2]; exact Frame.refl s)

theorem Framed_evalCallNode (h : Host) (ev : Node → Eval Object) (hev : ∀ n, Framed (ev n))
    (fuel : Nat) (callee : Node) (arguments : List Node) :
    Framed (evalCallNode h ev fuel callee arguments) := by
  unfold evalCallNode
  refine Framed_andThen _ _ (hev callee) (fun calleeNode => ?_)
  refine Framed_andThen _ _ (Framed_resolveCallable h fuel calleeNode) (fun callable => ?_)
  split
  · exact Framed_fail _
  · exact Framed_andThen _ _ (Framed_evalNodes ev hev arguments)
      (fun argValues => Framed_Call h ev hev callable argValues)

theorem Framed_Import (h : Host) (ev : Node → Eval Object) (hev : ∀ n, Framed (ev n))
    (m : String) : Framed (Import h ev m) := by
  intro s r s2 hwf hi
  unfold Import at hi
  split at hi
  · simp only [Outcome.ret.injEq] at hi
    rw [← hi.2]; exact Frame.refl s
  · split at hi
    · simp only [Outcome.ret.injEq] at hi
      rw [← hi.2]; exact Frame.refl s
    · split at hi
      · split at hi
        · simp at hi
        · simp only [Outcome.ret.injEq] at hi
          rw [← hi.2]; exact Frame.refl s
      · rename_i root _
        split at hi
        · rename_i err s1 he
          split at hi
          · simp at hi
          · simp only [Outcome.ret.injEq] at hi
            rw [← hi.2]
            have f := hev root _ _ s1 (by exact hwf) he
            exact ⟨f.env, f.next, f.enclosing, f.names⟩
        · rename_i v s1 he
          simp only [Outcome.ret.injEq] at hi
          rw [← hi.2]
          have f := hev root _ _ s1 (by exact hwf) he
          exact ⟨f.env, f.next, f.enclosing, f.names⟩
        · simp at hi
        · simp at hi

theorem Framed_whileLoop (h : Host) (ev : Node → Eval Object) (hev : ∀ n, Framed (ev n))
    (condition body : Node) : ∀ n, Framed (whileLoop h ev condition body n) := by
  intro n
  induction n with
  | zero =>
    intro s r s1 _ hw
    simp [whileLoop] at hw
  | succ n ih =>
    unfold whileLoop
    refine Framed_andThen _ _ (hev condition) (fun c => ?_)
    split
    · intro s r s2 hwf hw
      simp only at hw
      cases hb : ev body s with
      | ret r1 s1 =>
        have f := hev body s r1 s1 hwf hb
        rw [hb] at hw
        cases r1 with
        | ok v => exact f.trans (ih s1 r s2 (f.wf hwf) hw)
        | error e1 =>
          simp only at hw
          split at hw
          · simp only [Outcome.ret.injEq] at hw
            rw [← hw.2]; exact f
          · exact f.trans (ih s1 r s2 (f.wf hwf) hw)
          · simp only [Outcome.ret.injEq] at hw
            rw [← hw.2]; exact f
      | exit c => simp [hb] at hw
      | diverge => simp [hb] at hw
    · exact Framed_pure _


theorem Framed_evalProgramNode (ev : Node → Eval Object) (hev : ∀ n, Framed (ev n))
    (declarations : List Node) : Framed (evalProgramNode ev declarations) :=
  Framed_andThen _ _ (Framed_evalDeclarations ev hev declarations) (fun _ => Framed_pure _)

theorem Framed_evalVarStmtNode (h : Host) (ev : Node → Eval Object) (hev : ∀ n, Framed (ev n))
    (identifier : String) (value : Node) : Framed (evalVarStmtNode h ev identifier value) :=
  Framed_andThen _ _ (hev value)
    (fun v => Framed_andThen _ _ (Framed_envDeclare h identifier v) (fun _ => Framed_pure _))

theorem Framed_evalIfStmtNode (h : Host) (ev : Node → Eval Object) (hev : ∀ n, Framed (ev n))
    (exp trueStmt : Node) (falseStmt : Option Node) :
    Framed (evalIfStmtNode h ev exp trueStmt falseStmt) := by
  unfold evalIfStmtNode
  refine Framed_andThen _ _ (hev exp) (fun value => ?_)
  split
  · exact hev trueStmt
  · cases falseStmt with
    | some f => exact hev f
    | none => exact Framed_pure _

theorem Framed_evalAssignmentNode (ev : Node → Eval Object) (hev : ∀ n, Framed (ev n))
    (fuel : Nat) (identifier : String) (value : Node) :
    Framed (evalAssignmentNode ev fuel identifier value) :=
  Framed_andThen _ _ (hev value)
    (fun v => Framed_andThen _ _ (Framed_envAssign fuel identifier v) (fun _ => Framed_pure _))

theorem Framed_evalLogicalAndNode (h : Host) (ev : Node → Eval Object)
    (hev : ∀ n, Framed (ev n)) (lhs rhs : Node) : Framed (evalLogicalAndNode h ev lhs rhs) :=
  Framed_andThen _ _ (hev lhs)
    (fun _ => Framed_andThen _ _ (hev rhs) (fun _ => Framed_pure _))

theorem Framed_evalLogicalOrNode (h : Host) (ev : Node → Eval Object)
    (hev : ∀ n, Framed (ev n)) (lhs rhs : Node) : Framed (evalLogicalOrNode h ev lhs rhs) := by
  unfold evalLogicalOrNode
  refine Framed_andThen _ _ (hev lhs) (fun left => ?_)
  split
  · exact Framed_pure _
  · exact Framed_andThen _ _ (hev rhs) (fun _ => Framed_pure _)

theorem Framed_evalTernaryOpNode (h : Host) (ev : Node → Eval Object)
    (hev : ∀ n, Framed (ev n)) (exp trueExp falseExp : Node) :
    Framed (evalTernaryOpNode h ev exp trueExp falseExp) := by
  unfold evalTernaryOpNode
  refine Framed_andThen _ _ (hev exp) (fun value => ?_)
  split
  · exact hev trueExp
  · exact hev falseExp

theorem Framed_evalBinaryOpNode (h : Host) (ev : Node → Eval Object)
    (hev : ∀ n, Framed (ev n)) (op : TokenType) (leftExp rightExp : Node) :
    Framed (evalBinaryOpNode h ev op leftExp rightExp) :=
  Framed_andThen _ _ (hev leftExp)
    (fun _ => Framed_andThen _ _ (hev rightExp) (fun _ => Framed_lift _))

theorem Framed_evalUnaryOpNode (h : Host) (ev : Node → Eval Object)
    (hev : ∀ n, Framed (ev n)) (op : TokenType) (operand : Node) :
    Framed (evalUnaryOpNode h ev op operand) := by
  unfold evalUnaryOpNode
  refine Framed_andThen _ _ (hev operand) (fun val => ?_)
  split
  · exact Framed_lift _
  · split
    · exact Framed_lift _
    · exact Framed_fail _

theorem Framed_evalNumberNode (h : Host) (literal : String) :
    Framed (evalNumberNode h literal) := by
  unfold evalNumberNode
  split
  · exact Framed_fail _
  · exact Framed_pure _

theorem Framed_evalBooleanNode (literal : String) : Framed (evalBooleanNode literal) := by
  unfold evalBooleanNode
  split
  · exact Framed_fail _
  · exact Framed_pure _

theorem Framed_evalListNode (ev : Node → Eval Object) (hev : ∀ n, Framed (ev n))
    (elements : List Node) : Framed (evalListNode ev elements) :=
  Framed_andThen _ _ (Framed_evalNodes ev hev elements) (fun _ => Framed_pure _)

theorem Framed_evalIndexOfNode (h : Host) (ev : Node → Eval Object)
    (hev : ∀ n, Framed (ev n)) (sequence index : Node) :
    Framed (evalIndexOfNode h ev sequence index) :=
  Framed_andThen _ _ (hev sequence)
    (fun _ => Framed_andThen _ _ (hev index) (fun _ => Framed_lift _))

theorem Framed_evalFunctionNode (h : Host) (name : String) (params : List String)
    (body : List Node) : Framed (evalFunctionNode h name params body) := by
  intro s r s1 hwf hf
  unfold evalFunctionNode at hf
  exact Framed_andThen _ _ (Framed_envDeclare h name _) (fun _ => Framed_pure _) s r s1 hwf hf

theorem Framed_evalReturnStmtNode (h : Host) (ev : Node → Eval Object)
    (hev : ∀ n, Framed (ev n)) (exp : Node) : Framed (evalReturnStmtNode h ev exp) :=
  Framed_andThen _ _ (hev exp) (fun _ => Framed_fail _)

theorem Framed_evalDeferStmtNode (callee : Node) (arguments : List Node) :
    Framed (evalDeferStmtNode callee arguments) := by
  intro s r s1 _ hd
  simp only [evalDeferStmtNode, Outcome.ret.injEq] at hd
  rw [← hd.2]
  exact Frame.of_eq s _ rfl rfl rfl

theorem Framed_evalAssertStmtNode (h : Host) (ev : Node → Eval Object)
    (hev : ∀ n, Framed (ev n)) (exp : Node) : Framed (evalAssertStmtNode h ev exp) := by
  unfold evalAssertStmtNode
  refine Framed_andThen _ _ (hev exp) (fun v => ?_)
  split
  · exact Framed_pure _
  · exact Framed_fail _

theorem Framed_evalImportNode (h : Host) (ev : Node → Eval Object)
    (hev : ∀ n, Framed (ev n)) (name : String) : Framed (evalImportNode h ev name) :=
  Framed_andThen _ _ (Framed_Import h ev hev _) (fun _ => Framed_pure _)

/-- Every evaluation respects the frame. -/
theorem Framed_eval (h : Host) : ∀ (fuel : Nat) (node : Node), Framed (eval h fuel node) := by
  intro fuel
  induction fuel with
  | zero =>
    intro node s r s1 _ he
    simp [eval] at he
  | succ fuel ih =>
    intro node
    cases node with
    | program d => exact Framed_wrap h _ _ (Framed_evalProgramNode _ ih d)
    | block d => exact Framed_wrap h _ _ (Framed_evalBlockNode _ ih d)
    | varStmt i v => exact Framed_wrap h _ _ (Framed_evalVarStmtNode h _ ih i v)
    | expStmt e => exact Framed_wrap h _ _ (ih e)
    | ifStmt e t f => exact Framed_wrap h _ _ (Framed_evalIfStmtNode h _ ih e t f)
    | whileStmt c b => exact Framed_wrap h _ _ (Framed_whileLoop h _ ih c b fuel)
    | breakStmt => exact Framed_wrap h _ _ (Framed_fail _)
    | continueStmt => exact Framed_wrap h _ _ (Framed_fail _)
    | returnStmt e => exact Framed_wrap h _ _ (Framed_evalReturnStmtNode h _ ih e)
    | assignment i v => exact Framed_wrap h _ _ (Framed_evalAssignmentNode _ ih fuel i v)
    | logicalAnd l r => exact Framed_wrap h _ _ (Framed_evalLogicalAndNode h _ ih l r)
    | logicalOr l r => exact Framed_wrap h _ _ (Framed_evalLogicalOrNode h _ ih l r)
    | exp e => exact Framed_wrap h _ _ (ih e)
    | ternaryOp e t f => exact Framed_wrap h _ _ (Framed_evalTernaryOpNode h _ ih e t f)
    | binaryOp op l r => exact Framed_wrap h _ _ (Framed_evalBinaryOpNode h _ ih op l r)
    | unaryOp op o => exact Framed_wrap h _ _ (Framed_evalUnaryOpNode h _ ih op o)
    | identifier l => exact Framed_wrap h _ _ (Framed_envGet h fuel l)
    | number l => exact Framed_wrap h _ _ (Framed_evalNumberNode h l)
    | boolean l => exact Framed_wrap h _ _ (Framed_evalBooleanNode l)
    | string l => exact Framed_wrap h _ _ (Framed_pure _)
    | list es => exact Framed_wrap h _ _ (Framed_evalListNode _ ih es)
    | map es => exact Framed_wrap h _ _ (Framed_evalMapElements h _ ih es _)
    | nil => exact Framed_wrap h _ _ (Framed_pure _)
    | call c a => exact Framed_wrap h _ _ (Framed_evalCallNode h _ ih fuel c a)
    | indexOf q i => exact Framed_wrap h _ _ (Framed_evalIndexOfNode h _ ih q i)
    | function n p b => exact Framed_wrap h _ _ (Framed_evalFunctionNode h n p b)
    | deferStmt c a => exact Framed_wrap h _ _ (Framed_evalDeferStmtNode c a)
    | assertStmt e => exact Framed_wrap h _ _ (Framed_evalAssertStmtNode h _ ih e)
    | comment => exact Framed_wrap h _ _ (Framed_pure _)
    | importStmt n => exact Framed_wrap h _ _ (Framed_evalImportNode h _ ih n)
    | invalid => exact Framed_fail _

/-- A chain whose scopes keep their enclosing pointers is still a chain. -/
theorem IsChain_congr (mem mem1 : Mem) (e : Addr) (ps : List Addr) (hc : IsChain mem e ps)
    (henc : ∀ p ∈ ps, (mem1 p).enclosing = (mem p).enclosing) : IsChain mem1 e ps := by
  induction hc with
  | root e he =>
    exact IsChain.root e (by rw [henc e (by simp)]; exact he)
  | step e enc ps he _ ih =>
    refine IsChain.step e enc ps (by rw [henc e (by simp)]; exact he) (ih ?_)
    intro p hp
    exact henc p (by simp [hp])


/-! ## Blocks, loops and deferred calls -/

/-- Claim C5. A block evaluated by `evalBlockNode` in a state where `x` is
neither a global nor bound in any scope of the current chain `ps`: when the
block returns (whatever it declared, `x` included), `Get(x)` on the
evaluator's current environment fails, and every environment that existed
before the block binds the same set of names as before. -/
theorem block_declaration_not_visible (h : Host) (fuel : Nat) (declarations : List Node)
    (s : Evaluator) (r : Except GoError Object) (s1 : Evaluator) (x : String)
    (ps : List Addr) (hc : IsChain s.mem s.env ps) (halloc : ∀ p ∈ ps, p < s.next)
    (hg : h.globals x = none) (hx : ∀ p ∈ ps, binds s.mem x p = false)
    (hret : evalBlockNode (eval h fuel) declarations s = Outcome.ret r s1)
    (fuelG : Nat) (hf : ps.length ≤ fuelG) :
    (∃ err, Get h.globals s1.mem fuelG s1.env x = some (Except.error err)) ∧
    (∀ a, a < s.next → ∀ k, binds s1.mem k a = binds s.mem k a) := by
  obtain ⟨h1, _, h3, h4⟩ := evalBlockNode_frame (eval h fuel) (Framed_eval h fuel)
    declarations s r s1 hret
  refine ⟨?_, h4⟩
  have hc1 : IsChain s1.mem s1.env ps := by
    rw [h1]
    exact IsChain_congr s.mem s1.mem s.env ps hc (fun p hp => h3 p (halloc p hp))
  have hx1 : ∀ p ∈ ps, binds s1.mem x p = false := by
    intro p hp
    rw [h4 p (halloc p hp) x]
    exact hx p hp
  exact ⟨_, Get_missing h.globals s1.mem x s1.env ps hc1 fuelG hf hg
    ((innermost_eq_none s1.mem x ps).2 hx1)⟩

/-- Witness of C5: the block `{ var x = "v"; }` run by a new evaluator. -/
theorem block_declaration_not_visible_witness :
    ∃ r s1, evalBlockNode (eval (exampleHost false) 2)
        [Node.varStmt "x" (Node.string "v")] NewEvaluator = Outcome.ret r s1 ∧
      (∃ err, Get exampleGlobals s1.mem 1 s1.env "x" = some (Except.error err)) ∧
      binds s1.mem "x" 0 = false := by
  refine ⟨_, _, rfl, ?_⟩
  have hw := block_declaration_not_visible (exampleHost false) 2
    [Node.varStmt "x" (Node.string "v")] NewEvaluator _ _ "x" [0]
    (IsChain.root 0 rfl) (by decide) rfl (by decide) rfl 1 (by decide)
  exact ⟨hw.1, by rw [hw.2 0 (by decide) "x"]; rfl⟩

/-- Claim C7. Whenever `evalBlockNodeWithEnv` returns, with a value, a signal or
an error, the evaluator's environment pointer is the one it had before the
call, whatever the evaluation of the declarations did. -/
theorem evalBlockNodeWithEnv_restores_env (ev : Node → Eval Object)
    (declarations : List Node) (env : Addr) (s : Evaluator) (r : Except GoError Object)
    (s1 : Evaluator) (h : evalBlockNodeWithEnv ev declarations env s = Outcome.ret r s1) :
    s1.env = s.env := by
  unfold evalBlockNodeWithEnv at h
  split at h
  · simp only [Outcome.ret.injEq] at h
    rw [← h.2]
  · simp at h
  · simp at h

/-- Witness of C7: a block left by a break signal. -/
theorem evalBlockNodeWithEnv_restores_env_witness :
    ∃ r s1, evalBlockNodeWithEnv (eval (exampleHost false) 2) [Node.breakStmt] 7
        NewEvaluator = Outcome.ret r s1 ∧ s1.env = 0 := by
  refine ⟨_, _, rfl, ?_⟩
  exact evalBlockNodeWithEnv_restores_env (eval (exampleHost false) 2) [Node.breakStmt] 7
    NewEvaluator _ _ rfl


/-- Method `wrapResult` never returns an error of dynamic type `*BreakError` or
`*ContinueError`: a pointer signal is wrapped into an `EvaluateError`. -/
theorem wrapResult_not_pointer_signal (h : Host) (node : Node) (r : Except GoError Object)
    (err : GoError) (hw : wrapResult h node r = Except.error err) :
    err ≠ GoError.breakError true ∧ err ≠ GoError.continueError true := by
  unfold wrapResult at hw
  split at hw
  · simp at hw
  · split at hw <;> simp only [Except.error.injEq, NewEvaluateError] at hw <;>
      (subst hw; simp)

/-- No evaluation returns an error of dynamic type `*BreakError` or
`*ContinueError`, the only two the type switch of `evalWhileStmtNode` catches. -/
theorem eval_not_pointer_signal (h : Host) (fuel : Nat) (node : Node) (s s1 : Evaluator)
    (err : GoError) (he : eval h fuel node s = Outcome.ret (Except.error err) s1) :
    err ≠ GoError.breakError true ∧ err ≠ GoError.continueError true := by
  cases fuel with
  | zero => simp [eval] at he
  | succ fuel =>
    have key : ∀ m : Eval Object, wrap h node m s = Outcome.ret (Except.error err) s1 →
        err ≠ GoError.breakError true ∧ err ≠ GoError.continueError true := by
      intro m hm
      unfold wrap at hm
      split at hm
      · simp only [Outcome.ret.injEq] at hm
        exact wrapResult_not_pointer_signal h node _ err hm.1
      · simp at hm
      · simp at hm
    cases node <;> simp only [eval] at he <;> first
      | exact key _ he
      | (simp only [Eval.fail, Outcome.ret.injEq, Except.error.injEq] at he
         rw [← he.1]; simp)

/-- An iteration of the loop whose body returns an error other than a
`*BreakError` or a `*ContinueError` returns that error. -/
theorem whileLoop_error (h : Host) (ev : Node → Eval Object) (condition body : Node)
    (n : Nat) (s s0 s1 : Evaluator) (c : Object) (err : GoError)
    (hcond : ev condition s = Outcome.ret (Except.ok c) s0) (htrue : h.IsTruthy c = true)
    (hbody : ev body s0 = Outcome.ret (Except.error err) s1)
    (hne : err ≠ GoError.breakError true ∧ err ≠ GoError.continueError true) :
    whileLoop h ev condition body (n + 1) s = Outcome.ret (Except.error err) s1 := by
  unfold whileLoop
  simp only [Eval.andThen, hcond, htrue, if_true, hbody]
  split
  · exact absurd rfl hne.1
  · exact absurd rfl hne.2
  · rfl

/-- The body `{ break; }` returns an error, and so does `{ continue; }`. -/
theorem signal_block_error (h : Host) (fuel : Nat) (s : Evaluator) :
    (∃ err s1, eval h (fuel + 3) (Node.block [Node.breakStmt]) s =
      Outcome.ret (Except.error err) s1) ∧
    (∃ err s1, eval h (fuel + 3) (Node.block [Node.continueStmt]) s =
      Outcome.ret (Except.error err) s1) := by
  constructor
  · cases hb : h.breakPtr <;> cases hev : h.evaluatePtr <;>
      simp [Eval.andThen, eval, wrap, evalBlockNode, evalBlockNodeWithEnv, evalDeclarations,
        evalBreakStmtNode, NewBreakError, NewEvaluateError, Eval.fail, wrapResult, hb, hev]
  · cases hb : h.continuePtr <;> cases hev : h.evaluatePtr <;>
      simp [Eval.andThen, eval, wrap, evalBlockNode, evalBlockNodeWithEnv, evalDeclarations,
        evalContinueStmtNode, NewContinueError, NewEvaluateError, Eval.fail, wrapResult, hb, hev]

/-- Claim C8 (code defect). For every host, whichever dynamic type
`NewBreakError` builds, the loop `while (true) { break; }` does not end
normally: `evalWhileStmtNode` returns an error. The same holds for
`while (true) { continue; }`, which returns an error instead of re-testing
the condition. -/
theorem while_break_not_caught (h : Host) (fuel n : Nat) (s : Evaluator)
    (htrue : h.IsTruthy (NewBool true) = true) :
    (∃ err s1, evalWhileStmtNode h (eval h (fuel + 3)) (n + 1) (Node.boolean "true")
        (Node.block [Node.breakStmt]) s = Outcome.ret (Except.error err) s1) ∧
    (∃ err s1, evalWhileStmtNode h (eval h (fuel + 3)) (n + 1) (Node.boolean "true")
        (Node.block [Node.continueStmt]) s = Outcome.ret (Except.error err) s1) := by
  have hcond : eval h (fuel + 3) (Node.boolean "true") s =
      Outcome.ret (Except.ok (NewBool true)) s := by
    simp [eval, wrap, evalBooleanNode, ParseBool, wrapResult, Eval.pure]
  obtain ⟨⟨e1, t1, hb⟩, ⟨e2, t2, hc⟩⟩ := signal_block_error h fuel s
  exact ⟨⟨e1, t1, whileLoop_error h _ _ _ n s s t1 _ e1 hcond htrue hb
      (eval_not_pointer_signal h _ _ s t1 e1 hb)⟩,
    ⟨e2, t2, whileLoop_error h _ _ _ n s s t2 _ e2 hcond htrue hc
      (eval_not_pointer_signal h _ _ s t2 e2 hc)⟩⟩

/-- Witness of C8: the example host with signals built as plain values, and
the loop run by a new evaluator. -/
theorem while_break_not_caught_witness :
    ∃ err s1, evalWhileStmtNode (exampleHost false) (eval (exampleHost false) 3) 1
        (Node.boolean "true") (Node.block [Node.breakStmt]) NewEvaluator =
      Outcome.ret (Except.error err) s1 :=
  (while_break_not_caught (exampleHost false) 0 0 NewEvaluator rfl).1

/-- When a declaration of a block fails or signals, `evalBlockNodeWithEnv`
returns that error at once: `runDeferred` is not called and the queue is left
as the declarations left it. -/
theorem evalBlockNodeWithEnv_error (ev : Node → Eval Object) (declarations : List Node)
    (env : Addr) (s s1 : Evaluator) (err : GoError)
    (h : evalDeclarations ev declarations { s with env := env } =
      Outcome.ret (Except.error err) s1) :
    evalBlockNodeWithEnv ev declarations env s =
      Outcome.ret (Except.error err) { s1 with env := s.env } := by
  simp [evalBlockNodeWithEnv, Eval.andThen, h]


/-- A `defer` statement appends its call to the queue and does nothing else. -/
theorem eval_deferStmt (h : Host) (fuel : Nat) (callee : Node) (arguments : List Node)
    (s : Evaluator) :
    eval h (fuel + 1) (Node.deferStmt callee arguments) s =
      Outcome.ret (Except.ok NIL)
        { s with deferred := s.deferred ++ [Node.call callee arguments] } := by
  simp [eval, wrap, evalDeferStmtNode, wrapResult]

/-- Declarations that are all `defer` statements append their calls to the
queue in source order. -/
theorem evalDeclarations_defers (h : Host) (fuel : Nat) (cs : List (Node × List Node)) :
    ∀ s : Evaluator,
      evalDeclarations (eval h (fuel + 1)) (cs.map (fun c => Node.deferStmt c.1 c.2)) s =
        Outcome.ret (Except.ok ())
          { s with deferred := s.deferred ++ cs.map (fun c => Node.call c.1 c.2) } := by
  induction cs with
  | nil => intro s; simp [evalDeclarations, Eval.pure]
  | cons c cs ih =>
    intro s
    simp only [List.map_cons, evalDeclarations, Eval.andThen, eval_deferStmt, ih]
    simp

/-- Claim C9 (as amended). For every block whose declarations are the statements
`defer c1; ...; defer cn`, the deferred calls are evaluated at block exit in
queue order, first deferred first: the calls already pending in the
evaluator's queue, then `c1`, then `c2`, ..., and `cn` last, stopping at the
first call that fails. -/
theorem deferred_calls_run_in_queue_order (h : Host) (fuel : Nat) (cs : List (Node × List Node))
    (env : Addr) (s : Evaluator) :
    evalBlockNodeWithEnv (eval h (fuel + 1)) (cs.map (fun c => Node.deferStmt c.1 c.2)) env s =
      match runCalls (eval h (fuel + 1)) (s.deferred ++ cs.map (fun c => Node.call c.1 c.2))
          { s with env := env, deferred := [] } with
      | Outcome.ret r s1 => Outcome.ret r { s1 with env := s.env }
      | Outcome.exit c => Outcome.exit c
      | Outcome.diverge => Outcome.diverge := by
  simp only [evalBlockNodeWithEnv, Eval.andThen, evalDeclarations_defers, runDeferred]

/-- An observation of a call that returned without error. -/
theorem Outcome.observe_ok (o : Outcome (Except GoError Object)) (a : Addr) (name : String)
    (v : String) (n : Nat) (h : o.observe a name = some (true, some v, n)) :
    ∃ obj s1, o = Outcome.ret (Except.ok obj) s1 ∧
      (s1.mem a).scopeVariables name = some (NewString v) ∧ s1.deferred.length = n := by
  cases o with
  | ret r s1 =>
    simp only [Outcome.observe, Option.some.injEq, Prod.mk.injEq] at h
    obtain ⟨h1, h2, h3⟩ := h
    cases r with
    | error e => simp at h1
    | ok obj =>
      refine ⟨obj, s1, rfl, ?_, h3⟩
      revert h2
      cases hb : (s1.mem a).scopeVariables name with
      | none => simp
      | some b => cases b <;> simp [NewString]
  | exit c => simp [Outcome.observe] at h
  | diverge => simp [Outcome.observe] at h

/-- An observation of a call that returned an error or a signal. -/
theorem Outcome.observe_error (o : Outcome (Except GoError Object)) (a : Addr) (name : String)
    (v : String) (n : Nat) (h : o.observe a name = some (false, some v, n)) :
    ∃ err s1, o = Outcome.ret (Except.error err) s1 ∧
      (s1.mem a).scopeVariables name = some (NewString v) ∧ s1.deferred.length = n := by
  cases o with
  | ret r s1 =>
    simp only [Outcome.observe, Option.some.injEq, Prod.mk.injEq] at h
    obtain ⟨h1, h2, h3⟩ := h
    cases r with
    | ok obj => simp at h1
    | error e =>
      refine ⟨e, s1, rfl, ?_, h3⟩
      revert h2
      cases hb : (s1.mem a).scopeVariables name with
      | none => simp
      | some b => cases b <;> simp [NewString]
  | exit c => simp [Outcome.observe] at h
  | diverge => simp [Outcome.observe] at h

/-- A call with an observed failure returned an error with that root message. -/
theorem Outcome.failure_eq (o : Outcome (Except GoError Object)) (msg : String)
    (h : o.failure = some msg) :
    ∃ err s1, o = Outcome.ret (Except.error err) s1 ∧ err.rootMessage = msg := by
  cases o with
  | ret r s1 =>
    cases r with
    | ok obj => simp [Outcome.failure] at h
    | error e =>
      simp only [Outcome.failure, Option.some.injEq] at h
      exact ⟨e, s1, rfl, h⟩
  | exit c => simp [Outcome.failure] at h
  | diverge => simp [Outcome.failure] at h

/-- The prelude `var x = ""; fun g() { x = "g"; } fun h() { x = "h"; }` runs
without error and leaves `x` bound to the empty string in the root scope. -/
theorem examplePrelude_runs :
    (eval (exampleHost false) 4 examplePrelude NewEvaluator).observe 0 "x" =
      some (true, some "", 0) := by
  simp [Outcome.failure, Outcome.observe, GoError.rootMessage, exampleUndeclaredDefers,
    exampleDeferBlock, examplePrelude, exampleSetter, exampleState, exampleHost, exampleGlobals,
    NewEvaluator, evalBlockNode, evalBlockNodeLastFirst, evalBlockNodeWithEnv,
    evalBlockNodeWithEnvLastFirst, allocEnclosed, eval, wrap, wrapResult, evalProgramNode,
    evalDeclarations, Eval.andThen, Eval.pure, Eval.fail, Eval.lift, evalVarStmtNode,
    envDeclare, Declare, evalFunctionNode, NewUserFunction, evalDeferStmtNode, runDeferred,
    runDeferredLastFirst, runCalls, evalCallNode, evalIdentifierNode, envGet, Get,
    resolveCallable, isCallable, Variadic, Arity, evalNodes, Call, callFunction,
    declareFormals, evalAssignmentNode, envAssign, Assign, evalStringNode,
    evalReturnStmtNode, evalBreakStmtNode, evalNilNode, NewReturnError, NewBreakError,
    NewEvaluateError, Mem.write, Environment.set, Environment.WithEnclosing, NewEnvironment,
    NewString, NIL]

/-- The block `{ defer a(); defer b(); }` fails with the error of `a()`. -/
theorem undeclared_defers_queue_order :
    (evalBlockNode (eval (exampleHost false) 4) exampleUndeclaredDefers NewEvaluator).failure =
      some "symbol not declared: a" := by
  simp [Outcome.failure, Outcome.observe, GoError.rootMessage, exampleUndeclaredDefers,
    exampleDeferBlock, examplePrelude, exampleSetter, exampleState, exampleHost, exampleGlobals,
    NewEvaluator, evalBlockNode, evalBlockNodeLastFirst, evalBlockNodeWithEnv,
    evalBlockNodeWithEnvLastFirst, allocEnclosed, eval, wrap, wrapResult, evalProgramNode,
    evalDeclarations, Eval.andThen, Eval.pure, Eval.fail, Eval.lift, evalVarStmtNode,
    envDeclare, Declare, evalFunctionNode, NewUserFunction, evalDeferStmtNode, runDeferred,
    runDeferredLastFirst, runCalls, evalCallNode, evalIdentifierNode, envGet, Get,
    resolveCallable, isCallable, Variadic, Arity, evalNodes, Call, callFunction,
    declareFormals, evalAssignmentNode, envAssign, Assign, evalStringNode,
    evalReturnStmtNode, evalBreakStmtNode, evalNilNode, NewReturnError, NewBreakError,
    NewEvaluateError, Mem.write, Environment.set, Environment.WithEnclosing, NewEnvironment,
    NewString, NIL]

/-- With the block exit of the specification, `{ defer a(); defer b(); }` fails with
the error of `b()`. -/
theorem undeclared_defers_last_first :
    (evalBlockNodeLastFirst (eval (exampleHost false) 4) exampleUndeclaredDefers
      NewEvaluator).failure =
      some "symbol not declared: b" := by
  simp [Outcome.failure, Outcome.observe, GoError.rootMessage, exampleUndeclaredDefers,
    exampleDeferBlock, examplePrelude, exampleSetter, exampleState, exampleHost, exampleGlobals,
    NewEvaluator, evalBlockNode, evalBlockNodeLastFirst, evalBlockNodeWithEnv,
    evalBlockNodeWithEnvLastFirst, allocEnclosed, eval, wrap, wrapResult, evalProgramNode,
    evalDeclarations, Eval.andThen, Eval.pure, Eval.fail, Eval.lift, evalVarStmtNode,
    envDeclare, Declare, evalFunctionNode, NewUserFunction, evalDeferStmtNode, runDeferred,
    runDeferredLastFirst, runCalls, evalCallNode, evalIdentifierNode, envGet, Get,
    resolveCallable, isCallable, Variadic, Arity, evalNodes, Call, callFunction,
    declareFormals, evalAssignmentNode, envAssign, Assign, evalStringNode,
    evalReturnStmtNode, evalBreakStmtNode, evalNilNode, NewReturnError, NewBreakError,
    NewEvaluateError, Mem.write, Environment.set, Environment.WithEnclosing, NewEnvironment,
    NewString, NIL]

/-- The block `{ defer g(); defer h(); }` leaves `x` equal to `h`. -/
theorem setter_defers_queue_order :
    (evalBlockNode (eval (exampleHost false) 5) exampleDeferBlock exampleState).observe 0 "x" =
      some (true, some "h", 0) := by
  simp [Outcome.failure, Outcome.observe, GoError.rootMessage, exampleUndeclaredDefers,
    exampleDeferBlock, examplePrelude, exampleSetter, exampleState, exampleHost, exampleGlobals,
    NewEvaluator, evalBlockNode, evalBlockNodeLastFirst, evalBlockNodeWithEnv,
    evalBlockNodeWithEnvLastFirst, allocEnclosed, eval, wrap, wrapResult, evalProgramNode,
    evalDeclarations, Eval.andThen, Eval.pure, Eval.fail, Eval.lift, evalVarStmtNode,
    envDeclare, Declare, evalFunctionNode, NewUserFunction, evalDeferStmtNode, runDeferred,
    runDeferredLastFirst, runCalls, evalCallNode, evalIdentifierNode, envGet, Get,
    resolveCallable, isCallable, Variadic, Arity, evalNodes, Call, callFunction,
    declareFormals, evalAssignmentNode, envAssign, Assign, evalStringNode,
    evalReturnStmtNode, evalBreakStmtNode, evalNilNode, NewReturnError, NewBreakError,
    NewEvaluateError, Mem.write, Environment.set, Environment.WithEnclosing, NewEnvironment,
    NewString, NIL]

/-- With the block exit of the specification, `{ defer g(); defer h(); }` leaves `x`
equal to `g`. -/
theorem setter_defers_last_first :
    (evalBlockNodeLastFirst (eval (exampleHost false) 5) exampleDeferBlock
      exampleState).observe 0 "x" =
      some (true, some "g", 0) := by
  simp [Outcome.failure, Outcome.observe, GoError.rootMessage, exampleUndeclaredDefers,
    exampleDeferBlock, examplePrelude, exampleSetter, exampleState, exampleHost, exampleGlobals,
    NewEvaluator, evalBlockNode, evalBlockNodeLastFirst, evalBlockNodeWithEnv,
    evalBlockNodeWithEnvLastFirst, allocEnclosed, eval, wrap, wrapResult, evalProgramNode,
    evalDeclarations, Eval.andThen, Eval.pure, Eval.fail, Eval.lift, evalVarStmtNode,
    envDeclare, Declare, evalFunctionNode, NewUserFunction, evalDeferStmtNode, runDeferred,
    runDeferredLastFirst, runCalls, evalCallNode, evalIdentifierNode, envGet, Get,
    resolveCallable, isCallable, Variadic, Arity, evalNodes, Call, callFunction,
    declareFormals, evalAssignmentNode, envAssign, Assign, evalStringNode,
    evalReturnStmtNode, evalBreakStmtNode, evalNilNode, NewReturnError, NewBreakError,
    NewEvaluateError, Mem.write, Environment.set, Environment.WithEnclosing, NewEnvironment,
    NewString, NIL]

/-- The block `{ defer g(); return nil; }` is left with an error or signal, `x` unchanged
and one call still queued. -/
theorem defer_then_return_observed :
    (evalBlockNode (eval (exampleHost false) 5)
      [Node.deferStmt (Node.identifier "g") [], Node.returnStmt Node.nil] exampleState).observe 0 "x" =
      some (false, some "", 1) := by
  simp [Outcome.failure, Outcome.observe, GoError.rootMessage, exampleUndeclaredDefers,
    exampleDeferBlock, examplePrelude, exampleSetter, exampleState, exampleHost, exampleGlobals,
    NewEvaluator, evalBlockNode, evalBlockNodeLastFirst, evalBlockNodeWithEnv,
    evalBlockNodeWithEnvLastFirst, allocEnclosed, eval, wrap, wrapResult, evalProgramNode,
    evalDeclarations, Eval.andThen, Eval.pure, Eval.fail, Eval.lift, evalVarStmtNode,
    envDeclare, Declare, evalFunctionNode, NewUserFunction, evalDeferStmtNode, runDeferred,
    runDeferredLastFirst, runCalls, evalCallNode, evalIdentifierNode, envGet, Get,
    resolveCallable, isCallable, Variadic, Arity, evalNodes, Call, callFunction,
    declareFormals, evalAssignmentNode, envAssign, Assign, evalStringNode,
    evalReturnStmtNode, evalBreakStmtNode, evalNilNode, NewReturnError, NewBreakError,
    NewEvaluateError, Mem.write, Environment.set, Environment.WithEnclosing, NewEnvironment,
    NewString, NIL]

/-- The block `{ defer g(); break; }` is left with an error or signal, `x` unchanged
and one call still queued. -/
theorem defer_then_break_observed :
    (evalBlockNode (eval (exampleHost false) 5)
      [Node.deferStmt (Node.identifier "g") [], Node.breakStmt] exampleState).observe 0 "x" =
      some (false, some "", 1) := by
  simp [Outcome.failure, Outcome.observe, GoError.rootMessage, exampleUndeclaredDefers,
    exampleDeferBlock, examplePrelude, exampleSetter, exampleState, exampleHost, exampleGlobals,
    NewEvaluator, evalBlockNode, evalBlockNodeLastFirst, evalBlockNodeWithEnv,
    evalBlockNodeWithEnvLastFirst, allocEnclosed, eval, wrap, wrapResult, evalProgramNode,
    evalDeclarations, Eval.andThen, Eval.pure, Eval.fail, Eval.lift, evalVarStmtNode,
    envDeclare, Declare, evalFunctionNode, NewUserFunction, evalDeferStmtNode, runDeferred,
    runDeferredLastFirst, runCalls, evalCallNode, evalIdentifierNode, envGet, Get,
    resolveCallable, isCallable, Variadic, Arity, evalNodes, Call, callFunction,
    declareFormals, evalAssignmentNode, envAssign, Assign, evalStringNode,
    evalReturnStmtNode, evalBreakStmtNode, evalNilNode, NewReturnError, NewBreakError,
    NewEvaluateError, Mem.write, Environment.set, Environment.WithEnclosing, NewEnvironment,
    NewString, NIL]

/-- The block `{ defer g(); undefined; }` is left with an error or signal, `x` unchanged
and one call still queued. -/
theorem defer_then_error_observed :
    (evalBlockNode (eval (exampleHost false) 5)
      [Node.deferStmt (Node.identifier "g") [], Node.identifier "undefined"] exampleState).observe 0 "x" =
      some (false, some "", 1) := by
  simp [Outcome.failure, Outcome.observe, GoError.rootMessage, exampleUndeclaredDefers,
    exampleDeferBlock, examplePrelude, exampleSetter, exampleState, exampleHost, exampleGlobals,
    NewEvaluator, evalBlockNode, evalBlockNodeLastFirst, evalBlockNodeWithEnv,
    evalBlockNodeWithEnvLastFirst, allocEnclosed, eval, wrap, wrapResult, evalProgramNode,
    evalDeclarations, Eval.andThen, Eval.pure, Eval.fail, Eval.lift, evalVarStmtNode,
    envDeclare, Declare, evalFunctionNode, NewUserFunction, evalDeferStmtNode, runDeferred,
    runDeferredLastFirst, runCalls, evalCallNode, evalIdentifierNode, envGet, Get,
    resolveCallable, isCallable, Variadic, Arity, evalNodes, Call, callFunction,
    declareFormals, evalAssignmentNode, envAssign, Assign, evalStringNode,
    evalReturnStmtNode, evalBreakStmtNode, evalNilNode, NewReturnError, NewBreakError,
    NewEvaluateError, Mem.write, Environment.set, Environment.WithEnclosing, NewEnvironment,
    NewString, NIL]

/-- Counterexample to C9 as stated. First, the block `{ defer a(); defer b(); }`
run by a new evaluator, where neither name is declared: its block exit fails
with the error of `a()`, the call deferred first, while the
last-deferred-first order of the specification fails with the error of `b()`.
Second, in the state left by `var x = ""; fun g() { x = "g"; }
fun h() { x = "h"; }`, the block `{ defer g(); defer h(); }` returns without
error and leaves `x` equal to `h`, so `h()` ran last; the order of the
specification runs `g()` last and leaves `x` equal to `g`. -/
theorem deferred_calls_not_last_first :
    (∃ err s1, evalBlockNode (eval (exampleHost false) 4) exampleUndeclaredDefers
        NewEvaluator = Outcome.ret (Except.error err) s1 ∧
      err.rootMessage = "symbol not declared: a") ∧
    (∃ err s2, evalBlockNodeLastFirst (eval (exampleHost false) 4) exampleUndeclaredDefers
        NewEvaluator = Outcome.ret (Except.error err) s2 ∧
      err.rootMessage = "symbol not declared: b") ∧
    (∃ obj s1, evalBlockNode (eval (exampleHost false) 5) exampleDeferBlock exampleState =
        Outcome.ret (Except.ok obj) s1 ∧
      (s1.mem 0).scopeVariables "x" = some (NewString "h") ∧ s1.deferred.length = 0) ∧
    (∃ obj s2, evalBlockNodeLastFirst (eval (exampleHost false) 5) exampleDeferBlock
        exampleState = Outcome.ret (Except.ok obj) s2 ∧
      (s2.mem 0).scopeVariables "x" = some (NewString "g") ∧ s2.deferred.length = 0) :=
  ⟨Outcome.failure_eq _ _ undeclared_defers_queue_order,
    Outcome.failure_eq _ _ undeclared_defers_last_first,
    Outcome.observe_ok _ 0 "x" "h" 0 setter_defers_queue_order,
    Outcome.observe_ok _ 0 "x" "g" 0 setter_defers_last_first⟩

/-- Claim C10 (code defect). In the state left by `var x = ""; fun g() { x = "g"; }
...`, each of the blocks `{ defer g(); return nil; }`, `{ defer g(); break; }`
and `{ defer g(); undefined; }` is left with a signal or an error, and when
the block returns the deferred call `g()` has not been run: one call is still
queued and `x` still holds the empty string. -/
theorem deferred_calls_skipped_on_error :
    (∃ err s1, evalBlockNode (eval (exampleHost false) 5)
        [Node.deferStmt (Node.identifier "g") [], Node.returnStmt Node.nil] exampleState =
        Outcome.ret (Except.error err) s1 ∧
      (s1.mem 0).scopeVariables "x" = some (NewString "") ∧ s1.deferred.length = 1) ∧
    (∃ err s1, evalBlockNode (eval (exampleHost false) 5)
        [Node.deferStmt (Node.identifier "g") [], Node.breakStmt] exampleState =
        Outcome.ret (Except.error err) s1 ∧
      (s1.mem 0).scopeVariables "x" = some (NewString "") ∧ s1.deferred.length = 1) ∧
    (∃ err s1, evalBlockNode (eval (exampleHost false) 5)
        [Node.deferStmt (Node.identifier "g") [], Node.identifier "undefined"] exampleState =
        Outcome.ret (Except.error err) s1 ∧
      (s1.mem 0).scopeVariables "x" = some (NewString "") ∧ s1.deferred.length = 1) :=
  ⟨Outcome.observe_error _ 0 "x" "" 1 defer_then_return_observed,
    Outcome.observe_error _ 0 "x" "" 1 defer_then_break_observed,
    Outcome.observe_error _ 0 "x" "" 1 defer_then_error_observed⟩


/-- The innermost binding scope only depends on which scopes of the chain bind
the name. -/
theorem innermost_congr (mem mem1 : Mem) (n : String) (ps : List Addr)
    (hb : ∀ q ∈ ps, binds mem1 n q = binds mem n q) :
    innermost mem1 n ps = innermost mem n ps := by
  induction ps with
  | nil => rfl
  | cons q qs ih =>
    unfold innermost at ih ⊢
    simp only [List.find?_cons, hb q (by simp)]
    cases binds mem n q with
    | true => rfl
    | false => exact ih (fun r hr => hb r (by simp [hr]))

/-- The chain seen from a freshly allocated scope enclosed by the current one. -/
theorem IsChain_alloc (s : Evaluator) (ps : List Addr) (hc : IsChain s.mem s.env ps)
    (halloc : ∀ q ∈ ps, q < s.next) :
    IsChain (s.mem.write s.next (NewEnvironment.WithEnclosing (some s.env))) s.next
      (s.next :: ps) := by
  refine IsChain.step s.next s.env ps (by simp [Mem.write, Environment.WithEnclosing]) ?_
  refine IsChain_congr s.mem _ s.env ps hc ?_
  intro q hq
  simp [Mem.write, Nat.ne_of_lt (halloc q hq)]


theorem eval_assignment (h : Host) (fuel : Nat) (x : String) (e : Node) :
    eval h (fuel + 1) (Node.assignment x e) =
      wrap h (Node.assignment x e) (evalAssignmentNode (eval h fuel) fuel x e) := by
  simp only [eval]

theorem eval_varStmt (h : Host) (fuel : Nat) (x : String) (e : Node) :
    eval h (fuel + 1) (Node.varStmt x e) =
      wrap h (Node.varStmt x e) (evalVarStmtNode h (eval h fuel) x e) := by
  simp only [eval]

/-- Method `Assign` on a scope that binds the name writes that scope. -/
theorem Assign_here (mem : Mem) (fuel : Nat) (e : Addr) (n : String) (v val : Object)
    (hb : (mem e).scopeVariables n = some val) (hfuel : 0 < fuel) :
    Assign mem fuel e n v = some (mem.write e ((mem e).set n v), none) := by
  cases fuel with
  | zero => exact absurd hfuel (Nat.lt_irrefl 0)
  | succ f =>
    unfold Assign
    simp only [hb]

/-! ## Calls: the arity check -/

/-- Claim C11. A call whose callee evaluates to `calleeNode` and resolves to the
callable `c`. When `c` is not variadic and its arity differs from the number of
argument nodes, `evalCallNode` returns the arity error in the state reached by
the resolution of the callee, and does so for every evaluator that agrees on
the callee: no argument is evaluated and `Call` is not invoked. In every other
case the check passes: the call is the evaluation of the arguments followed by
`Call`. A variadic callable passes the check for every list of arguments. -/
theorem evalCallNode_arity_check (h : Host) (ev : Node → Eval Object) (fuel : Nat)
    (callee : Node) (arguments : List Node) (s s1 s2 : Evaluator) (calleeNode c : Object)
    (hcallee : ev callee s = Outcome.ret (Except.ok calleeNode) s1)
    (hres : resolveCallable h fuel calleeNode s1 = Outcome.ret (Except.ok c) s2) :
    ((Variadic c = false ∧ Arity c ≠ arguments.length) →
      ∀ ev2 : Node → Eval Object, ev2 callee s = ev callee s →
        evalCallNode h ev2 fuel callee arguments s =
          Outcome.ret (Except.error (GoError.errorf ("incorrect number of arguments to " ++
            h.objString c ++ " - " ++ toString (Arity c) ++ " expected " ++
            toString arguments.length ++ " provided"))) s2) ∧
    (¬ (Variadic c = false ∧ Arity c ≠ arguments.length) →
      evalCallNode h ev fuel callee arguments s =
        ((evalNodes ev arguments).andThen fun argValues => Call h ev c argValues) s2) ∧
    (Variadic c = true → ∀ args : List Node,
      evalCallNode h ev fuel callee args s =
        ((evalNodes ev args).andThen fun argValues => Call h ev c argValues) s2) := by
  refine ⟨?_, ?_, ?_⟩
  · rintro ⟨hv, ha⟩ ev2 h2
    simp [evalCallNode, Eval.andThen, h2, hcallee, hres, hv, ha, Eval.fail]
  · intro hn
    have hc : (!Variadic c && Arity c != arguments.length) = false := by
      cases hv : Variadic c with
      | true => simp
      | false =>
        have : Arity c = arguments.length := by
          by_contra hne
          exact hn ⟨hv, hne⟩
        simp [this]
    simp only [evalCallNode, Eval.andThen, hcallee, hres, hc]
    rfl
  · intro hv args
    simp only [evalCallNode, Eval.andThen, hcallee, hres, hv]
    rfl

/-- Witness of C11: the native function `type` of arity 1 called without an
argument. -/
theorem evalCallNode_arity_check_witness :
    evalCallNode (exampleHost false) (eval (exampleHost false) 2) 2 (Node.identifier "type") []
      NewEvaluator =
    Outcome.ret (Except.error (GoError.errorf ("incorrect number of arguments to " ++
      "" ++ " - " ++ toString 1 ++ " expected " ++ toString 0 ++ " provided"))) NewEvaluator :=
  (evalCallNode_arity_check (exampleHost false) (eval (exampleHost false) 2) 2
    (Node.identifier "type") [] NewEvaluator NewEvaluator NewEvaluator
    (Object.nativeFunction "type" 1 false) (Object.nativeFunction "type" 1 false) rfl rfl).1
    ⟨rfl, by decide⟩ (eval (exampleHost false) 2) rfl

/-! ## Value model: doubles and lengths -/

theorem Float64.lt_zero_of_bits (b : Nat) (h1 : 1023 * 2 ^ 52 ≤ b) (h2 : b ≤ 2047 * 2 ^ 52) :
    Float64.lt Float64.zero ⟨b⟩ = true := by
  have e1 : b / 2 ^ 63 % 2 = 0 := by norm_num at h1 h2 ⊢; omega
  have e3 : (b / 2 ^ 52 % 2 ^ 11 = 2047 → b % 2 ^ 52 = 0) := by
    norm_num at h1 h2 ⊢; omega
  have e4 : 0 < b / 2 ^ 52 % 2 ^ 11 * 2 ^ 52 + b % 2 ^ 52 := by
    norm_num at h1 h2 ⊢; omega
  have hz : Float64.zero.isNaN = false := by decide
  have hk : Float64.zero.key = 0 := by decide
  have hn : (⟨b⟩ : Float64).isNaN = false := by
    unfold Float64.isNaN Float64.exponent Float64.mantissa
    by_cases hx : b / 2 ^ 52 % 2 ^ 11 = 2047
    · show (decide (b / 2 ^ 52 % 2 ^ 11 = 2047) && (b % 2 ^ 52 != 0)) = false
      rw [e3 hx]
      exact Bool.and_false _
    · show (decide (b / 2 ^ 52 % 2 ^ 11 = 2047) && (b % 2 ^ 52 != 0)) = false
      rw [decide_eq_false hx]
      rfl
  have hkb : 0 < (⟨b⟩ : Float64).key := by
    simp only [Float64.key, Float64.sign, Float64.exponent, Float64.mantissa, e1]
    simp only [Nat.zero_ne_one, if_false]
    exact_mod_cast e4
  simp [Float64.lt, hz, hk, hn, hkb]

theorem Float64.lt_zero_saturated (bits : Nat) (h1 : 1023 * 2 ^ 52 ≤ bits) :
    Float64.lt Float64.zero
      (if 2047 * 2 ^ 52 ≤ bits then ⟨2047 * 2 ^ 52⟩ else ⟨bits⟩) = true := by
  split
  · exact Float64.lt_zero_of_bits _ (by norm_num) (Nat.le_refl _)
  · rename_i hlt
    exact Float64.lt_zero_of_bits _ h1 (Nat.le_of_lt (Nat.lt_of_not_le hlt))

theorem Float64.ofNat_gt_zero (n : Nat) :
    Float64.gt (Float64.ofNat n) Float64.zero = decide (0 < n) := by
  by_cases hn : n = 0
  · subst hn
    rfl
  · have hpos : 0 < n := Nat.pos_of_ne_zero hn
    rw [decide_eq_true hpos]
    unfold Float64.gt Float64.ofNat
    rw [if_neg hn]
    exact Float64.lt_zero_saturated _
      (Nat.le_trans (Nat.mul_le_mul_right _ (Nat.le_add_right 1023 _)) (Nat.le_add_right _ _))

theorem len_eq_zero (s : String) : len s = 0 ↔ s = "" := by
  obtain ⟨cs⟩ := s
  cases cs with
  | nil => simp [len, String.utf8ByteSize, String.utf8ByteSize.go]
  | cons c cs =>
    have hc := Char.utf8Size_pos c
    constructor
    · intro h
      simp only [len, String.utf8ByteSize, String.utf8ByteSize.go] at h
      omega
    · intro h
      exact absurd (congrArg String.data h) (by simp)

/-! ## Value model: comparisons, equality, division and truthiness -/

/-- Claim C12, amended. The ordering operators have no error result: when both
operands of `<`, `<=`, `>` or `>=` evaluate, whatever their variants, the
binary operation returns the value of the comparison helper (`LessThan`,
`LessThanEq`, `GreaterThan`, `GreaterThanEq`) with a nil error, in the state
left by the operands. On two Numbers and on two Strings the methods `LessThan`
and `GreaterThan` return a Bool. -/
theorem ordering_has_no_error_result (h : Host) (ev : Node → Eval Object)
    (leftExp rightExp : Node) (s s1 s2 : Evaluator) (left right : Object)
    (hl : ev leftExp s = Outcome.ret (Except.ok left) s1)
    (hr : ev rightExp s1 = Outcome.ret (Except.ok right) s2) :
    evalBinaryOpNode h ev TokenType.TT_LT leftExp rightExp s =
        Outcome.ret (Except.ok (h.LessThan left right)) s2 ∧
    evalBinaryOpNode h ev TokenType.TT_LTE leftExp rightExp s =
        Outcome.ret (Except.ok (h.LessThanEq left right)) s2 ∧
    evalBinaryOpNode h ev TokenType.TT_GT leftExp rightExp s =
        Outcome.ret (Except.ok (h.GreaterThan left right)) s2 ∧
    evalBinaryOpNode h ev TokenType.TT_GTE leftExp rightExp s =
        Outcome.ret (Except.ok (h.GreaterThanEq left right)) s2 ∧
    (∀ f o : Float64, Number.LessThan f (NewNumber o) = some (NewBool (Float64.lt f o)) ∧
      Number.GreaterThan f (NewNumber o) = some (NewBool (Float64.gt f o))) ∧
    (∀ f o : String, String.LessThan f (NewString o) = some (NewBool (decide (f < o))) ∧
      String.GreaterThan f (NewString o) = some (NewBool (decide (o < f)))) := by
  refine ⟨?_, ?_, ?_, ?_, fun _ _ => ⟨rfl, rfl⟩, fun _ _ => ⟨rfl, rfl⟩⟩ <;>
    simp [evalBinaryOpNode, Eval.andThen, hl, hr, Eval.lift, binaryOp]

/-- Witness of C12: the comparison `nil < true`. -/
theorem ordering_has_no_error_result_witness :
    evalBinaryOpNode (exampleHost false) (eval (exampleHost false) 1) TokenType.TT_LT
        Node.nil (Node.boolean "true") NewEvaluator =
      Outcome.ret (Except.ok ((exampleHost false).LessThan NIL (NewBool true))) NewEvaluator :=
  (ordering_has_no_error_result (exampleHost false) (eval (exampleHost false) 1) Node.nil
    (Node.boolean "true") NewEvaluator NewEvaluator NewEvaluator NIL (NewBool true) rfl rfl).1

/-- Counterexample to C12 as stated: for the operands `nil` and `true`, which
are neither two Numbers nor two Strings, the operation `<` returns no error
under any host; and `Number.LessThan` on a String panics. -/
theorem ordering_mismatch_not_an_error :
    (∀ (h : Host) (err : GoError),
      binaryOp h TokenType.TT_LT NIL (NewBool true) ≠ Except.error err) ∧
    Number.LessThan Float64.zero (NewString "a") = none ∧
    String.GreaterThan "a" (NewNumber Float64.zero) = none :=
  ⟨fun _ _ hne => by simp [binaryOp] at hne, rfl, rfl⟩

/-- Claim C13, amended. The method `Nil.EqualTo` is true for every operand;
for a receiver of variant Number, Bool, String or Type, `EqualTo` on an operand
of the same variant returns whether the two payloads are equal, without
failing. -/
theorem EqualTo_same_variant :
    (∀ x : Object, Nil.EqualTo x = TRUE) ∧
    (∀ f o : Float64, Number.EqualTo f (NewNumber o) = some (NewBool (Float64.eq f o))) ∧
    (∀ f o : Bool, Bool.EqualTo f (NewBool o) = some (NewBool (f == o))) ∧
    (∀ f o : String, String.EqualTo f (NewString o) = some (NewBool (f == o))) ∧
    (∀ f o : String, MetaType.EqualTo f (Object.type o) = some (NewBool (f == o))) :=
  ⟨fun _ => rfl, fun _ _ => rfl, fun _ _ => rfl, fun _ _ => rfl, fun _ _ => rfl⟩

/-- Counterexample to C13 as stated: `Nil.EqualTo` is true on a Number, and
`EqualTo` of a Number, Bool, String or Type on an operand of another variant
panics instead of returning false. -/
theorem EqualTo_cross_variant :
    Nil.EqualTo (NewNumber Float64.zero) = TRUE ∧
    Number.EqualTo Float64.zero NIL = none ∧
    Bool.EqualTo false NIL = none ∧
    String.EqualTo "" NIL = none ∧
    MetaType.EqualTo "number" NIL = none :=
  ⟨rfl, rfl, rfl, rfl, rfl⟩

/-- Claim C14. Method `Number.Divide` on two Numbers returns an error exactly
when the divisor equals 0 (either zero of the doubles: exponent and fraction
zero), and then no value; otherwise it returns the Number `f / d` with no
error. -/
theorem Number_Divide_contract (ar : Arith) (f d : Float64) :
    ((∃ err, Number.Divide ar f (NewNumber d) = some (Except.error err)) ↔
      Float64.eq d Float64.zero = true) ∧
    Number.Divide ar f (NewNumber d) =
      (if Float64.eq d Float64.zero then
        some (Except.error (GoError.errorf "Divide by zero error"))
      else some (Except.ok (NewNumber (ar.div f d)))) ∧
    (Float64.eq d Float64.zero = true ↔ d.exponent = 0 ∧ d.mantissa = 0) := by
  refine ⟨?_, rfl, ?_⟩
  · cases hz : Float64.eq d Float64.zero <;>
      simp [Number.Divide, asNumber, NewNumber, hz]
  · have hk : Float64.zero.key = 0 := by decide
    have hn : Float64.zero.isNaN = false := by decide
    have hm : d.mantissa < 2 ^ 52 := Nat.mod_lt _ (by norm_num)
    constructor
    · intro hz
      simp only [Float64.eq, hk, hn, Bool.not_false, Bool.and_true, Bool.and_eq_true,
        Bool.not_eq_true', beq_iff_eq] at hz
      have hkey := hz.2
      unfold Float64.key at hkey
      split at hkey <;> constructor <;> omega
    · rintro ⟨he, hm0⟩
      have hdn : d.isNaN = false := by simp [Float64.isNaN, he]
      have hdk : d.key = 0 := by simp [Float64.key, he, hm0]
      simp [Float64.eq, hk, hn, hdn, hdk]

/-- Claim C15. The truthiness table of the methods `Truthy`: false for Nil, for
the Bool false, for a Number equal to 0, for the empty String and for the empty
List; true for the Bool true, for every Number not equal to 0, for every String
and List that is not empty, and for every Type. -/
theorem Truthy_table :
    Nil.Truthy = FALSE ∧
    Bool.Truthy false = FALSE ∧ Bool.Truthy true = TRUE ∧
    (∀ f : Float64, Number.Truthy f = NewBool (!Float64.eq f Float64.zero)) ∧
    Number.Truthy Float64.zero = FALSE ∧
    (∀ f : String, String.Truthy f = NewBool (decide (f ≠ ""))) ∧
    String.Truthy "" = FALSE ∧
    (∀ f : List Object, List.Truthy f = NewBool (!f.isEmpty)) ∧
    List.Truthy [] = FALSE ∧
    (∀ f : String, MetaType.Truthy f = TRUE) := by
  refine ⟨rfl, rfl, rfl, fun _ => rfl, rfl, ?_, rfl, ?_, rfl, fun _ => rfl⟩
  · intro f
    unfold String.Truthy String.Size
    rw [Float64.ofNat_gt_zero]
    congr 1
    have := len_eq_zero f
    by_cases hf : f = ""
    · subst hf
      have h0 : len "" = 0 := rfl
      simp [h0]
    · have : len f ≠ 0 := fun h0 => hf (this.1 h0)
      simp [hf, Nat.pos_of_ne_zero this]
  · intro f
    unfold List.Truthy List.Size
    rw [Float64.ofNat_gt_zero]
    cases f <;> simp

/-! ## Value model: indexing and list concatenation -/

theorem Float64.toInt_of_trunc (overflow : Float64 → Int) (n : Float64) (i : Int)
    (hi : Float64.trunc? n = some i) : Float64.toInt overflow n = i := by
  simp [Float64.toInt, hi]

theorem List.Index_in_range (overflow : Float64 → Int) (f : List Object) (n : Float64)
    (i : Nat) (v : Object) (hi : Float64.trunc? n = some (i : Int)) (hv : f[i]? = some v) :
    List.Index overflow f n = some (Except.ok v) := by
  have hlt : i < f.length := by
    rcases Nat.lt_or_ge i f.length with h | h
    · exact h
    · rw [List.getElem?_eq_none h] at hv
      cases hv
  have h1 : ¬ ((f.length : Int) ≤ (i : Int)) := by omega
  have h2 : ¬ ((i : Int) < 0) := by omega
  simp only [List.Index, Float64.toInt_of_trunc overflow n i hi, h1, h2, if_false,
    Int.toNat_ofNat, hv]

/-- Claim C16 at its failing inputs. For a Number whose integer part is
negative, `List.Index` and `String.Index` pass the guard `idx >= len` and the
indexing `f.Values[idx]`, `f.Value[idx]` panics: no error is returned. -/
theorem Index_negative_panics (overflow : Float64 → Int) (values : List Object)
    (str : String) (n : Float64) (i : Int) (hi : Float64.trunc? n = some i) (hneg : i < 0) :
    List.Index overflow values n = none ∧ String.Index overflow str n = none := by
  have h1 : ¬ ((values.length : Int) ≤ i) := by omega
  have h2 : ¬ ((len str : Int) ≤ i) := by omega
  constructor
  · simp only [List.Index, Float64.toInt_of_trunc overflow n i hi, h1, hneg, if_false, if_true]
  · simp only [String.Index, Float64.toInt_of_trunc overflow n i hi, h2, hneg, if_false, if_true]

/-- Witness of C16: the index `-1` on the list `["a", "b", "c"]` and on the
string `abc`. -/
theorem Index_negative_panics_witness :
    List.Index exampleOverflow exampleList Float64.minusOne = none ∧
    String.Index exampleOverflow "abc" Float64.minusOne = none :=
  Index_negative_panics exampleOverflow exampleList "abc" Float64.minusOne (-1) rfl (by decide)

/-- Claim C17, amended. Indexing truncates the Number index toward zero: for a
Number whose integer part is `i`, whether or not the Number is integer-valued,
`List.Index` returns the element at position `i` when there is one, and
`String.Index` returns the string of the byte at position `i` when `i` is below
the length. -/
theorem Index_truncates (overflow : Float64 → Int) (values : List Object) (str : String)
    (n : Float64) (i : Nat) (hi : Float64.trunc? n = some (i : Int)) :
    (∀ v, values[i]? = some v → List.Index overflow values n = some (Except.ok v)) ∧
    (i < len str → String.Index overflow str n =
      some (Except.ok (NewString (stringOfByte (str.toUTF8.get! i))))) := by
  refine ⟨fun v hv => List.Index_in_range overflow values n i v hi hv, fun hlt => ?_⟩
  have h1 : ¬ ((len str : Int) ≤ (i : Int)) := by omega
  have h2 : ¬ ((i : Int) < 0) := by omega
  simp only [String.Index, Float64.toInt_of_trunc overflow n i hi, h1, h2, if_false,
    Int.toNat_ofNat]

/-- Witness of C17: the index `1.5` on the list `["a", "b", "c"]` and on the
string `abc`. -/
theorem Index_truncates_witness :
    List.Index exampleOverflow exampleList Float64.oneAndHalf =
      some (Except.ok (NewString "b")) ∧
    String.Index exampleOverflow "abc" Float64.oneAndHalf =
      some (Except.ok (NewString (stringOfByte ("abc".toUTF8.get! 1)))) :=
  ⟨(Index_truncates exampleOverflow exampleList "abc" Float64.oneAndHalf 1 rfl).1 _ rfl,
    (Index_truncates exampleOverflow exampleList "abc" Float64.oneAndHalf 1 rfl).2 (by decide)⟩

/-- Counterexample to C17 as stated: `1.5` is not integer-valued, and indexing
the list `["a", "b", "c"]` and the string `abc` at `1.5` returns the element at
position 1 instead of failing. -/
theorem Index_accepts_fraction :
    Float64.integral Float64.oneAndHalf = false ∧
    List.Index exampleOverflow exampleList Float64.oneAndHalf =
      some (Except.ok (NewString "b")) ∧
    String.Index exampleOverflow "abc" Float64.oneAndHalf =
      some (Except.ok (NewString "b")) :=
  ⟨by decide, rfl, rfl⟩

/-- Claim C18. Method `List.Add` on two Lists succeeds with the List of the
elements of `a` followed by those of `b`: its length is the sum of the lengths,
so its Size is the Number of that sum, and `Index` at position `i` gives
`a[i]` below the length of `a` and `b[i - len a]` from there on; `List.Add`
fails exactly when the operand is not a List. -/
theorem List_Add_contract (typeName : Object → String) (a b : List Object) :
    List.Add typeName a (NewList b) = Except.ok (NewList (a ++ b)) ∧
    (a ++ b).length = a.length + b.length ∧
    List.Size (a ++ b) = Float64.ofNat (a.length + b.length) ∧
    (∀ (overflow : Float64 → Int) (n : Float64) (i : Nat),
      Float64.trunc? n = some (i : Int) → i < a.length + b.length →
      List.Index overflow (a ++ b) n =
        (if i < a.length then a[i]? else b[i - a.length]?).map Except.ok) ∧
    (∀ x : Object, (∃ err, List.Add typeName a x = Except.error err) ↔
      ∀ l : List Object, x ≠ Object.list l) := by
  refine ⟨rfl, List.length_append a b, ?_, ?_, ?_⟩
  · unfold List.Size
    rw [List.length_append]
  · intro overflow n i hi hlt
    have hget : (a ++ b)[i]? = if i < a.length then a[i]? else b[i - a.length]? := by
      split
      · rename_i h
        exact List.getElem?_append_left h
      · rename_i h
        exact List.getElem?_append_right (Nat.le_of_not_lt h)
    rw [← hget]
    have hl : i < (a ++ b).length := by rw [List.length_append]; exact hlt
    rw [List.getElem?_eq_getElem hl]
    exact List.Index_in_range overflow (a ++ b) n i _ hi (List.getElem?_eq_getElem hl)
  · intro x
    cases x <;> simp [List.Add]

/-- Witness of C18: `["a", "b", "c"] + ["a", "b", "c"]` indexed at `1`. -/
theorem List_Add_contract_witness :
    List.Add (fun _ => "") exampleList (NewList exampleList) =
      Except.ok (NewList (exampleList ++ exampleList)) ∧
    List.Index exampleOverflow (exampleList ++ exampleList) Float64.one =
      some (Except.ok (NewString "b")) :=
  ⟨(List_Add_contract (fun _ => "") exampleList exampleList).1,
    (List_Add_contract (fun _ => "") exampleList exampleList).2.2.2.1 exampleOverflow
      Float64.one 1 rfl (by decide)⟩

/-! ## Imports

The import set only grows during an evaluation. -/

theorem KeepsImports_pure {α : Type} (a : α) : KeepsImports (Eval.pure a) := by
  intro s r s1 h k hk
  simp only [Eval.pure, Outcome.ret.injEq] at h
  rw [← h.2]; exact hk

theorem KeepsImports_fail {α : Type} (err : GoError) : KeepsImports (Eval.fail err : Eval α) := by
  intro s r s1 h k hk
  simp only [Eval.fail, Outcome.ret.injEq] at h
  rw [← h.2]; exact hk

theorem KeepsImports_lift {α : Type} (x : Except GoError α) : KeepsImports (Eval.lift x) := by
  intro s r s1 h k hk
  simp only [Eval.lift, Outcome.ret.injEq] at h
  rw [← h.2]; exact hk

theorem KeepsImports_andThen {α β : Type} (m : Eval α) (k : α → Eval β) (hm : KeepsImports m)
    (hk : ∀ a, KeepsImports (k a)) : KeepsImports (m.andThen k) := by
  intro s r s2 h n hn
  unfold Eval.andThen at h
  cases hms : m s with
  | ret r1 s1 =>
    have f1 := hm s r1 s1 hms n hn
    cases r1 with
    | ok a =>
      simp only [hms] at h
      exact hk a s1 r s2 h n f1
    | error err =>
      simp only [hms, Outcome.ret.injEq] at h
      rw [← h.2]
      exact f1
  | exit c => simp [hms] at h
  | diverge => simp [hms] at h

theorem KeepsImports_wrap (h : Host) (node : Node) (m : Eval Object) (hm : KeepsImports m) :
    KeepsImports (wrap h node m) := by
  intro s r s1 hw k hk
  unfold wrap at hw
  cases hms : m s with
  | ret r1 s2 =>
    simp only [hms, Outcome.ret.injEq] at hw
    rw [← hw.2]
    exact hm s r1 s2 hms k hk
  | exit c => simp [hms] at hw
  | diverge => simp [hms] at hw

theorem KeepsImports_evalDeclarations (ev : Node → Eval Object)
    (hev : ∀ n, KeepsImports (ev n)) (l : List Node) : KeepsImports (evalDeclarations ev l) := by
  induction l with
  | nil => exact KeepsImports_pure ()
  | cons n rest ih =>
    unfold evalDeclarations
    exact KeepsImports_andThen _ _ (hev n) (fun _ => ih)

theorem KeepsImports_runCalls (ev : Node → Eval Object) (hev : ∀ n, KeepsImports (ev n))
    (l : List Node) : KeepsImports (runCalls ev l) := by
  induction l with
  | nil => exact KeepsImports_pure NIL
  | cons n rest ih =>
    unfold runCalls
    exact KeepsImports_andThen _ _ (hev n) (fun _ => ih)

theorem KeepsImports_evalNodes (ev : Node → Eval Object) (hev : ∀ n, KeepsImports (ev n))
    (l : List Node) : KeepsImports (evalNodes ev l) := by
  induction l with
  | nil => exact KeepsImports_pure []
  | cons n rest ih =>
    unfold evalNodes
    exact KeepsImports_andThen _ _ (hev n)
      (fun _ => KeepsImports_andThen _ _ ih (fun _ => KeepsImports_pure _))

theorem KeepsImports_evalMapElements (h : Host) (ev : Node → Eval Object)
    (hev : ∀ n, KeepsImports (ev n)) (l : List (Node × Node)) :
    ∀ m, KeepsImports (evalMapElements h ev l m) := by
  induction l with
  | nil => intro m; exact KeepsImports_pure m
  | cons kvp rest ih =>
    intro m
    unfold evalMapElements
    exact KeepsImports_andThen _ _ (hev _) (fun _ => KeepsImports_andThen _ _ (hev _)
      (fun _ => KeepsImports_andThen _ _ (KeepsImports_lift _) (fun m1 => ih m1)))

theorem KeepsImports_runDeferred (ev : Node → Eval Object) (hev : ∀ n, KeepsImports (ev n)) :
    KeepsImports (runDeferred ev) := by
  intro s r s1 h k hk
  unfold runDeferred at h
  exact KeepsImports_runCalls ev hev s.deferred _ r s1 h k hk

theorem KeepsImports_envDeclare (h : Host) (n : String) (v : Object) :
    KeepsImports (envDeclare h n v) := by
  intro s r s1 hd k hk
  unfold envDeclare at hd
  cases hdec : Declare h.globals s.mem s.env n v with
  | mk mem1 err =>
    cases err <;> simp only [hdec, Outcome.ret.injEq] at hd <;> (rw [← hd.2]; exact hk)

theorem KeepsImports_envAssign (fuel : Nat) (n : String) (v : Object) :
    KeepsImports (envAssign fuel n v) := by
  intro s r s1 hd k hk
  unfold envAssign at hd
  cases hass : Assign s.mem fuel s.env n v with
  | none => simp [hass] at hd
  | some res =>
    obtain ⟨mem1, err⟩ := res
    cases err <;> simp only [hass, Outcome.ret.injEq] at hd <;> (rw [← hd.2]; exact hk)

theorem KeepsImports_envGet (h : Host) (fuel : Nat) (n : String) :
    KeepsImports (envGet h fuel n) := by
  intro s r s1 hd k hk
  unfold envGet at hd
  cases hg : Get h.globals s.mem fuel s.env n with
  | none => simp [hg] at hd
  | some x =>
    simp only [hg, Outcome.ret.injEq] at hd
    rw [← hd.2]; exact hk

theorem KeepsImports_evalBlockNodeWithEnv (ev : Node → Eval Object)
    (hev : ∀ n, KeepsImports (ev n)) (declarations : List Node) (env : Addr) :
    KeepsImports (evalBlockNodeWithEnv ev declarations env) := by
  intro s r s1 h k hk
  unfold evalBlockNodeWithEnv at h
  have hin : KeepsImports ((evalDeclarations ev declarations).andThen (fun _ => runDeferred ev)) :=
    KeepsImports_andThen _ _ (KeepsImports_evalDeclarations ev hev declarations)
      (fun _ => KeepsImports_runDeferred ev hev)
  cases hm : ((evalDeclarations ev declarations).andThen (fun _ => runDeferred ev))
      { s with env := env } with
  | ret r0 t1 =>
    have f := hin { s with env := env } r0 t1 hm k hk
    simp only [hm, Outcome.ret.injEq] at h
    rw [← h.2]
    exact f
  | exit c => simp [hm] at h
  | diverge => simp [hm] at h

theorem KeepsImports_evalBlockNode (ev : Node → Eval Object) (hev : ∀ n, KeepsImports (ev n))
    (declarations : List Node) : KeepsImports (evalBlockNode ev declarations) := by
  intro s r s1 h k hk
  unfold evalBlockNode at h
  exact KeepsImports_evalBlockNodeWithEnv ev hev declarations _ _ r s1 h k hk

theorem KeepsImports_callFunction (h : Host) (ev : Node → Eval Object)
    (hev : ∀ n, KeepsImports (ev n)) (params : List String) (body : List Node) (closure : Addr)
    (args : List Object) : KeepsImports (callFunction h ev params body closure args) := by
  intro s r s2 hc k hk
  unfold callFunction at hc
  simp only [allocEnclosed] at hc
  cases hdf : declareFormals h.globals s.next params args
      (s.mem.write s.next (NewEnvironment.WithEnclosing (some closure))) with
  | mk mem err =>
    cases err with
    | some e1 =>
      simp only [hdf, Outcome.ret.injEq] at hc
      rw [← hc.2]
      exact hk
    | none =>
      simp only [hdf] at hc
      cases hb : evalBlockNodeWithEnv ev body s.next
          { env := s.env, deferred := s.deferred, importSet := s.importSet, latest := s.latest,
            mem := mem, next := s.next + 1 } with
      | ret r1 s1 =>
        have key := KeepsImports_evalBlockNodeWithEnv ev hev body s.next _ r1 s1 hb k hk
        rw [hb] at hc
        cases r1 with
        | ok v =>
          simp only [Outcome.ret.injEq] at hc
          rw [← hc.2]; exact key
        | error e1 =>
          cases e1 <;> simp only [Outcome.ret.injEq] at hc <;> (rw [← hc.2]; exact key)
      | exit c => simp [hb] at hc
      | diverge => simp [hb] at hc

theorem KeepsImports_Call (h : Host) (ev : Node → Eval Object) (hev : ∀ n, KeepsImports (ev n))
    (callable : Object) (args : List Object) : KeepsImports (Call h ev callable args) := by
  cases callable <;> unfold Call <;>
    first
    | exact KeepsImports_callFunction h ev hev _ _ _ _
    | exact KeepsImports_lift _

theorem KeepsImports_resolveCallable (h : Host) (fuel : Nat) (calleeNode : Object) :
    KeepsImports (resolveCallable h fuel calleeNode) := by
  unfold resolveCallable
  split
  · exact KeepsImports_pure _
  · intro s r s1 hr k hk
    simp only at hr
    split at hr
    · simp at hr
    · simp only [Outcome.ret.injEq] at hr
      rw [← hr.2]; exact hk
    · split at hr <;> simp only [Outcome.ret.injEq] at hr <;> (rw [← hr.2]; exact hk)

theorem KeepsImports_evalCallNode (h : Host) (ev : Node → Eval Object)
    (hev : ∀ n, KeepsImports (ev n)) (fuel : Nat) (callee : Node) (arguments : List Node) :
    KeepsImports (evalCallNode h ev fuel callee arguments) := by
  unfold evalCallNode
  refine KeepsImports_andThen _ _ (hev callee) (fun calleeNode => ?_)
  refine KeepsImports_andThen _ _ (KeepsImports_resolveCallable h fuel calleeNode)
    (fun callable => ?_)
  split
  · exact KeepsImports_fail _
  · exact KeepsImports_andThen _ _ (KeepsImports_evalNodes ev hev arguments)
      (fun argValues => KeepsImports_Call h ev hev callable argValues)

theorem KeepsImports_Import (h : Host) (ev : Node → Eval Object)
    (hev : ∀ n, KeepsImports (ev n)) (m : String) : KeepsImports (Import h ev m) := by
  intro s r s2 hi k hk
  have hmark : (markImported s m).importSet k = true := by
    simp [markImported, hk]
  unfold Import at hi
  split at hi
  · simp only [Outcome.ret.injEq] at hi
    rw [← hi.2]; exact hk
  · split at hi
    · simp only [Outcome.ret.injEq] at hi
      rw [← hi.2]; exact hk
    · split at hi
      · split at hi
        · simp at hi
        · simp only [Outcome.ret.injEq] at hi
          rw [← hi.2]; exact hk
      · rename_i root _
        split at hi
        · rename_i err s1 he
          split at hi
          · simp at hi
          · simp only [Outcome.ret.injEq] at hi
            rw [← hi.2]
            exact hev root (markImported s m) _ s1 he k hmark
        · rename_i v s1 he
          simp only [Outcome.ret.injEq] at hi
          rw [← hi.2]
          exact hev root (markImported s m) _ s1 he k hmark
        · simp at hi
        · simp at hi

theorem KeepsImports_whileLoop (h : Host) (ev : Node → Eval Object)
    (hev : ∀ n, KeepsImports (ev n)) (condition body : Node) :
    ∀ n, KeepsImports (whileLoop h ev condition body n) := by
  intro n
  induction n with
  | zero =>
    intro s r s1 hw
    simp [whileLoop] at hw
  | succ n ih =>
    unfold whileLoop
    refine KeepsImports_andThen _ _ (hev condition) (fun c => ?_)
    split
    · intro s r s2 hw k hk
      simp only at hw
      cases hb : ev body s with
      | ret r1 s1 =>
        have f := hev body s r1 s1 hb k hk
        rw [hb] at hw
        cases r1 with
        | ok v => exact ih s1 r s2 hw k f
        | error e1 =>
          simp only at hw
          split at hw
          · simp only [Outcome.ret.injEq] at hw
            rw [← hw.2]; exact f
          · exact ih s1 r s2 hw k f
          · simp only [Outcome.ret.injEq] at hw
            rw [← hw.2]; exact f
      | exit c => simp [hb] at hw
      | diverge => simp [hb] at hw
    · exact KeepsImports_pure _

theorem KeepsImports_eval (h : Host) :
    ∀ (fuel : Nat) (node : Node), KeepsImports (eval h fuel node) := by
  intro fuel
  induction fuel with
  | zero =>
    intro node s r s1 he
    simp [eval] at he
  | succ fuel ih =>
    intro node
    cases node with
    | program d =>
      exact KeepsImports_wrap h _ _
        (KeepsImports_andThen _ _ (KeepsImports_evalDeclarations _ ih d)
          (fun _ => KeepsImports_pure _))
    | block d => exact KeepsImports_wrap h _ _ (KeepsImports_evalBlockNode _ ih d)
    | varStmt i v =>
      exact KeepsImports_wrap h _ _ (KeepsImports_andThen _ _ (ih v)
        (fun x => KeepsImports_andThen _ _ (KeepsImports_envDeclare h i x)
          (fun _ => KeepsImports_pure _)))
    | expStmt e => exact KeepsImports_wrap h _ _ (ih e)
    | ifStmt e t f =>
      refine KeepsImports_wrap h _ _ (KeepsImports_andThen _ _ (ih e) (fun value => ?_))
      split
      · exact ih t
      · cases f with
        | some f => exact ih f
        | none => exact KeepsImports_pure _
    | whileStmt c b => exact KeepsImports_wrap h _ _ (KeepsImports_whileLoop h _ ih c b fuel)
    | breakStmt => exact KeepsImports_wrap h _ _ (KeepsImports_fail _)
    | continueStmt => exact KeepsImports_wrap h _ _ (KeepsImports_fail _)
    | returnStmt e =>
      exact KeepsImports_wrap h _ _ (KeepsImports_andThen _ _ (ih e) (fun _ => KeepsImports_fail _))
    | assignment i v =>
      exact KeepsImports_wrap h _ _ (KeepsImports_andThen _ _ (ih v)
        (fun x => KeepsImports_andThen _ _ (KeepsImports_envAssign fuel i x)
          (fun _ => KeepsImports_pure _)))
    | logicalAnd l r =>
      exact KeepsImports_wrap h _ _ (KeepsImports_andThen _ _ (ih l)
        (fun _ => KeepsImports_andThen _ _ (ih r) (fun _ => KeepsImports_pure _)))
    | logicalOr l r =>
      refine KeepsImports_wrap h _ _ (KeepsImports_andThen _ _ (ih l) (fun left => ?_))
      split
      · exact KeepsImports_pure _
      · exact KeepsImports_andThen _ _ (ih r) (fun _ => KeepsImports_pure _)
    | exp e => exact KeepsImports_wrap h _ _ (ih e)
    | ternaryOp e t f =>
      refine KeepsImports_wrap h _ _ (KeepsImports_andThen _ _ (ih e) (fun value => ?_))
      split
      · exact ih t
      · exact ih f
    | binaryOp op l r =>
      exact KeepsImports_wrap h _ _ (KeepsImports_andThen _ _ (ih l)
        (fun _ => KeepsImports_andThen _ _ (ih r) (fun _ => KeepsImports_lift _)))
    | unaryOp op o =>
      refine KeepsImports_wrap h _ _ (KeepsImports_andThen _ _ (ih o) (fun val => ?_))
      split
      · exact KeepsImports_lift _
      · split
        · exact KeepsImports_lift _
        · exact KeepsImports_fail _
    | identifier l => exact KeepsImports_wrap h _ _ (KeepsImports_envGet h fuel l)
    | number l =>
      refine KeepsImports_wrap h _ _ ?_
      unfold evalNumberNode
      split
      · exact KeepsImports_fail _
      · exact KeepsImports_pure _
    | boolean l =>
      refine KeepsImports_wrap h _ _ ?_
      unfold evalBooleanNode
      split
      · exact KeepsImports_fail _
      · exact KeepsImports_pure _
    | string l => exact KeepsImports_wrap h _ _ (KeepsImports_pure _)
    | list es =>
      exact KeepsImports_wrap h _ _
        (KeepsImports_andThen _ _ (KeepsImports_evalNodes _ ih es) (fun _ => KeepsImports_pure _))
    | map es => exact KeepsImports_wrap h _ _ (KeepsImports_evalMapElements h _ ih es _)
    | nil => exact KeepsImports_wrap h _ _ (KeepsImports_pure _)
    | call c a => exact KeepsImports_wrap h _ _ (KeepsImports_evalCallNode h _ ih fuel c a)
    | indexOf q i =>
      exact KeepsImports_wrap h _ _ (KeepsImports_andThen _ _ (ih q)
        (fun _ => KeepsImports_andThen _ _ (ih i) (fun _ => KeepsImports_lift _)))
    | function n p b =>
      refine KeepsImports_wrap h _ _ ?_
      intro s r s1 hf
      unfold evalFunctionNode at hf
      exact KeepsImports_andThen _ _ (KeepsImports_envDeclare h n _)
        (fun _ => KeepsImports_pure _) s r s1 hf
    | deferStmt c a =>
      have hdefer : KeepsImports (evalDeferStmtNode c a) := by
        intro s r s1 hd k hk
        simp only [evalDeferStmtNode, Outcome.ret.injEq] at hd
        rw [← hd.2]
        exact hk
      exact KeepsImports_wrap h _ _ hdefer
    | assertStmt e =>
      refine KeepsImports_wrap h _ _ (KeepsImports_andThen _ _ (ih e) (fun v => ?_))
      split
      · exact KeepsImports_pure _
      · exact KeepsImports_fail _
    | comment => exact KeepsImports_wrap h _ _ (KeepsImports_pure _)
    | importStmt n =>
      exact KeepsImports_wrap h _ _
        (KeepsImports_andThen _ _ (KeepsImports_Import h _ ih _) (fun _ => KeepsImports_pure _))
    | invalid => exact KeepsImports_fail _

theorem Import_imported (h : Host) (ev : Node → Eval Object) (m : String) (t : Evaluator)
    (ht : t.importSet m = true) : Import h ev m t = Outcome.ret (Except.ok ()) t := by
  simp [Import, ht]

theorem Import_evaluates (h : Host) (ev : Node → Eval Object) (m : String) (s : Evaluator)
    (cmds : String) (root : Node) (hnew : s.importSet m = false)
    (hdata : h.moduleData m = Except.ok cmds) (hroot : h.RootNode cmds = Except.ok root)
    (r : Except GoError Unit) (s1 : Evaluator)
    (hi : Import h ev m s = Outcome.ret r s1) :
    ∃ r0, ev root (markImported s m) = Outcome.ret r0 s1 := by
  unfold Import at hi
  simp only [hnew, hdata, hroot, Bool.false_eq_true, if_false] at hi
  split at hi
  · rename_i err t he
    split at hi
    · simp at hi
    · simp only [Outcome.ret.injEq] at hi
      rw [← hi.2]
      exact ⟨_, he⟩
  · rename_i v t he
    simp only [Outcome.ret.injEq] at hi
    rw [← hi.2]
    exact ⟨_, he⟩
  · simp at hi
  · simp at hi

/-- Claim C19. Once `Import(m)` has completed, that is, it returned nil or it
returned after the source of `m` was fetched and parsed, `m` is in the import
set, and a second `Import(m)` returns nil in the same state whatever the module
loader, the parser and the evaluator are: nothing is fetched, parsed or
evaluated. When `m` was not imported before, the first call evaluated the
source once, from the state in which `m` is marked. -/
theorem Import_idempotent (h : Host) (fuel : Nat) (m : String) (s s1 : Evaluator)
    (r : Except GoError Unit)
    (hfirst : Import h (eval h fuel) m s = Outcome.ret r s1)
    (hdone : r = Except.ok () ∨
      ∃ cmds root, h.moduleData m = Except.ok cmds ∧ h.RootNode cmds = Except.ok root) :
    s1.importSet m = true ∧
    (∀ (h2 : Host) (ev2 : Node → Eval Object),
      Import h2 ev2 m s1 = Outcome.ret (Except.ok ()) s1) ∧
    (s.importSet m = false → ∃ cmds root r0, h.moduleData m = Except.ok cmds ∧
      h.RootNode cmds = Except.ok root ∧
      eval h fuel root (markImported s m) = Outcome.ret r0 s1) := by
  have key : s1.importSet m = true ∧ (s.importSet m = false →
      ∃ cmds root r0, h.moduleData m = Except.ok cmds ∧ h.RootNode cmds = Except.ok root ∧
        eval h fuel root (markImported s m) = Outcome.ret r0 s1) := by
    cases hs : s.importSet m with
    | true =>
      rw [Import_imported h _ m s hs] at hfirst
      simp only [Outcome.ret.injEq] at hfirst
      rw [← hfirst.2]
      exact ⟨hs, fun hc => by cases hc⟩
    | false =>
      cases hdata : h.moduleData m with
      | error err =>
        simp only [Import, hs, hdata, Bool.false_eq_true, if_false, Outcome.ret.injEq] at hfirst
        rcases hdone with hr | ⟨cmds, root, h1, _⟩
        · rw [hr] at hfirst
          cases hfirst.1
        · rw [hdata] at h1
          cases h1
      | ok cmds =>
        cases hroot : h.RootNode cmds with
        | error err =>
          simp only [Import, hs, hdata, hroot, Bool.false_eq_true, if_false] at hfirst
          split at hfirst
          · simp at hfirst
          · simp only [Outcome.ret.injEq] at hfirst
            rcases hdone with hr | ⟨cmds2, root, h1, h2⟩
            · rw [hr] at hfirst
              cases hfirst.1
            · rw [hdata] at h1
              cases h1
              rw [hroot] at h2
              cases h2
        | ok root =>
          obtain ⟨r0, he⟩ := Import_evaluates h _ m s cmds root hs hdata hroot r s1 hfirst
          refine ⟨?_, fun _ => ⟨cmds, root, r0, rfl, hroot, he⟩⟩
          exact KeepsImports_eval h fuel root _ r0 s1 he m (by simp [markImported])
  exact ⟨key.1, fun h2 ev2 => Import_imported h2 ev2 m s1 key.1, key.2⟩

/-- Witness of C19: the module `A` of the host `cycleHost`, imported by a new
evaluator, and imported again. -/
theorem Import_idempotent_witness :
    Import cycleHost (eval cycleHost 4) "A"
        (markImported (markImported NewEvaluator "A") "B") =
      Outcome.ret (Except.ok ()) (markImported (markImported NewEvaluator "A") "B") :=
  (Import_idempotent cycleHost 4 "A" NewEvaluator
    (markImported (markImported NewEvaluator "A") "B") (Except.ok ())
    (by simp [Import, eval, wrap, wrapResult, evalProgramNode, evalDeclarations, evalImportNode,
      Eval.andThen, Eval.pure, cycleHost, exampleHost, NewEvaluator, markImported, NIL])
    (Or.inl rfl)).2.1 cycleHost (eval cycleHost 4)

theorem eval_importStmt (h : Host) (fuel : Nat) (name : String) :
    eval h (fuel + 1) (Node.importStmt name) =
      wrap h (Node.importStmt name) (evalImportNode h (eval h fuel) name) := rfl

theorem eval_program (h : Host) (fuel : Nat) (declarations : List Node) :
    eval h (fuel + 1) (Node.program declarations) =
      wrap h (Node.program declarations) (evalProgramNode (eval h fuel) declarations) := rfl

theorem Import_cycle (h : Host) (fuel : Nat) (m b nm nb cm cb : String) (s : Evaluator)
    (hnew : s.importSet m = false) (hne : b ≠ m) (hb : s.importSet b = false)
    (hdm : h.moduleData m = Except.ok cm)
    (hrm : h.RootNode cm = Except.ok (Node.program [Node.importStmt nb]))
    (hnb : h.NewFileModule nb = b) (hdb : h.moduleData b = Except.ok cb)
    (hrb : h.RootNode cb = Except.ok (Node.program [Node.importStmt nm]))
    (hnm : h.NewFileModule nm = m) :
    Import h (eval h (fuel + 4)) m s =
      Outcome.ret (Except.ok ()) (markImported (markImported s m) b) := by
  have hmb : (markImported s m).importSet b = false := by
    simp [markImported, hne, hb]
  have hmm : (markImported (markImported s m) b).importSet m = true := by
    simp [markImported]
  have h3 : eval h (fuel + 1) (Node.importStmt nm) (markImported (markImported s m) b) =
      Outcome.ret (Except.ok NIL) (markImported (markImported s m) b) := by
    rw [eval_importStmt]
    simp only [wrap, evalImportNode, Eval.andThen, hnm,
      Import_imported h _ m _ hmm, Eval.pure, wrapResult]
  have h2 : eval h (fuel + 2) (Node.program [Node.importStmt nm])
      (markImported (markImported s m) b) =
      Outcome.ret (Except.ok NIL) (markImported (markImported s m) b) := by
    rw [eval_program]
    simp only [wrap, evalProgramNode, evalDeclarations, Eval.andThen, h3, Eval.pure, wrapResult]
  have h1 : Import h (eval h (fuel + 2)) b (markImported s m) =
      Outcome.ret (Except.ok ()) (markImported (markImported s m) b) := by
    unfold Import
    simp only [hmb, hdb, hrb, Bool.false_eq_true, if_false]
    have h2a := h2
    unfold markImported at h2a
    unfold markImported
    simp only [h2a]
  have h05 : eval h (fuel + 3) (Node.importStmt nb) (markImported s m) =
      Outcome.ret (Except.ok NIL) (markImported (markImported s m) b) := by
    rw [eval_importStmt]
    simp only [wrap, evalImportNode, Eval.andThen, hnb, h1, Eval.pure, wrapResult]
  have h0 : eval h (fuel + 4) (Node.program [Node.importStmt nb]) (markImported s m) =
      Outcome.ret (Except.ok NIL) (markImported (markImported s m) b) := by
    rw [eval_program]
    simp only [wrap, evalProgramNode, evalDeclarations, Eval.andThen, h05, Eval.pure,
      wrapResult]
  unfold Import
  simp only [hnew, hdm, hrm, Bool.false_eq_true, if_false]
  have h0a := h0
  unfold markImported at h0a
  unfold markImported
  simp only [h0a]

/-- Claim C20. A module `m` that is not yet imported. When fetching fails, or
parsing fails, `Import(m)` returns the error (or ends the process through the
error formatter) and the state, so the import set, is unchanged. When both
succeed, the evaluation of the source starts in the state where `m` is marked
as imported, and whenever `Import(m)` returns, with nil or with an evaluation
error, `m` is in the import set. An `Import(m)` in any state where `m` is
marked, so a re-entrant one, returns nil at once and changes nothing. For two
modules whose sources import each other, `Import(m)` terminates with nil and
both modules in the set. -/
theorem Import_marks_before_evaluation (h : Host) (fuel : Nat) (m : String) (s : Evaluator)
    (hnew : s.importSet m = false) :
    (∀ err, h.moduleData m = Except.error err →
      Import h (eval h fuel) m s = Outcome.ret (Except.error err) s) ∧
    (∀ cmds err, h.moduleData m = Except.ok cmds → h.RootNode cmds = Except.error err →
      Import h (eval h fuel) m s =
        (if h.NewErrorFormatter err m then Outcome.exit 1
         else Outcome.ret (Except.error err) s)) ∧
    (∀ cmds root, h.moduleData m = Except.ok cmds → h.RootNode cmds = Except.ok root →
      (markImported s m).importSet m = true ∧
      ∀ r s1, Import h (eval h fuel) m s = Outcome.ret r s1 →
        (∃ r0, eval h fuel root (markImported s m) = Outcome.ret r0 s1) ∧
        s1.importSet m = true) ∧
    (∀ (ev : Node → Eval Object) (t : Evaluator), t.importSet m = true →
      Import h ev m t = Outcome.ret (Except.ok ()) t) ∧
    (∀ b nm nb cm cb : String, b ≠ m → s.importSet b = false →
      h.moduleData m = Except.ok cm →
      h.RootNode cm = Except.ok (Node.program [Node.importStmt nb]) →
      h.NewFileModule nb = b → h.moduleData b = Except.ok cb →
      h.RootNode cb = Except.ok (Node.program [Node.importStmt nm]) →
      h.NewFileModule nm = m →
      ∃ s1, Import h (eval h (fuel + 4)) m s = Outcome.ret (Except.ok ()) s1 ∧
        s1.importSet m = true ∧ s1.importSet b = true) := by
  refine ⟨?_, ?_, ?_, fun ev t ht => Import_imported h ev m t ht, ?_⟩
  · intro err hdata
    simp [Import, hnew, hdata]
  · intro cmds err hdata hroot
    simp [Import, hnew, hdata, hroot]
  · intro cmds root hdata hroot
    have hmark : (markImported s m).importSet m = true := by simp [markImported]
    refine ⟨hmark, fun r s1 hi => ?_⟩
    obtain ⟨r0, he⟩ := Import_evaluates h _ m s cmds root hnew hdata hroot r s1 hi
    exact ⟨⟨r0, he⟩, KeepsImports_eval h fuel root _ r0 s1 he m hmark⟩
  · intro b nm nb cm cb hne hb hdm hrm hnb hdb hrb hnm
    refine ⟨_, Import_cycle h fuel m b nm nb cm cb s hnew hne hb hdm hrm hnb hdb hrb hnm, ?_, ?_⟩
    · simp [markImported]
    · simp [markImported]

/-- Witness of C20: the modules `A` and `B` of the host `cycleHost`, each of
which imports the other, loaded by a new evaluator. -/
theorem Import_marks_before_evaluation_witness :
    ∃ s1, Import cycleHost (eval cycleHost 4) "A" NewEvaluator =
        Outcome.ret (Except.ok ()) s1 ∧
      s1.importSet "A" = true ∧ s1.importSet "B" = true :=
  (Import_marks_before_evaluation cycleHost 0 "A" NewEvaluator rfl).2.2.2.2
    "B" "A" "B" "import B" "import A" (by decide) rfl rfl rfl rfl rfl rfl rfl

/-! ## Dispatch: wrapping, assertions, conditionals, programs and node lists -/

theorem NewEvaluateError_links (h : Host) (node : Node) (err : GoError)
    (inner : Option GoError) : (NewEvaluateError h node err inner).links = err.links + 1 := rfl

/-- Claim C22. Method `wrapResult` returns `(obj, nil)` for a nil error;
returns the error unchanged when its dynamic type is one of the signal types
`BreakError`, `ContinueError`, `ReturnError` named by the type switch; wraps an
`EvaluateError` in a new `EvaluateError` for the node with the incoming error as
inner error; and wraps every other error in a new `EvaluateError` for the node
without inner error. A wrapped error has exactly one link more than the
incoming one, and for a host whose constructors build the signal types of the
switch, the signals of `break`, `continue` and `return` pass unchanged. -/
theorem wrapResult_contract (h : Host) (node : Node) :
    (∀ obj, wrapResult h node (Except.ok obj) = Except.ok obj) ∧
    wrapResult h node (Except.error (GoError.breakError false)) =
      Except.error (GoError.breakError false) ∧
    wrapResult h node (Except.error (GoError.continueError false)) =
      Except.error (GoError.continueError false) ∧
    (∀ v, wrapResult h node (Except.error (GoError.returnError false v)) =
      Except.error (GoError.returnError false v)) ∧
    (∀ n e i, wrapResult h node (Except.error (GoError.evaluateError false n e i)) =
      Except.error (NewEvaluateError h node (GoError.evaluateError false n e i)
        (some (GoError.evaluateError false n e i)))) ∧
    (∀ err, err ≠ GoError.breakError false → err ≠ GoError.continueError false →
      (∀ v, err ≠ GoError.returnError false v) →
      (∀ n e i, err ≠ GoError.evaluateError false n e i) →
      wrapResult h node (Except.error err) =
        Except.error (NewEvaluateError h node err none)) ∧
    (∀ err inner, (NewEvaluateError h node err inner).links = err.links + 1) ∧
    (h.breakPtr = false → wrapResult h node (Except.error (NewBreakError h)) =
      Except.error (NewBreakError h)) ∧
    (h.continuePtr = false → wrapResult h node (Except.error (NewContinueError h)) =
      Except.error (NewContinueError h)) ∧
    (h.returnPtr = false → ∀ v, wrapResult h node (Except.error (NewReturnError h v)) =
      Except.error (NewReturnError h v)) := by
  refine ⟨fun _ => rfl, rfl, rfl, fun _ => rfl, fun _ _ _ => rfl, ?_,
    fun _ _ => rfl, ?_, ?_, ?_⟩
  · intro err h1 h2 h3 h4
    cases err with
    | breakError p => cases p <;> simp_all [wrapResult]
    | continueError p => cases p <;> simp_all [wrapResult]
    | returnError p v => cases p <;> simp_all [wrapResult]
    | evaluateError p n e i => cases p <;> simp_all [wrapResult]
    | assertError e => rfl
    | errorf m => rfl
  · intro hp
    simp [NewBreakError, hp, wrapResult]
  · intro hp
    simp [NewContinueError, hp, wrapResult]
  · intro hp v
    simp [NewReturnError, hp, wrapResult]

/-- Witness of C22: the signal of `break` built as a value of type `BreakError`
passes the wrapping at a `break` node unchanged. -/
theorem wrapResult_contract_witness :
    wrapResult (exampleHost false) Node.breakStmt
        (Except.error (NewBreakError (exampleHost false))) =
      Except.error (NewBreakError (exampleHost false)) :=
  (wrapResult_contract (exampleHost false) Node.breakStmt).2.2.2.2.2.2.2.1 rfl

/-- Claim C23. Method `evalAssertStmtNode`: NIL and no error when the expression
evaluates to a truthy value; the assertion error built from the expression node
when it evaluates to a value that is not truthy; and the error of the
expression itself when its evaluation fails. -/
theorem evalAssertStmtNode_contract (h : Host) (ev : Node → Eval Object) (exp : Node)
    (s s1 : Evaluator) :
    (∀ v, ev exp s = Outcome.ret (Except.ok v) s1 → h.IsTruthy v = true →
      evalAssertStmtNode h ev exp s = Outcome.ret (Except.ok NIL) s1) ∧
    (∀ v, ev exp s = Outcome.ret (Except.ok v) s1 → h.IsTruthy v = false →
      evalAssertStmtNode h ev exp s =
        Outcome.ret (Except.error (NewAssertError exp)) s1) ∧
    (∀ err, ev exp s = Outcome.ret (Except.error err) s1 →
      evalAssertStmtNode h ev exp s = Outcome.ret (Except.error err) s1) := by
  refine ⟨?_, ?_, ?_⟩
  · intro v he ht
    simp [evalAssertStmtNode, Eval.andThen, he, ht, Eval.pure]
  · intro v he ht
    simp [evalAssertStmtNode, Eval.andThen, he, ht, Eval.fail]
  · intro err he
    simp [evalAssertStmtNode, Eval.andThen, he]

/-- Witness of C23: the statement `assert nil`. -/
theorem evalAssertStmtNode_contract_witness :
    evalAssertStmtNode (exampleHost false) (eval (exampleHost false) 1) Node.nil NewEvaluator =
      Outcome.ret (Except.error (NewAssertError Node.nil)) NewEvaluator :=
  (evalAssertStmtNode_contract (exampleHost false) (eval (exampleHost false) 1) Node.nil
    NewEvaluator NewEvaluator).2.1 NIL rfl rfl

/-- Claim C24. Method `evalIfStmtNode` with a condition that evaluates to `v` in
state `s1`: the result is the evaluation of the true branch in `s1` when `v` is
truthy, of the else branch in `s1` when `v` is falsy and there is one, and NIL
without error in `s1` when `v` is falsy and there is none. The result is the
same for every evaluator that agrees on the condition and on the selected
branch, so nothing else is evaluated. When the condition fails, its error is
returned for every evaluator that agrees on the condition: no branch is
evaluated. -/
theorem evalIfStmtNode_contract (h : Host) (ev : Node → Eval Object) (exp trueStmt : Node)
    (falseStmt : Option Node) (s s1 : Evaluator) :
    (∀ v, ev exp s = Outcome.ret (Except.ok v) s1 → h.IsTruthy v = true →
      ∀ ev2 : Node → Eval Object, ev2 exp s = ev exp s → ev2 trueStmt s1 = ev trueStmt s1 →
        evalIfStmtNode h ev2 exp trueStmt falseStmt s = ev trueStmt s1) ∧
    (∀ v f, ev exp s = Outcome.ret (Except.ok v) s1 → h.IsTruthy v = false →
      falseStmt = some f →
      ∀ ev2 : Node → Eval Object, ev2 exp s = ev exp s → ev2 f s1 = ev f s1 →
        evalIfStmtNode h ev2 exp trueStmt falseStmt s = ev f s1) ∧
    (∀ v, ev exp s = Outcome.ret (Except.ok v) s1 → h.IsTruthy v = false →
      falseStmt = none →
      ∀ ev2 : Node → Eval Object, ev2 exp s = ev exp s →
        evalIfStmtNode h ev2 exp trueStmt falseStmt s = Outcome.ret (Except.ok NIL) s1) ∧
    (∀ err, ev exp s = Outcome.ret (Except.error err) s1 →
      ∀ ev2 : Node → Eval Object, ev2 exp s = ev exp s →
        evalIfStmtNode h ev2 exp trueStmt falseStmt s =
          Outcome.ret (Except.error err) s1) := by
  refine ⟨?_, ?_, ?_, ?_⟩
  · intro v he ht ev2 h2 h3
    simp [evalIfStmtNode, Eval.andThen, h2, he, ht, h3]
  · intro v f he ht hf ev2 h2 h3
    simp [evalIfStmtNode, Eval.andThen, h2, he, ht, hf, h3]
  · intro v he ht hf ev2 h2
    simp [evalIfStmtNode, Eval.andThen, h2, he, ht, hf, Eval.pure]
  · intro err he ev2 h2
    simp [evalIfStmtNode, Eval.andThen, h2, he]

/-- Witness of C24: the statement `if (nil) break;` without else branch. -/
theorem evalIfStmtNode_contract_witness :
    evalIfStmtNode (exampleHost false) (eval (exampleHost false) 1) Node.nil Node.breakStmt
        none NewEvaluator =
      Outcome.ret (Except.ok NIL) NewEvaluator :=
  (evalIfStmtNode_contract (exampleHost false) (eval (exampleHost false) 1) Node.nil
    Node.breakStmt none NewEvaluator NewEvaluator).2.2.1 NIL rfl rfl rfl
    (eval (exampleHost false) 1) rfl

theorem evalDeclarations_all (ev : Node → Eval Object) (declarations : List Node)
    (s s1 : Evaluator) (vals : List Object) (hall : EvalAll ev declarations s vals s1) :
    evalDeclarations ev declarations s = Outcome.ret (Except.ok ()) s1 := by
  induction hall with
  | nil s => rfl
  | cons node rest s s1 s2 v vals he _ ih =>
    simp only [evalDeclarations, Eval.andThen, he, ih]

theorem evalDeclarations_first_error (ev : Node → Eval Object) (pre : List Node) (d : Node)
    (post : List Node) (s sk s1 : Evaluator) (vals : List Object) (err : GoError)
    (hall : EvalAll ev pre s vals sk) (hd : ev d sk = Outcome.ret (Except.error err) s1) :
    evalDeclarations ev (pre ++ d :: post) s = Outcome.ret (Except.error err) s1 := by
  induction hall with
  | nil s => simp only [List.nil_append, evalDeclarations, Eval.andThen, hd]
  | cons node rest s s1 s2 v vals he _ ih =>
    simp only [List.cons_append, evalDeclarations, Eval.andThen, he]
    exact ih hd

/-- Claim C25. Method `evalProgramNode` evaluates the declarations in source
order, each in the state left by the one before. If all evaluate without
error, the result is NIL without error. If the declarations before `d`
evaluate without error and `d` returns an error or a signal, that error is
returned in the state left by `d`, whatever declarations follow `d`: none of
them is evaluated. -/
theorem evalProgramNode_contract (ev : Node → Eval Object) (declarations : List Node)
    (s : Evaluator) :
    (∀ s1 vals, EvalAll ev declarations s vals s1 →
      evalProgramNode ev declarations s = Outcome.ret (Except.ok NIL) s1) ∧
    (∀ pre d post sk vals err s1, declarations = pre ++ d :: post →
      EvalAll ev pre s vals sk → ev d sk = Outcome.ret (Except.error err) s1 →
      evalProgramNode ev declarations s = Outcome.ret (Except.error err) s1 ∧
      ∀ post2, evalProgramNode ev (pre ++ d :: post2) s =
        Outcome.ret (Except.error err) s1) := by
  constructor
  · intro s1 vals hall
    simp only [evalProgramNode, Eval.andThen, evalDeclarations_all ev declarations s s1 vals hall,
      Eval.pure]
  · intro pre d post sk vals err s1 hd hall he
    have key : ∀ post2, evalProgramNode ev (pre ++ d :: post2) s =
        Outcome.ret (Except.error err) s1 := by
      intro post2
      simp only [evalProgramNode, Eval.andThen,
        evalDeclarations_first_error ev pre d post2 s sk s1 vals err hall he]
    exact ⟨hd ▸ key post, key⟩

/-- Witness of C25: the program `nil; break; nil;` stops at `break`. -/
theorem evalProgramNode_contract_witness :
    evalProgramNode (eval (exampleHost false) 1) [Node.nil, Node.breakStmt, Node.nil]
        NewEvaluator =
      Outcome.ret (Except.error (NewBreakError (exampleHost false))) NewEvaluator :=
  ((evalProgramNode_contract (eval (exampleHost false) 1) [Node.nil, Node.breakStmt, Node.nil]
    NewEvaluator).2 [Node.nil] Node.breakStmt [Node.nil] NewEvaluator [NIL]
    (NewBreakError (exampleHost false)) NewEvaluator rfl
    (EvalAll.cons Node.nil [] NewEvaluator NewEvaluator NewEvaluator NIL [] rfl
      (EvalAll.nil NewEvaluator)) rfl).1

/-! ## Shadowing, globals and keywords -/

/-- Method `Get` depends only on the scopes of the chain it walks. -/
theorem Get_congr_chain (globals : Globals) (mem mem1 : Mem) (n : String) (e : Addr)
    (ps : List Addr) (hc : IsChain mem e ps) (hsame : ∀ p ∈ ps, mem1 p = mem p) (fuel : Nat) :
    Get globals mem1 fuel e n = Get globals mem fuel e n := by
  induction hc generalizing fuel with
  | root e he =>
    cases fuel with
    | zero => rfl
    | succ f =>
      unfold Get
      rw [hsame e (by simp)]
      cases globals n with
      | some g => rfl
      | none =>
        cases (mem e).scopeVariables n with
        | some x => rfl
        | none => simp only [he]
  | step e enc ps he _ ih =>
    cases fuel with
    | zero => rfl
    | succ f =>
      unfold Get
      rw [hsame e (by simp)]
      cases globals n with
      | some g => rfl
      | none =>
        cases (mem e).scopeVariables n with
        | some x => rfl
        | none =>
          simp only [he]
          exact ih (fun p hp => hsame p (by simp [hp])) f

/-- Claim C26. A name `n` that is not a global and reads as `v1` from the scope
`enc`, and a fresh scope `inner` enclosed by `enc`: `Declare(n, v2)` in `inner`
succeeds; afterwards `Get(n)` from `inner` returns `v2` and `Get(n)` from `enc`
still returns `v1`; and a second `Declare` of `n` in `inner` fails and changes
nothing. -/
theorem shadowing_contract (globals : Globals) (mem : Mem) (enc inner : Addr) (n : String)
    (v1 v2 v3 : Object) (ps : List Addr) (fuel : Nat)
    (hc : IsChain mem enc ps) (hin : inner ∉ ps)
    (hfresh : mem inner = NewEnvironment.WithEnclosing (some enc))
    (hg : globals n = none)
    (hget : Get globals mem fuel enc n = some (Except.ok v1)) :
    (Declare globals mem inner n v2).2 = none ∧
    Get globals (Declare globals mem inner n v2).1 (fuel + 1) inner n = some (Except.ok v2) ∧
    Get globals (Declare globals mem inner n v2).1 fuel enc n = some (Except.ok v1) ∧
    (∃ err, Declare globals (Declare globals mem inner n v2).1 inner n v3 =
      ((Declare globals mem inner n v2).1, some err)) := by
  have hnone : (mem inner).scopeVariables n = none := by
    rw [hfresh]; rfl
  have hdec : Declare globals mem inner n v2 =
      (mem.write inner ((mem inner).set n v2), none) := by
    simp only [Declare, hg, hnone]
  have hbound : ((mem.write inner ((mem inner).set n v2)) inner).scopeVariables n = some v2 := by
    simp [Mem.write, Environment.set]
  rw [hdec]
  refine ⟨rfl, ?_, ?_, ?_⟩
  · unfold Get
    simp only [hg, hbound]
  · rw [Get_congr_chain globals mem _ n enc ps hc ?_ fuel]
    · exact hget
    · intro p hp
      have hne : p ≠ inner := fun h => hin (h ▸ hp)
      simp [Mem.write, hne]
  · exact ⟨GoError.errorf ("cannot redeclare symbol: " ++ n),
      by simp only [Declare, hg, hbound]⟩

/-- Witness of C26: the store `exampleMem`, whose empty scope 1 is enclosed by
the root scope 0 where `x` is bound to `old`. -/
theorem shadowing_contract_witness :
    Get exampleGlobals (Declare exampleGlobals exampleMem 1 "x" (NewString "new")).1 2 1 "x" =
      some (Except.ok (NewString "new")) ∧
    Get exampleGlobals (Declare exampleGlobals exampleMem 1 "x" (NewString "new")).1 1 0 "x" =
      some (Except.ok (NewString "old")) :=
  ⟨(shadowing_contract exampleGlobals exampleMem 0 1 "x" (NewString "old") (NewString "new")
      NIL [0] 1 (IsChain.root 0 rfl) (by decide) rfl rfl rfl).2.1,
    (shadowing_contract exampleGlobals exampleMem 0 1 "x" (NewString "old") (NewString "new")
      NIL [0] 1 (IsChain.root 0 rfl) (by decide) rfl rfl rfl).2.2.1⟩

/-- Claim C27. When `n` is not in the table, `RegisterGlobal(n, v)` adds the
binding of `n` to `v` and changes no other entry; when `n` is in the table it
panics, so no table is written; and whenever it returns, every binding of the
old table is in the new one with the same value. -/
theorem RegisterGlobal_contract (g : Globals) (n : String) (v : Object) :
    (g n = none → ∃ g1, RegisterGlobal g n v = some g1 ∧ g1 n = some v ∧
      ∀ k, k ≠ n → g1 k = g k) ∧
    ((∃ x, g n = some x) → RegisterGlobal g n v = none) ∧
    (∀ g1 k x, RegisterGlobal g n v = some g1 → g k = some x → g1 k = some x) := by
  refine ⟨?_, ?_, ?_⟩
  · intro hn
    refine ⟨fun k => if k = n then some v else g k, by simp only [RegisterGlobal, hn],
      by simp, ?_⟩
    intro k hk
    simp [hk]
  · rintro ⟨x, hx⟩
    simp only [RegisterGlobal, hx]
  · intro g1 k x hr hk
    cases hn : g n with
    | some y => simp [RegisterGlobal, hn] at hr
    | none =>
      simp only [RegisterGlobal, hn, Option.some.injEq] at hr
      rw [← hr]
      have hne : k ≠ n := by
        intro h
        rw [h, hn] at hk
        cases hk
      simp [hne, hk]

/-- Witness of C27: registering `type` again in the table `exampleGlobals`
panics, and registering `abs` keeps `type`. -/
theorem RegisterGlobal_contract_witness :
    RegisterGlobal exampleGlobals "type" NIL = none ∧
    ∃ g1, RegisterGlobal exampleGlobals "abs" NIL = some g1 ∧ g1 "abs" = some NIL :=
  ⟨(RegisterGlobal_contract exampleGlobals "type" NIL).2.1 ⟨_, rfl⟩,
    match (RegisterGlobal_contract exampleGlobals "abs" NIL).1 rfl with
    | ⟨g1, h1, h2, _⟩ => ⟨g1, h1, h2⟩⟩

/-- Claim C28. Function `LookupIdentifierType` returns the token type of the
keyword table for each of its thirteen keywords, and `TT_IDENTIFIER` for every
other string. -/
theorem LookupIdentifierType_contract :
    token.LookupIdentifierType "var" = token.TokenType.TT_VAR ∧
    token.LookupIdentifierType "fun" = token.TokenType.TT_FUNCTION ∧
    token.LookupIdentifierType "if" = token.TokenType.TT_IF ∧
    token.LookupIdentifierType "else" = token.TokenType.TT_ELSE ∧
    token.LookupIdentifierType "true" = token.TokenType.TT_TRUE ∧
    token.LookupIdentifierType "false" = token.TokenType.TT_FALSE ∧
    token.LookupIdentifierType "return" = token.TokenType.TT_RETURN ∧
    token.LookupIdentifierType "while" = token.TokenType.TT_WHILE ∧
    token.LookupIdentifierType "nil" = token.TokenType.TT_NIL ∧
    token.LookupIdentifierType "break" = token.TokenType.TT_BREAK ∧
    token.LookupIdentifierType "continue" = token.TokenType.TT_CONTINUE ∧
    token.LookupIdentifierType "defer" = token.TokenType.TT_DEFER ∧
    token.LookupIdentifierType "assert" = token.TokenType.TT_ASSERT ∧
    (∀ v t, (v, t) ∈ token.keywordEntries → token.LookupIdentifierType v = t) ∧
    (∀ v, v ∉ token.keywordEntries.map Prod.fst →
      token.LookupIdentifierType v = token.TokenType.TT_IDENTIFIER) := by
  have hentries : ∀ p ∈ token.keywordEntries, token.LookupIdentifierType p.1 = p.2 := by
    decide
  iterate 13 (refine ⟨by decide, ?_⟩)
  refine ⟨fun v t hm => hentries (v, t) hm, ?_⟩
  intro v hv
  simp only [token.keywordEntries, List.map_cons, List.map_nil, List.mem_cons,
    List.mem_singleton, List.not_mem_nil, or_false, not_or] at hv
  obtain ⟨h1, h2, h3, h4, h5, h6, h7, h8, h9, h10, h11, h12, h13⟩ := hv
  have e : ∀ k : String, ¬ v = k → (v == k) = false := fun k hk => beq_eq_false_iff_ne.mpr hk
  simp only [token.LookupIdentifierType, token.keywords, token.keywordEntries, List.lookup,
    e _ h1, e _ h2, e _ h3, e _ h4, e _ h5, e _ h6, e _ h7, e _ h8, e _ h9, e _ h10,
    e _ h11, e _ h12, e _ h13]

/-! ## Logical operators, node lists and the environment of an imported module -/

/-- Claim C29. With a left operand that evaluates to `left`: `evalLogicalAndNode`
goes on to evaluate the right operand in the state left by the left one,
whatever the truthiness of `left`, returning the Bool of both truthinesses or
the error of the right operand; `evalLogicalOrNode` returns TRUE for a truthy
`left` under every evaluator that agrees on the left operand, so without
evaluating the right one, and otherwise the Bool of the truthiness of the right
operand. -/
theorem logical_operands_contract (h : Host) (ev : Node → Eval Object) (lhs rhs : Node)
    (s s1 : Evaluator) (left : Object)
    (hl : ev lhs s = Outcome.ret (Except.ok left) s1) :
    (∀ right s2, ev rhs s1 = Outcome.ret (Except.ok right) s2 →
      evalLogicalAndNode h ev lhs rhs s =
        Outcome.ret (Except.ok (NewBool (h.IsTruthy left && h.IsTruthy right))) s2) ∧
    (∀ err s2, ev rhs s1 = Outcome.ret (Except.error err) s2 →
      evalLogicalAndNode h ev lhs rhs s = Outcome.ret (Except.error err) s2) ∧
    (h.IsTruthy left = true → ∀ ev2 : Node → Eval Object, ev2 lhs s = ev lhs s →
      evalLogicalOrNode h ev2 lhs rhs s = Outcome.ret (Except.ok TRUE) s1) ∧
    (h.IsTruthy left = false → ∀ right s2, ev rhs s1 = Outcome.ret (Except.ok right) s2 →
      evalLogicalOrNode h ev lhs rhs s =
        Outcome.ret (Except.ok (NewBool (h.IsTruthy right))) s2) ∧
    (h.IsTruthy left = false → ∀ err s2, ev rhs s1 = Outcome.ret (Except.error err) s2 →
      evalLogicalOrNode h ev lhs rhs s = Outcome.ret (Except.error err) s2) := by
  refine ⟨?_, ?_, ?_, ?_, ?_⟩
  · intro right s2 hr
    simp [evalLogicalAndNode, Eval.andThen, hl, hr, Eval.pure]
  · intro err s2 hr
    simp [evalLogicalAndNode, Eval.andThen, hl, hr]
  · intro ht ev2 h2
    simp [evalLogicalOrNode, Eval.andThen, h2, hl, ht, Eval.pure]
  · intro ht right s2 hr
    simp [evalLogicalOrNode, Eval.andThen, hl, hr, ht, Eval.pure]
  · intro ht err s2 hr
    simp [evalLogicalOrNode, Eval.andThen, hl, hr, ht]

/-- Witness of C29: in `false && nope` the right operand is evaluated and its
error returned, although the left operand is falsy. -/
theorem logical_operands_contract_witness :
    evalLogicalAndNode (exampleHost false) (eval (exampleHost false) 2)
        (Node.boolean "false") (Node.identifier "nope") NewEvaluator =
      Outcome.ret (Except.error (NewEvaluateError (exampleHost false) (Node.identifier "nope")
        (GoError.errorf ("symbol not declared: " ++ "nope")) none)) NewEvaluator :=
  (logical_operands_contract (exampleHost false) (eval (exampleHost false) 2)
    (Node.boolean "false") (Node.identifier "nope") NewEvaluator NewEvaluator (NewBool false)
    rfl).2.1 _ NewEvaluator rfl

theorem evalNodesLoop_all (ev : Node → Eval Object) (nodes : List Node) (s s1 : Evaluator)
    (vals : List Object) (hall : EvalAll ev nodes s vals s1) (argValues : List Object) :
    evalNodesLoop ev nodes argValues s = Outcome.ret (argValues ++ vals, none) s1 := by
  induction hall generalizing argValues with
  | nil s => simp [evalNodesLoop]
  | cons node rest s s1 s2 v vals he _ ih =>
    simp only [evalNodesLoop, he]
    rw [ih (argValues ++ [v])]
    simp

theorem evalNodesLoop_first_error (ev : Node → Eval Object) (pre : List Node) (d : Node)
    (post : List Node) (s sk s1 : Evaluator) (vals : List Object) (err : GoError)
    (hall : EvalAll ev pre s vals sk) (hd : ev d sk = Outcome.ret (Except.error err) s1)
    (argValues : List Object) :
    evalNodesLoop ev (pre ++ d :: post) argValues s = Outcome.ret ([], some err) s1 := by
  induction hall generalizing argValues with
  | nil s => simp only [List.nil_append, evalNodesLoop, hd]
  | cons node rest s s1 s2 v vals he _ ih =>
    simp only [List.cons_append, evalNodesLoop, he]
    exact ih hd _

theorem EvalAll_length (ev : Node → Eval Object) (nodes : List Node) (s s1 : Evaluator)
    (vals : List Object) (hall : EvalAll ev nodes s vals s1) : vals.length = nodes.length := by
  induction hall with
  | nil s => rfl
  | cons node rest s s1 s2 v vals _ _ ih => simp [ih]

/-- The method `evalNodes` of the evaluator returns the value or the error of
the loop `evalNodesLoop`. -/
theorem evalNodes_eq_loop (ev : Node → Eval Object) (nodes : List Node) :
    ∀ (argValues : List Object) (s : Evaluator),
      (match evalNodesLoop ev nodes argValues s with
        | Outcome.ret (vals, none) s1 => Outcome.ret (Except.ok vals) s1
        | Outcome.ret (_, some err) s1 => Outcome.ret (Except.error err) s1
        | Outcome.exit c => Outcome.exit c
        | Outcome.diverge => Outcome.diverge) =
      ((evalNodes ev nodes).andThen fun vals => Eval.pure (argValues ++ vals)) s := by
  induction nodes with
  | nil =>
    intro argValues s
    simp [evalNodesLoop, evalNodes, Eval.andThen, Eval.pure]
  | cons node rest ih =>
    intro argValues s
    simp only [evalNodesLoop, evalNodes, Eval.andThen]
    cases he : ev node s with
    | ret r s1 =>
      cases r with
      | error err => rfl
      | ok v =>
        simp only []
        rw [ih (argValues ++ [v]) s1]
        simp only [Eval.andThen, Eval.pure]
        cases evalNodes ev rest s1 with
        | ret r2 s2 =>
          cases r2 with
          | error err => rfl
          | ok vs => simp
        | exit c => rfl
        | diverge => rfl
    | exit c => rfl
    | diverge => rfl

/-- Claim C30. Method `evalNodes` evaluates the nodes left to right, each in
the state left by the one before. If all evaluate without error to `vals`, it
returns `vals`, in the order of the nodes and as many as the nodes, without
error. If the nodes before `d` evaluate without error and `d` fails, it
returns the empty list with the error of `d`, in the state left by `d`,
whatever nodes follow `d`: none of them is evaluated. The value or error used
by the call and list-literal nodes is that of this loop. -/
theorem evalNodes_contract (ev : Node → Eval Object) (nodes : List Node) (s : Evaluator) :
    (∀ s1 vals, EvalAll ev nodes s vals s1 →
      evalNodesLoop ev nodes [] s = Outcome.ret (vals, none) s1 ∧
      evalNodes ev nodes s = Outcome.ret (Except.ok vals) s1 ∧
      vals.length = nodes.length) ∧
    (∀ pre d post sk vals err s1, nodes = pre ++ d :: post →
      EvalAll ev pre s vals sk → ev d sk = Outcome.ret (Except.error err) s1 →
      evalNodesLoop ev nodes [] s = Outcome.ret ([], some err) s1 ∧
      evalNodes ev nodes s = Outcome.ret (Except.error err) s1 ∧
      ∀ post2, evalNodesLoop ev (pre ++ d :: post2) [] s =
        Outcome.ret ([], some err) s1) := by
  have hrel : ∀ nodes2 : List Node,
      (match evalNodesLoop ev nodes2 [] s with
        | Outcome.ret (vals, none) s1 => Outcome.ret (Except.ok vals) s1
        | Outcome.ret (_, some err) s1 => Outcome.ret (Except.error err) s1
        | Outcome.exit c => Outcome.exit c
        | Outcome.diverge => Outcome.diverge) = evalNodes ev nodes2 s := by
    intro nodes2
    rw [evalNodes_eq_loop ev nodes2 [] s]
    simp only [Eval.andThen, Eval.pure, List.nil_append]
    cases evalNodes ev nodes2 s with
    | ret r s1 => cases r <;> rfl
    | exit c => rfl
    | diverge => rfl
  constructor
  · intro s1 vals hall
    have hloop := evalNodesLoop_all ev nodes s s1 vals hall []
    simp only [List.nil_append] at hloop
    refine ⟨hloop, ?_, EvalAll_length ev nodes s s1 vals hall⟩
    rw [← hrel nodes, hloop]
  · intro pre d post sk vals err s1 hn hall hd
    have key : ∀ post2, evalNodesLoop ev (pre ++ d :: post2) [] s =
        Outcome.ret ([], some err) s1 :=
      fun post2 => evalNodesLoop_first_error ev pre d post2 s sk s1 vals err hall hd []
    refine ⟨hn ▸ key post, ?_, key⟩
    rw [← hrel nodes, hn, key post]

/-- Witness of C30: the nodes `nil, break, nil`. -/
theorem evalNodes_contract_witness :
    evalNodesLoop (eval (exampleHost false) 1) [Node.nil, Node.breakStmt, Node.nil] []
        NewEvaluator =
      Outcome.ret ([], some (NewBreakError (exampleHost false))) NewEvaluator :=
  ((evalNodes_contract (eval (exampleHost false) 1) [Node.nil, Node.breakStmt, Node.nil]
    NewEvaluator).2 [Node.nil] Node.breakStmt [Node.nil] NewEvaluator [NIL]
    (NewBreakError (exampleHost false)) NewEvaluator rfl
    (EvalAll.cons Node.nil [] NewEvaluator NewEvaluator NewEvaluator NIL [] rfl
      (EvalAll.nil NewEvaluator)) rfl).1

theorem eval_string (h : Host) (fuel : Nat) (lit : String) (s : Evaluator) :
    eval h (fuel + 1) (Node.string lit) s = Outcome.ret (Except.ok (NewString lit)) s := by
  simp [eval, wrap, evalStringNode, Eval.pure, wrapResult]

/-- Claim C21, amended. The source of an imported module is evaluated in the
environment that is current where the import is evaluated. For a module that
is not yet imported and whose source is the declaration `var x = "v"`, with `x`
neither a global nor bound in the current environment, `Import` returns nil,
leaves the environment pointer as it was, binds `x` to `v` in the current
environment and changes no other environment: the root environment receives
the binding exactly when it is the current one, as for an import at top
level. -/
theorem Import_binds_in_current_environment (h : Host) (fuel : Nat) (m : String)
    (s : Evaluator) (cmds x v : String)
    (hnew : s.importSet m = false) (hdata : h.moduleData m = Except.ok cmds)
    (hroot : h.RootNode cmds = Except.ok (Node.program [Node.varStmt x (Node.string v)]))
    (hg : h.globals x = none) (hx : (s.mem s.env).scopeVariables x = none) :
    ∃ s1, Import h (eval h (fuel + 3)) m s = Outcome.ret (Except.ok ()) s1 ∧
      s1.env = s.env ∧
      (s1.mem s.env).scopeVariables x = some (NewString v) ∧
      (∀ a, a ≠ s.env → s1.mem a = s.mem a) ∧
      (∀ k, k ≠ x → (s1.mem s.env).scopeVariables k = (s.mem s.env).scopeVariables k) := by
  have hdec : Declare h.globals s.mem s.env x (NewString v) =
      (s.mem.write s.env ((s.mem s.env).set x (NewString v)), none) := by
    simp only [Declare, hg, hx]
  have h2 : eval h (fuel + 2) (Node.varStmt x (Node.string v)) (markImported s m) =
      Outcome.ret (Except.ok NIL)
        { markImported s m with
          mem := s.mem.write s.env ((s.mem s.env).set x (NewString v)) } := by
    rw [eval_varStmt]
    simp only [wrap, evalVarStmtNode, Eval.andThen, eval_string, envDeclare, markImported, hdec,
      Eval.pure, wrapResult]
  have h3 : eval h (fuel + 3) (Node.program [Node.varStmt x (Node.string v)])
      (markImported s m) =
      Outcome.ret (Except.ok NIL)
        { markImported s m with
          mem := s.mem.write s.env ((s.mem s.env).set x (NewString v)) } := by
    rw [eval_program]
    simp only [wrap, evalProgramNode, evalDeclarations, Eval.andThen, h2, Eval.pure, wrapResult]
  refine ⟨{ markImported s m with
      mem := s.mem.write s.env ((s.mem s.env).set x (NewString v)) }, ?_, rfl, ?_, ?_, ?_⟩
  · unfold Import
    simp only [hnew, hdata, hroot, Bool.false_eq_true, if_false]
    have h3a := h3
    unfold markImported at h3a
    unfold markImported
    simp only [h3a]
  · simp [Mem.write, Environment.set]
  · intro a ha
    simp [Mem.write, ha]
  · intro k hk
    simp [Mem.write, Environment.set, hk]

/-- Witness of C21: the module `M` of the host `moduleHost`, whose source is
`var y = "v"`, loaded while the inner scope 1 of `exampleEvaluator` is
current. -/
theorem Import_binds_in_current_environment_witness :
    ∃ s1, Import moduleHost (eval moduleHost 3) "M" exampleEvaluator =
        Outcome.ret (Except.ok ()) s1 ∧
      (s1.mem 1).scopeVariables "y" = some (NewString "v") ∧ s1.mem 0 = exampleMem 0 :=
  match Import_binds_in_current_environment moduleHost 0 "M" exampleEvaluator "var y = v"
    "y" "v" rfl rfl rfl rfl rfl with
  | ⟨s1, h1, _, h3, h4, _⟩ => ⟨s1, h1, h3, h4 0 (by decide)⟩

/-- The block `{ import M }` run by a new evaluator under `moduleHost` returns
without error; afterwards no string is bound to `y` in the root scope 0, and
`v` is bound to `y` in the scope 1 of the block. -/
theorem block_import_observed :
    (eval moduleHost 6 (Node.block [Node.importStmt "M"]) NewEvaluator).observe 0 "y" =
      some (true, none, 0) ∧
    (eval moduleHost 6 (Node.block [Node.importStmt "M"]) NewEvaluator).observe 1 "y" =
      some (true, some "v", 0) := by
  constructor <;>
  simp [Outcome.observe, moduleHost, exampleHost, exampleGlobals, NewEvaluator, evalBlockNode,
    evalBlockNodeWithEnv, allocEnclosed, eval, wrap, wrapResult, evalProgramNode,
    evalDeclarations, Eval.andThen, Eval.pure, Eval.fail, Eval.lift, evalVarStmtNode,
    envDeclare, Declare, runDeferred, runCalls, evalStringNode, evalImportNode, Import,
    NewEvaluateError, Mem.write, Environment.set, Environment.WithEnclosing, NewEnvironment,
    NewString, NIL]

/-- Counterexample to C21 as stated: the module `M` declares `y` at its top
level; after the block `{ import M }` has been evaluated by a new evaluator,
the root environment does not bind `y`. -/
theorem block_import_not_in_root :
    ∃ obj s1, eval moduleHost 6 (Node.block [Node.importStmt "M"]) NewEvaluator =
        Outcome.ret (Except.ok obj) s1 ∧
      s1.env = 0 ∧ (s1.mem 0).scopeVariables "y" ≠ some (NewString "v") ∧
      (s1.mem 1).scopeVariables "y" = some (NewString "v") := by
  have h0 := block_import_observed.1
  obtain ⟨obj, s1, h1, h2, _⟩ := Outcome.observe_ok _ 1 "y" "v" 0 block_import_observed.2
  refine ⟨obj, s1, h1, ?_, ?_, h2⟩
  · have hf := Framed_eval moduleHost 6 (Node.block [Node.importStmt "M"]) NewEvaluator
      (Except.ok obj) s1 (by decide) h1
    exact hf.env
  · intro hy
    rw [h1] at h0
    simp [Outcome.observe, hy, NewString] at h0

/-! ## Single expressions, native handlers, string indexing and the deferred queue -/

/-- Claim C32 at a failing input. The string of the character U+00E9 has the
two bytes `C3 A9`; `Index(0)` is in range and returns the string of the code
point `C3`, whose length is 2 and whose bytes are `C3 83`, not the one byte
`C3` at position 0 of the string. On the string `abc` the result has the one
byte at the position. -/
theorem String_Index_non_ascii :
    len exampleAccent = 2 ∧
    Float64.trunc? Float64.zero = some 0 ∧
    String.Index exampleOverflow exampleAccent Float64.zero =
      some (Except.ok (NewString (stringOfByte 195))) ∧
    len (stringOfByte 195) = 2 ∧
    (stringOfByte 195).toUTF8.data = #[195, 131] ∧
    (exampleAccent.toUTF8.extract 0 1).data = #[195] ∧
    String.Index exampleOverflow "abc" Float64.one = some (Except.ok (NewString "b")) ∧
    ("abc".toUTF8.extract 1 2).data = "b".toUTF8.data := by
  refine ⟨by decide, by decide, rfl, by decide, by decide, by decide, rfl, by decide⟩

/-- Claim C33. Function `isSingleExpression` returns `(exp, true)` exactly for a
program node whose only declaration is the expression statement of `exp`, and
`(nil, false)` for every other node. -/
theorem isSingleExpression_contract (node : Node) :
    (∀ exp, isSingleExpression node = (some exp, true) ↔
      node = Node.program [Node.expStmt exp]) ∧
    ((∀ exp, node ≠ Node.program [Node.expStmt exp]) →
      isSingleExpression node = (none, false)) ∧
    (isSingleExpression node = (none, false) ∨
      ∃ exp, isSingleExpression node = (some exp, true)) := by
  have key : (∃ exp, node = Node.program [Node.expStmt exp] ∧
      isSingleExpression node = (some exp, true)) ∨
      ((∀ exp, node ≠ Node.program [Node.expStmt exp]) ∧
        isSingleExpression node = (none, false)) := by
    cases node with
    | program d =>
      cases d with
      | nil => right; simp [isSingleExpression]
      | cons a rest =>
        cases rest with
        | cons b rest2 => right; simp [isSingleExpression]
        | nil =>
          cases a with
          | expStmt e => left; exact ⟨e, rfl, by simp [isSingleExpression]⟩
          | _ => right; simp [isSingleExpression]
    | _ => right; simp [isSingleExpression]
  rcases key with ⟨e, hn, hr⟩ | ⟨hn, hr⟩
  · refine ⟨fun exp => ?_, fun hall => absurd hn (hall e), Or.inr ⟨e, hr⟩⟩
    rw [hr, hn]
    simp
  · refine ⟨fun exp => ?_, fun _ => hr, Or.inl hr⟩
    rw [hr]
    simp [hn exp]

/-- Claim C34. Every handler of `NativeFunctions`, called with an argument
vector of exactly its declared arity, returns without panic, and returns the
same for every vector with the same elements below the arity: it reads no
position at or above its arity. -/
theorem native_handlers_in_range (lib : Library) (f : Function)
    (hf : f ∈ NativeFunctions lib) (args : List Object) (hlen : args.length = f.arity) :
    (∃ r, f.handler args = some r) ∧
    (∀ more : List Object, f.handler (args ++ more) = f.handler args) := by
  simp only [NativeFunctions, List.mem_cons, List.mem_singleton, List.not_mem_nil,
    or_false] at hf
  rcases hf with rfl | rfl | rfl | rfl | rfl | rfl
  · match args, hlen with
    | [a], _ => cases a <;> exact ⟨⟨_, rfl⟩, fun _ => by simp [sleepHandler]⟩
  · exact ⟨⟨_, rfl⟩, fun _ => rfl⟩
  · match args, hlen with
    | [a], _ => cases a <;> exact ⟨⟨_, rfl⟩, fun _ => by simp [absHandler]⟩
  · match args, hlen with
    | [a, b], _ => cases a <;> cases b <;> exact ⟨⟨_, rfl⟩, fun _ => by simp [maxHandler]⟩
  · match args, hlen with
    | [a, b], _ => cases a <;> cases b <;> exact ⟨⟨_, rfl⟩, fun _ => by simp [minHandler]⟩
  · match args, hlen with
    | [a], _ => exact ⟨⟨_, rfl⟩, fun _ => by simp [typeHandler]⟩

/-- Witness of C34: the handler of `max` on the vector of the two Numbers 1
and 1.5. -/
theorem native_handlers_in_range_witness :
    ∃ r, maxHandler exampleLibrary [NewNumber Float64.one, NewNumber Float64.oneAndHalf] =
      some r :=
  (native_handlers_in_range exampleLibrary
    { name := "max", arity := 2, handler := maxHandler exampleLibrary }
    (by simp [NativeFunctions]) [NewNumber Float64.one, NewNumber Float64.oneAndHalf] rfl).1

theorem runCalls_all (ev : Node → Eval Object) (calls : List Node) (s s1 : Evaluator)
    (vals : List Object) (hall : EvalAll ev calls s vals s1) :
    runCalls ev calls s = Outcome.ret (Except.ok NIL) s1 := by
  induction hall with
  | nil s => rfl
  | cons node rest s s1 s2 v vals he _ ih =>
    simp only [runCalls, Eval.andThen, he, ih]

theorem runCalls_first_error (ev : Node → Eval Object) (pre : List Node) (c : Node)
    (post : List Node) (s sk s1 : Evaluator) (vals : List Object) (err : GoError)
    (hall : EvalAll ev pre s vals sk) (hc : ev c sk = Outcome.ret (Except.error err) s1) :
    runCalls ev (pre ++ c :: post) s = Outcome.ret (Except.error err) s1 := by
  induction hall with
  | nil s => simp only [List.nil_append, runCalls, Eval.andThen, hc]
  | cons node rest s s1 s2 v vals he _ ih =>
    simp only [List.cons_append, runCalls, Eval.andThen, he]
    exact ih hc

theorem EvalAll_deferred (ev : Node → Eval Object)
    (hkeep : ∀ node t r t1, ev node t = Outcome.ret r t1 → t1.deferred = t.deferred)
    (calls : List Node) (s s1 : Evaluator) (vals : List Object)
    (hall : EvalAll ev calls s vals s1) : s1.deferred = s.deferred := by
  induction hall with
  | nil s => rfl
  | cons node rest s s1 s2 v vals he _ ih => rw [ih, hkeep node s _ s1 he]

/-- Claim C35. Method `runDeferred` empties the queue before it evaluates the
first of the calls that were queued: the calls are evaluated one after the
other from the state with the empty queue. If all succeed, NIL is returned; if
the calls before `c` succeed and `c` fails, the error of `c` is returned in the
state left by `c`, whatever calls follow `c`. In both cases the queue at
return is the one the evaluated calls left behind, starting from the empty
queue: it is empty when no evaluated call changes the queue. -/
theorem runDeferred_contract (ev : Node → Eval Object) (s : Evaluator) :
    runDeferred ev s = runCalls ev s.deferred { s with deferred := [] } ∧
    (∀ vals s1, EvalAll ev s.deferred { s with deferred := [] } vals s1 →
      runDeferred ev s = Outcome.ret (Except.ok NIL) s1 ∧
      ((∀ node t r t1, ev node t = Outcome.ret r t1 → t1.deferred = t.deferred) →
        s1.deferred = [])) ∧
    (∀ pre c post vals sk err s1, s.deferred = pre ++ c :: post →
      EvalAll ev pre { s with deferred := [] } vals sk →
      ev c sk = Outcome.ret (Except.error err) s1 →
      runDeferred ev s = Outcome.ret (Except.error err) s1 ∧
      (∀ post2, runCalls ev (pre ++ c :: post2) { s with deferred := [] } =
        Outcome.ret (Except.error err) s1) ∧
      ((∀ node t r t1, ev node t = Outcome.ret r t1 → t1.deferred = t.deferred) →
        s1.deferred = [])) := by
  refine ⟨rfl, ?_, ?_⟩
  · intro vals s1 hall
    refine ⟨runCalls_all ev s.deferred _ s1 vals hall, fun hkeep => ?_⟩
    exact EvalAll_deferred ev hkeep s.deferred _ s1 vals hall
  · intro pre c post vals sk err s1 hq hall hc
    have key : ∀ post2, runCalls ev (pre ++ c :: post2) { s with deferred := [] } =
        Outcome.ret (Except.error err) s1 :=
      fun post2 => runCalls_first_error ev pre c post2 _ sk s1 vals err hall hc
    refine ⟨?_, key, fun hkeep => ?_⟩
    · show runCalls ev s.deferred { s with deferred := [] } = _
      rw [hq]
      exact key post
    · rw [hkeep c sk _ s1 hc, EvalAll_deferred ev hkeep pre _ sk vals hall]

/-- Witness of C35: the queue `break; nil` run by `runDeferred` stops at
`break` with an empty queue. -/
theorem runDeferred_contract_witness :
    runDeferred (eval (exampleHost false) 1)
        { NewEvaluator with deferred := [Node.breakStmt, Node.nil] } =
      Outcome.ret (Except.error (NewBreakError (exampleHost false))) NewEvaluator :=
  ((runDeferred_contract (eval (exampleHost false) 1)
    { NewEvaluator with deferred := [Node.breakStmt, Node.nil] }).2.2
    [] Node.breakStmt [Node.nil] [] NewEvaluator (NewBreakError (exampleHost false))
    NewEvaluator rfl (EvalAll.nil _) rfl).1

/-! ## The deferred queue across nested blocks -/

theorem eval_block (h : Host) (fuel : Nat) (declarations : List Node) :
    eval h (fuel + 1) (Node.block declarations) =
      wrap h (Node.block declarations) (evalBlockNode (eval h fuel) declarations) := rfl

/-- Claim C31. A block `B` whose declarations are `defer c`, a nested block
`B'` and then `rest`, entered with the queue `q`. When the declarations of `B'`
evaluate without error and leave the queue as they found it, and the calls of
`q` followed by `c` evaluate without error from the state with the emptied
queue, ending in `s3`: the first two declarations of `B` end in `s3` with the
environment of `B`, so `c` has been evaluated at the exit of `B'` and before
`rest`; and `B` as a whole is the block of `rest` alone entered in `s3`, so at
the exit of `B` only the calls queued in `s3` or by `rest` are evaluated, not
`c` again. -/
theorem deferred_call_runs_at_nested_block_exit (h : Host) (fuel : Nat) (callee : Node)
    (args inner rest : List Node) (env0 : Addr) (s0 s2 s3 : Evaluator)
    (vals vals2 : List Object)
    (hinner : EvalAll (eval h fuel) inner
      { env := s0.next, deferred := s0.deferred ++ [Node.call callee args],
        importSet := s0.importSet, latest := s0.latest,
        mem := s0.mem.write s0.next (NewEnvironment.WithEnclosing (some env0)),
        next := s0.next + 1 } vals s2)
    (hq2 : s2.deferred = s0.deferred ++ [Node.call callee args])
    (hcalls : EvalAll (eval h fuel) (s0.deferred ++ [Node.call callee args])
      { s2 with deferred := [] } vals2 s3) :
    evalDeclarations (eval h (fuel + 1))
        (Node.deferStmt callee args :: Node.block inner :: rest) { s0 with env := env0 } =
      evalDeclarations (eval h (fuel + 1)) rest { s3 with env := env0 } ∧
    evalBlockNodeWithEnv (eval h (fuel + 1))
        (Node.deferStmt callee args :: Node.block inner :: rest) env0 s0 =
      evalBlockNodeWithEnv (eval h (fuel + 1)) rest env0 { s3 with env := s0.env } := by
  have hrun : runDeferred (eval h fuel) s2 = Outcome.ret (Except.ok NIL) s3 := by
    unfold runDeferred
    rw [hq2]
    exact runCalls_all (eval h fuel) _ _ s3 vals2 hcalls
  have hblock : eval h (fuel + 1) (Node.block inner)
      { env := env0, deferred := s0.deferred ++ [Node.call callee args],
        importSet := s0.importSet, latest := s0.latest, mem := s0.mem, next := s0.next } =
      Outcome.ret (Except.ok NIL) { s3 with env := env0 } := by
    rw [eval_block]
    simp only [wrap, evalBlockNode, evalBlockNodeWithEnv, allocEnclosed, Eval.andThen,
      evalDeclarations_all (eval h fuel) inner _ s2 vals hinner, hrun, wrapResult]
  have hdecl : evalDeclarations (eval h (fuel + 1))
      (Node.deferStmt callee args :: Node.block inner :: rest) { s0 with env := env0 } =
      evalDeclarations (eval h (fuel + 1)) rest { s3 with env := env0 } := by
    simp only [evalDeclarations, Eval.andThen, eval_deferStmt, hblock]
  refine ⟨hdecl, ?_⟩
  unfold evalBlockNodeWithEnv
  simp only [Eval.andThen, hdecl]

/-- Witness of C31: the block `{ defer type(nil); { } }` entered by a new
evaluator with the empty queue. -/
theorem deferred_call_runs_at_nested_block_exit_witness :
    ∃ s3 : Evaluator, s3.deferred = [] ∧
      evalBlockNodeWithEnv (eval (exampleHost false) 4)
        [Node.deferStmt (Node.identifier "type") [Node.nil], Node.block []] 0 NewEvaluator =
      evalBlockNodeWithEnv (eval (exampleHost false) 4) [] 0 { s3 with env := 0 } :=
  ⟨{ env := 1, deferred := [], importSet := fun _ => false, latest := none,
      mem := Mem.write (fun _ => NewEnvironment) 1 (NewEnvironment.WithEnclosing (some 0)),
      next := 2 }, rfl,
    (deferred_call_runs_at_nested_block_exit (exampleHost false) 3 (Node.identifier "type")
      [Node.nil] [] [] 0 NewEvaluator _ _ [] [NIL] (EvalAll.nil _) rfl
      (EvalAll.cons _ [] _ _ _ NIL [] rfl (EvalAll.nil _))).2⟩

/-- After the prelude, the block `{ defer g(); { } h(); }` leaves `x` equal to
`h`: the deferred `g()` has run at the exit of the nested block, before `h()`,
and not at the exit of the outer block. -/
theorem nested_block_defer_observed :
    (evalBlockNode (eval (exampleHost false) 6) exampleNestedDefer exampleState).observe 0 "x" =
      some (true, some "h", 0) := by
  simp [Outcome.observe, exampleNestedDefer, exampleCall, examplePrelude, exampleSetter,
    exampleState, exampleHost, exampleGlobals, NewEvaluator, evalBlockNode,
    evalBlockNodeWithEnv, allocEnclosed, eval, wrap, wrapResult, evalProgramNode,
    evalDeclarations, Eval.andThen, Eval.pure, Eval.fail, Eval.lift, evalVarStmtNode,
    envDeclare, Declare, evalFunctionNode, NewUserFunction, evalDeferStmtNode, runDeferred,
    runCalls, evalCallNode, evalIdentifierNode, envGet, Get, resolveCallable, isCallable,
    Variadic, Arity, evalNodes, Call, callFunction, declareFormals, evalAssignmentNode,
    envAssign, Assign, evalStringNode, evalExpStmtNode, NewEvaluateError, Mem.write,
    Environment.set, Environment.WithEnclosing, NewEnvironment, NewString, NIL]

theorem maxHandler_short_vector (lib : Library) (x : Float64) :
    maxHandler lib [NewNumber x] = none := rfl

/-! ## Assignment inside a block -/

theorem evalDeclarations_append (ev : Node → Eval Object) (pre rest : List Node)
    (s sa : Evaluator) (vals : List Object) (hall : EvalAll ev pre s vals sa) :
    evalDeclarations ev (pre ++ rest) s = evalDeclarations ev rest sa := by
  induction hall with
  | nil s => rfl
  | cons node tail s s1 s2 v vals he _ ih =>
    simp only [List.cons_append, evalDeclarations, Eval.andThen, he]
    exact ih

/-- The block `{ x = "new"; }`, entered with the call `g()` pending, returns
with `x` equal to `g` in the root scope. -/
theorem pending_call_overwrites_observed :
    (evalBlockNode (eval (exampleHost false) 5) [Node.assignment "x" (Node.string "new")]
      { exampleState with deferred := [exampleCall "g"] }).observe 0 "x" =
        some (true, some "g", 0) := by
  simp [Outcome.observe, exampleCall, examplePrelude, exampleSetter, exampleState, exampleHost,
    exampleGlobals, NewEvaluator, evalBlockNode, evalBlockNodeWithEnv, allocEnclosed, eval,
    wrap, wrapResult, evalProgramNode, evalDeclarations, Eval.andThen, Eval.pure, Eval.fail,
    Eval.lift, evalVarStmtNode, envDeclare, Declare, evalFunctionNode, NewUserFunction,
    evalDeferStmtNode, runDeferred, runCalls, evalCallNode, evalIdentifierNode, envGet, Get,
    resolveCallable, isCallable, Variadic, Arity, evalNodes, Call, callFunction,
    declareFormals, evalAssignmentNode, envAssign, Assign, evalStringNode, evalExpStmtNode,
    NewEvaluateError, Mem.write, Environment.set, Environment.WithEnclosing, NewEnvironment,
    NewString, NIL]

/-- The block `{ x = "new"; x = "late"; }` returns with `x` equal to `late` in
the root scope. -/
theorem later_assignment_observed :
    (evalBlockNode (eval (exampleHost false) 5)
      [Node.assignment "x" (Node.string "new"), Node.assignment "x" (Node.string "late")]
      exampleState).observe 0 "x" = some (true, some "late", 0) := by
  simp [Outcome.observe, examplePrelude, exampleSetter, exampleState, exampleHost,
    exampleGlobals, NewEvaluator, evalBlockNode, evalBlockNodeWithEnv, allocEnclosed, eval,
    wrap, wrapResult, evalProgramNode, evalDeclarations, Eval.andThen, Eval.pure, Eval.fail,
    Eval.lift, evalVarStmtNode, envDeclare, Declare, evalFunctionNode, NewUserFunction,
    runDeferred, runCalls, evalAssignmentNode, envAssign, Assign, evalStringNode,
    NewEvaluateError, Mem.write, Environment.set, Environment.WithEnclosing, NewEnvironment,
    NewString, NIL]

/-- Claim C6, counterexample. The program is `var x = ""; fun g() { x = "g"; }
defer g(); { x = "new"; }`. The prelude leaves `x` bound to the empty string in
the root scope 0, which is the environment of the evaluator; `defer g();`
queues the call `g()`; the block `{ x = "new"; }`, which does not declare `x`,
assigns `new` to `x` and then runs the pending call at its exit, so that after
the block the enclosing binding of `x` is `g`, not `new`. Likewise, after the
block `{ x = "new"; x = "late"; }` the enclosing binding is `late`: the claim
holds of the last assignment of a block only. -/
theorem assignment_in_block_overwritten_by_deferred :
    (exampleState.env = 0 ∧
      (exampleState.mem 0).scopeVariables "x" = some (NewString "")) ∧
    eval (exampleHost false) 5 (Node.deferStmt (Node.identifier "g") []) exampleState =
      Outcome.ret (Except.ok NIL) { exampleState with deferred := [exampleCall "g"] } ∧
    (∃ obj s1, evalBlockNode (eval (exampleHost false) 5)
        [Node.assignment "x" (Node.string "new")]
        { exampleState with deferred := [exampleCall "g"] } = Outcome.ret (Except.ok obj) s1 ∧
      (s1.mem 0).scopeVariables "x" = some (NewString "g") ∧ s1.deferred.length = 0) ∧
    (∃ obj s1, evalBlockNode (eval (exampleHost false) 5)
        [Node.assignment "x" (Node.string "new"), Node.assignment "x" (Node.string "late")]
        exampleState = Outcome.ret (Except.ok obj) s1 ∧
      (s1.mem 0).scopeVariables "x" = some (NewString "late") ∧ s1.deferred.length = 0) :=
  ⟨⟨rfl, rfl⟩, rfl, Outcome.observe_ok _ 0 "x" "g" 0 pending_call_overwrites_observed,
    Outcome.observe_ok _ 0 "x" "late" 0 later_assignment_observed⟩

/-- Claim C6, amended. The enclosing chain `ps` of the environment binds `x`
innermost in scope `p`, to `v0`. The block ends with the assignment `x = e`; the
declarations `pre` before it evaluate without error and `e` evaluates to `v`,
in the state `s2`; no deferred call is pending in `s2`, so none runs at the exit
of the block. If the scope of the block does not bind `x` in `s2` (the block
did not declare `x` before the assignment), the block returns and the binding
of `x` in `p` is `v`. If the scope of the block binds `x` in `s2` (the block
declared `x` before the assignment), the block returns and the assignment
leaves the binding of `x` in `p` alone: it is still `v0` when the declarations
before the assignment left it as it was at block entry. -/
theorem assignment_in_block_without_pending_calls (h : Host) (fuel : Nat)
    (s sa s2 : Evaluator) (x : String) (v0 v : Object) (pre : List Node) (e : Node)
    (vals : List Object) (ps : List Addr) (p : Addr)
    (hc : IsChain s.mem s.env ps) (halloc : ∀ q ∈ ps, q < s.next)
    (hp : innermost s.mem x ps = some p) (hv0 : (s.mem p).scopeVariables x = some v0)
    (hpre : EvalAll (eval h (fuel + 1)) pre
      { env := s.next, deferred := s.deferred, importSet := s.importSet, latest := s.latest,
        mem := s.mem.write s.next (NewEnvironment.WithEnclosing (some s.env)),
        next := s.next + 1 } vals sa)
    (he : eval h fuel e sa = Outcome.ret (Except.ok v) s2)
    (hq : s2.deferred = [])
    (hf : ps.length + 1 ≤ fuel) :
    (binds s2.mem x s.next = false →
      ∃ s1, evalBlockNode (eval h (fuel + 1)) (pre ++ [Node.assignment x e]) s =
          Outcome.ret (Except.ok NIL) s1 ∧
        (s1.mem p).scopeVariables x = some v) ∧
    (binds s2.mem x s.next = true →
      ∃ s1, evalBlockNode (eval h (fuel + 1)) (pre ++ [Node.assignment x e]) s =
          Outcome.ret (Except.ok NIL) s1 ∧
        (s1.mem p).scopeVariables x = (s2.mem p).scopeVariables x ∧
        ((s2.mem p).scopeVariables x = (s.mem p).scopeVariables x →
          (s1.mem p).scopeVariables x = some v0)) := by
  have hpmem : p ∈ ps := List.mem_of_find?_eq_some hp
  have hpN : p ≠ s.next := Nat.ne_of_lt (halloc p hpmem)
  -- the frame of the declarations before the assignment and of `e`
  have hdecl := evalDeclarations_all (eval h (fuel + 1)) pre _ sa vals hpre
  have f1 : Frame _ sa := Framed_evalDeclarations (eval h (fuel + 1)) (Framed_eval h (fuel + 1))
    pre _ _ sa (Nat.lt_succ_self s.next) hdecl
  have f2 : Frame sa s2 := Framed_eval h fuel e sa _ s2 (f1.wf (Nat.lt_succ_self s.next)) he
  have f := f1.trans f2
  have henv : s2.env = s.next := f.env
  have hmemq : ∀ q, q ∈ ps → q < s.next + 1 ∧ q ≠ s.next := fun q hq =>
    ⟨Nat.lt_succ_of_lt (halloc q hq), Nat.ne_of_lt (halloc q hq)⟩
  -- the chain of the block scope in `s2`
  have hchain0 := IsChain_alloc s ps hc halloc
  have hchain : IsChain s2.mem s.next (s.next :: ps) := by
    refine IsChain_congr _ s2.mem s.next (s.next :: ps) hchain0 ?_
    intro q hq
    have hlt : q < s.next + 1 := by
      rcases List.mem_cons.1 hq with rfl | hq2
      · exact Nat.lt_succ_self _
      · exact (hmemq q hq2).1
    exact f.enclosing q hlt
  have hinner : innermost s2.mem x ps = some p := by
    rw [← hp]
    refine innermost_congr s.mem s2.mem x ps ?_
    intro q hq
    have h1 := f.names q (hmemq q hq).1 (hmemq q hq).2 x
    rw [h1]
    simp [binds, Mem.write, (hmemq q hq).2]
  have hstep : ∀ mem1, Assign s2.mem fuel s.next x v = some (mem1, none) →
      evalBlockNode (eval h (fuel + 1)) (pre ++ [Node.assignment x e]) s =
        Outcome.ret (Except.ok NIL)
          { env := s.env, deferred := [], importSet := s2.importSet, latest := s2.latest,
            mem := mem1, next := s2.next } := by
    intro mem1 hA
    have hAe : Assign s2.mem fuel s2.env x v = some (mem1, none) := by rw [henv]; exact hA
    simp only [evalBlockNode, evalBlockNodeWithEnv, allocEnclosed, Eval.andThen,
      evalDeclarations_append (eval h (fuel + 1)) pre [Node.assignment x e] _ sa vals hpre,
      evalDeclarations, eval_assignment, wrap, evalAssignmentNode, he, envAssign, hAe,
      wrapResult, Eval.pure, runDeferred, hq, runCalls]
  constructor
  · intro hb
    have hin : innermost s2.mem x (s.next :: ps) = some p := by
      unfold innermost at hinner ⊢
      simp only [List.find?_cons, hb]
      exact hinner
    have hA := Assign_found s2.mem x v s.next (s.next :: ps) hchain fuel
      (by simpa using hf) p hin
    exact ⟨_, hstep _ hA, by simp [Mem.write, Environment.set]⟩
  · intro hb
    have hin : innermost s2.mem x (s.next :: ps) = some s.next := by
      unfold innermost
      simp only [List.find?_cons, hb]
    have hA := Assign_found s2.mem x v s.next (s.next :: ps) hchain fuel
      (by simpa using hf) s.next hin
    have hsame : ((s2.mem.write s.next ((s2.mem s.next).set x v)) p).scopeVariables x =
        (s2.mem p).scopeVariables x := by
      simp [Mem.write, hpN]
    exact ⟨_, hstep _ hA, hsame, fun h0 => by rw [← hv0, ← h0]; exact hsame⟩

/-- Witness of C6: in `exampleEvaluator`, where no call is pending, the
enclosing scope 0 binds `x` to `old`; after the block `{ x = "new"; }` it binds
`x` to `new`, after the block `{ var x = "tmp"; x = "new"; }` still to `old`. -/
theorem assignment_in_block_without_pending_calls_witness :
    (∃ s1, evalBlockNode (eval (exampleHost false) 4)
        [Node.assignment "x" (Node.string "new")] exampleEvaluator =
          Outcome.ret (Except.ok NIL) s1 ∧
      (s1.mem 0).scopeVariables "x" = some (NewString "new")) ∧
    (∃ s1, evalBlockNode (eval (exampleHost false) 4)
        [Node.varStmt "x" (Node.string "tmp"), Node.assignment "x" (Node.string "new")]
        exampleEvaluator = Outcome.ret (Except.ok NIL) s1 ∧
      (s1.mem 0).scopeVariables "x" = some (NewString "old")) :=
  ⟨(assignment_in_block_without_pending_calls (exampleHost false) 3 exampleEvaluator _ _
      "x" (NewString "old") (NewString "new") [] (Node.string "new") [] [1, 0] 0
      exampleMem_chain (by decide) (by decide) rfl (EvalAll.nil _) rfl rfl (by decide)).1 rfl,
    match (assignment_in_block_without_pending_calls (exampleHost false) 3 exampleEvaluator _ _
      "x" (NewString "old") (NewString "new") [Node.varStmt "x" (Node.string "tmp")]
      (Node.string "new") [NIL] [1, 0] 0 exampleMem_chain (by decide) (by decide) rfl
      (EvalAll.cons _ [] _ _ _ NIL [] rfl (EvalAll.nil _)) rfl rfl (by decide)).2 rfl with
    | ⟨s1, h1, _, h3⟩ => ⟨s1, h1, h3 rfl⟩⟩

end Yeti
